import Mathlib

/-!
# KisRandomAccessor2 (libs/image/tiles3/kis_random_accessor.{h,cc})

A shallow embedding of the tiled random accessor: the bounded cache of locked
tiles, `moveTo` with its fast path and its fetch path, the constructor and the
destructor.  The tile store (`KisTiledDataManager`) and the tile constants
(`KisTileData::WIDTH`, `KisTileData::HEIGHT`) are declared outside the files
embedded here and are parameters of every definition.

Machine integers are `Int` with explicit wrap-around: `toInt32` for `qint32`
and the lanes of `Vc::int32_v`, `toUInt32` for `quint32`.  The calls the
constructor, `moveTo` and the destructor make on the tile grid (`xToCol`,
`yToRow`, `getTile`, `getOldTile`) and on tile objects (`lockForRead`,
`lockForWrite`, `unlock`, and `data`, the read of the buffer address) are
appended to a call record, the way a call-counting fake store would see them; the getters `pixelSize`,
`numContiguousColumns`, `numContiguousRows` and `rowStride` are plain
functions of the store.
-/

/-! ## Machine integers -/

/-- Wrap-around of an integer to `qint32` (two's complement, 32 bits). -/
def toInt32 (v : Int) : Int := (v + 2147483648) % 4294967296 - 2147483648

/-- Wrap-around of an integer to `quint32`. -/
def toUInt32 (v : Int) : Int := v % 4294967296

/-- The `qint32` sum. -/
def add32 (a b : Int) : Int := toInt32 (a + b)

/-- The `qint32` difference. -/
def sub32 (a b : Int) : Int := toInt32 (a - b)

/-- The `qint32` product. -/
def mul32 (a b : Int) : Int := toInt32 (a * b)

/-- The `qint32` negation. -/
def neg32 (a : Int) : Int := toInt32 (-a)

/-- The four lanes of a `Vc::int32_v` as the accessor uses them (indices 0..3). -/
structure Int32V where
  e0 : Int
  e1 : Int
  e2 : Int
  e3 : Int
deriving DecidableEq, Repr

/-- Lane-wise `operator-` of `Vc::int32_v`. -/
def Int32V.sub (a b : Int32V) : Int32V :=
  ⟨sub32 a.e0 b.e0, sub32 a.e1 b.e1, sub32 a.e2 b.e2, sub32 a.e3 b.e3⟩

/-- Lane-wise `operator*` of `Vc::int32_v`. -/
def Int32V.mul (a b : Int32V) : Int32V :=
  ⟨mul32 a.e0 b.e0, mul32 a.e1 b.e1, mul32 a.e2 b.e2, mul32 a.e3 b.e3⟩

/-- The test `Vc::all_of(d >= 0)`. -/
def Int32V.allGe0 (d : Int32V) : Bool :=
  decide (0 ≤ d.e0) && decide (0 ≤ d.e1) && decide (0 ≤ d.e2) && decide (0 ≤ d.e3)

/-! ## Tiles, the tile store and the call record -/

/-- The constants `KisTileData::WIDTH` and `KisTileData::HEIGHT`; their
declaration is outside the embedded files, so they are parameters. -/
structure KisTileData where
  WIDTH : Int
  HEIGHT : Int
deriving DecidableEq, Repr

/-- A tile object as the accessor sees it through a `KisTileSP`: the identity
of the object and the address `tile->data()` of its pixel buffer. -/
structure KisTile where
  id : Nat
  data : Int
deriving DecidableEq, Repr

/-- The part of `KisTiledDataManager` the accessor consumes.  The store has a
state of its own (`σ`): `getTile` and `getOldTile` may create tiles and so
return the new state of the store next to the tile. -/
structure KisTiledDataManager (σ : Type) where
  pixelSize : Int
  xToCol : Int → Int
  yToRow : Int → Int
  getTile : σ → Int → Int → Bool → KisTile × σ
  getOldTile : σ → Int → Int → KisTile × σ
  numContiguousColumns : Int → Int → Int → Int
  numContiguousRows : Int → Int → Int → Int
  rowStride : Int → Int → Int

/-- One call made by the accessor on the store or on a tile object; `data` is
the call `tile->data()` that reads the address of a tile's buffer. -/
inductive Call where
  | xToCol (x : Int)
  | yToRow (y : Int)
  | getTile (col row : Int) (writable : Bool) (ret : Nat)
  | getOldTile (col row : Int) (ret : Nat)
  | lockForRead (tile : Nat)
  | lockForWrite (tile : Nat)
  | unlock (tile : Nat)
  | data (tile : Nat)
deriving DecidableEq, Repr

/-- Everything outside the accessor: the state of the store and the record of
the calls made so far, oldest first. -/
structure World (σ : Type) where
  store : σ
  calls : List Call

/-- Append one call to the record. -/
def World.emit {σ : Type} (w : World σ) (c : Call) : World σ :=
  { w with calls := w.calls ++ [c] }

/-! ## The accessor -/

/-- The struct `KisRandomAccessor2::KisTileInfo`.  `area` is
`(x1, y1, -x2, -y2)`. -/
structure KisTileInfo where
  area : Int32V
  tile : KisTile
  oldtile : KisTile
  data : Int
  oldData : Int
deriving DecidableEq, Repr

/-- A default-constructed `KisTileInfo` (`KisTileInfo newTile;`): its members
are not initialised by the source; `fetchTileData` overwrites every one of them
before any is read. -/
def KisTileInfo.uninit : KisTileInfo :=
  ⟨⟨0, 0, 0, 0⟩, ⟨0, 0⟩, ⟨0, 0⟩, 0, 0⟩

/-- The data members of `KisRandomAccessor2`.  `m_ktm` is the store every
operation takes as its first argument: the constructor dereferences it
unconditionally, so it is never null in a constructed accessor. -/
structure KisRandomAccessor2 where
  m_tilesCache : List KisTileInfo
  m_tilesCacheSize : Int
  m_pixelSize : Int
  m_writable : Bool
  m_lastX : Int
  m_lastY : Int
  m_offsetX : Int
  m_offsetY : Int
  offset : Int
  m_offsetScale : Int32V
deriving DecidableEq, Repr

/-- The constant `KisRandomAccessor2::CACHESIZE`. -/
def KisRandomAccessor2.CACHESIZE : Int := 4

/-- The private `lockTile`: write lock in writable mode, read lock otherwise. -/
def KisRandomAccessor2.lockTile {σ : Type} (writable : Bool) (w : World σ) (tile : KisTile) :
    World σ :=
  if writable then w.emit (Call.lockForWrite tile.id) else w.emit (Call.lockForRead tile.id)

/-- The private `lockOldTile`: always a read lock. -/
def KisRandomAccessor2.lockOldTile {σ : Type} (w : World σ) (tile : KisTile) : World σ :=
  w.emit (Call.lockForRead tile.id)

/-- The private `unlockTile`. -/
def KisRandomAccessor2.unlockTile {σ : Type} (w : World σ) (tile : KisTile) : World σ :=
  w.emit (Call.unlock tile.id)

/-- The private `xToCol`: the argument and the result pass through `quint32`;
the store's `xToCol` takes and returns `qint32`. -/
def KisRandomAccessor2.xToCol {σ : Type} (K : KisTiledDataManager σ) (w : World σ) (x : Int) :
    Int × World σ :=
  (toUInt32 (toInt32 (K.xToCol (toInt32 (toUInt32 x)))),
   w.emit (Call.xToCol (toInt32 (toUInt32 x))))

/-- The private `yToRow`, as `xToCol`. -/
def KisRandomAccessor2.yToRow {σ : Type} (K : KisTiledDataManager σ) (w : World σ) (y : Int) :
    Int × World σ :=
  (toUInt32 (toInt32 (K.yToRow (toInt32 (toUInt32 y)))),
   w.emit (Call.yToRow (toInt32 (toUInt32 y))))

/-- The method `fetchTileData(col, row, kti)`: get and lock the current tile,
read its buffer address with `tile->data()`, record the rectangle, get and
lock the old tile, read its buffer address with `oldtile->data()`. -/
def KisRandomAccessor2.fetchTileData {σ : Type} (K : KisTiledDataManager σ) (T : KisTileData)
    (writable : Bool) (w : World σ) (col row : Int) (kti : KisTileInfo) :
    KisTileInfo × World σ :=
  let r1 := K.getTile w.store col row writable
  let w1 : World σ := { store := r1.2, calls := w.calls ++ [Call.getTile col row writable r1.1.id] }
  let w2 := KisRandomAccessor2.lockTile writable w1 r1.1
  let w2d := w2.emit (Call.data r1.1.id)
  let a0 := mul32 col T.HEIGHT
  let a1 := mul32 row T.WIDTH
  let a2 := neg32 (sub32 (add32 a0 T.HEIGHT) 1)
  let a3 := neg32 (sub32 (add32 a1 T.WIDTH) 1)
  let r2 := K.getOldTile w2d.store col row
  let w3 : World σ := { store := r2.2, calls := w2d.calls ++ [Call.getOldTile col row r2.1.id] }
  let w4 := KisRandomAccessor2.lockOldTile w3 r2.1
  let w4d := w4.emit (Call.data r2.1.id)
  ({ kti with tile := r1.1, data := r1.1.data, area := ⟨a0, a1, a2, a3⟩,
              oldtile := r2.1, oldData := r2.1.data }, w4d)

/-- The method `moveTo(x, y)`.  `none` stands for the undefined behaviour of
`m_tilesCache.front()` on an empty list. -/
def KisRandomAccessor2.moveTo {σ : Type} (K : KisTiledDataManager σ) (T : KisTileData)
    (a : KisRandomAccessor2) (w : World σ) (x y : Int) : Option (KisRandomAccessor2 × World σ) :=
  let a1 := { a with m_lastX := x, m_lastY := y }
  let x := sub32 x a.m_offsetX
  let y := sub32 y a.m_offsetY
  let pos : Int32V := ⟨x, y, neg32 x, neg32 y⟩
  match a.m_tilesCache with
  | [] => none
  | cur :: rest =>
    let d := pos.sub cur.area
    if d.allGe0 then
      let offs := d.mul a.m_offsetScale
      some ({ a1 with offset := toUInt32 (add32 offs.e0 offs.e1) }, w)
    else
      let r : List KisTileInfo × Int × World σ :=
        if a.m_tilesCacheSize = KisRandomAccessor2.CACHESIZE then
          let back := (cur :: rest).getLast (List.cons_ne_nil cur rest)
          let w1 := KisRandomAccessor2.unlockTile w back.tile
          let w2 := KisRandomAccessor2.unlockTile w1 back.oldtile
          (back :: (cur :: rest).dropLast, a.m_tilesCacheSize, w2)
        else
          (KisTileInfo.uninit :: cur :: rest, toUInt32 (a.m_tilesCacheSize + 1), w)
      let c := KisRandomAccessor2.xToCol K r.2.2 x
      let rw := KisRandomAccessor2.yToRow K c.2 y
      let f := KisRandomAccessor2.fetchTileData K T a.m_writable rw.2
                 (toInt32 c.1) (toInt32 rw.1) (r.1.headD KisTileInfo.uninit)
      let front := f.1
      some ({ a1 with
                m_tilesCache := front :: r.1.tail
                m_tilesCacheSize := r.2.1
                offset := toUInt32 (mul32 (add32 (sub32 x front.area.e0)
                            (mul32 (sub32 y front.area.e1) T.WIDTH)) a.m_pixelSize) },
            f.2)

/-- The constructor `KisRandomAccessor2(ktm, x, y, offsetX, offsetY, writable)`.
`offset` is not initialised by the member list; the closing `moveTo` sets it.
`xToCol(x)` and `yToRow(y)` are arguments of one call, so their order is not
fixed by the source; the record lists them left to right. -/
def KisRandomAccessor2.ctor {σ : Type} (K : KisTiledDataManager σ) (T : KisTileData)
    (w : World σ) (x y offsetX offsetY : Int) (writable : Bool) :
    Option (KisRandomAccessor2 × World σ) :=
  let a0 : KisRandomAccessor2 :=
    { m_tilesCache := []
      m_tilesCacheSize := 0
      m_pixelSize := K.pixelSize
      m_writable := writable
      m_lastX := x
      m_lastY := y
      m_offsetX := offsetX
      m_offsetY := offsetY
      offset := 0
      m_offsetScale := ⟨K.pixelSize, mul32 K.pixelSize T.WIDTH, 0, 0⟩ }
  let x := sub32 x offsetX
  let y := sub32 y offsetY
  let c := KisRandomAccessor2.xToCol K w x
  let rw := KisRandomAccessor2.yToRow K c.2 y
  let f := KisRandomAccessor2.fetchTileData K T writable rw.2 (toInt32 c.1) (toInt32 rw.1)
             KisTileInfo.uninit
  KisRandomAccessor2.moveTo K T { a0 with m_tilesCache := f.1 :: a0.m_tilesCache } f.2 x y

/-- The destructor: unlock the current and the old tile of every cache entry,
front to back. -/
def KisRandomAccessor2.dtor {σ : Type} (a : KisRandomAccessor2) (w : World σ) : World σ :=
  a.m_tilesCache.foldl
    (fun w tile => KisRandomAccessor2.unlockTile (KisRandomAccessor2.unlockTile w tile.tile)
                     tile.oldtile) w

/-- The method `rawData()`. -/
def KisRandomAccessor2.rawData (a : KisRandomAccessor2) : Option Int :=
  a.m_tilesCache.head?.map (fun front => front.data + a.offset)

/-- The method `rawDataConst()`. -/
def KisRandomAccessor2.rawDataConst (a : KisRandomAccessor2) : Option Int :=
  a.m_tilesCache.head?.map (fun front => front.data + a.offset)

/-- The method `oldRawData()`. -/
def KisRandomAccessor2.oldRawData (a : KisRandomAccessor2) : Option Int :=
  a.m_tilesCache.head?.map (fun front => front.oldData + a.offset)

/-- The method `rawDataImm(x, y)`: `moveTo` and then the address. -/
def KisRandomAccessor2.rawDataImm {σ : Type} (K : KisTiledDataManager σ) (T : KisTileData)
    (a : KisRandomAccessor2) (w : World σ) (x y : Int) :
    Option (Int × KisRandomAccessor2 × World σ) :=
  (KisRandomAccessor2.moveTo K T a w x y).bind
    (fun r => r.1.m_tilesCache.head?.map (fun front => (front.data + r.1.offset, r.1, r.2)))

/-- The method `numContiguousColumns(x)`. -/
def KisRandomAccessor2.numContiguousColumns {σ : Type} (K : KisTiledDataManager σ)
    (a : KisRandomAccessor2) (x : Int) : Int :=
  K.numContiguousColumns (sub32 x a.m_offsetX) 0 0

/-- The method `numContiguousRows(y)`. -/
def KisRandomAccessor2.numContiguousRows {σ : Type} (K : KisTiledDataManager σ)
    (a : KisRandomAccessor2) (y : Int) : Int :=
  K.numContiguousRows (sub32 y a.m_offsetY) 0 0

/-- The method `rowStride(x, y)`. -/
def KisRandomAccessor2.rowStride {σ : Type} (K : KisTiledDataManager σ)
    (a : KisRandomAccessor2) (x y : Int) : Int :=
  K.rowStride (sub32 x a.m_offsetX) (sub32 y a.m_offsetY)

/-- The method `x()`. -/
def KisRandomAccessor2.x (a : KisRandomAccessor2) : Int := a.m_lastX

/-- The method `y()`. -/
def KisRandomAccessor2.y (a : KisRandomAccessor2) : Int := a.m_lastY

/-- A sequence of `moveTo` calls, in order, on an accessor and its world. -/
def KisRandomAccessor2.moveAll {σ : Type} (K : KisTiledDataManager σ) (T : KisTileData)
    (s : KisRandomAccessor2 × World σ) : List (Int × Int) → Option (KisRandomAccessor2 × World σ)
  | [] => some s
  | p :: ps =>
    match KisRandomAccessor2.moveTo K T s.1 s.2 p.1 p.2 with
    | none => none
    | some s1 => KisRandomAccessor2.moveAll K T s1 ps

/-- Construction followed by a sequence of `moveTo` calls. -/
def KisRandomAccessor2.run {σ : Type} (K : KisTiledDataManager σ) (T : KisTileData)
    (w : World σ) (x y offsetX offsetY : Int) (writable : Bool) (ps : List (Int × Int)) :
    Option (KisRandomAccessor2 × World σ) :=
  match KisRandomAccessor2.ctor K T w x y offsetX offsetY writable with
  | none => none
  | some s => KisRandomAccessor2.moveAll K T s ps

/-! ## A concrete store for evaluation -/

/-- An injective numbering of the integers. -/
def cellCode (z : Int) : Nat := if 0 ≤ z then 2 * z.toNat else 2 * (-z).toNat - 1

/-- The identity of the current tile object of cell `(col, row)` in `gridStore`. -/
def cellTileId (col row : Int) : Nat := 2 * Nat.pair (cellCode col) (cellCode row)

/-- A store with one current and one old tile object per cell, floor-dividing
`xToCol`/`yToRow`, and pixel size `P`; it has no state of its own. -/
def gridStore (T : KisTileData) (P : Int) : KisTiledDataManager Unit where
  pixelSize := P
  xToCol := fun x => Int.fdiv x T.WIDTH
  yToRow := fun y => Int.fdiv y T.HEIGHT
  getTile := fun _ col row _ =>
    (⟨cellTileId col row, 1000000 * (cellTileId col row : Int)⟩, ())
  getOldTile := fun _ col row =>
    (⟨cellTileId col row + 1, 1000000 * ((cellTileId col row : Int) + 1)⟩, ())
  numContiguousColumns := fun x _ _ => T.WIDTH - Int.fmod x T.WIDTH
  numContiguousRows := fun y _ _ => T.HEIGHT - Int.fmod y T.HEIGHT
  rowStride := fun _ _ => T.WIDTH * P

/-- The world before any call. -/
def World.init : World Unit := ⟨(), []⟩

/-- Square tiles of 64 by 64 pixels. -/
def squareTiles : KisTileData := ⟨64, 64⟩


/-! ## Observations on the call record -/

/-- Whether a call is `getTile`. -/
def Call.isGetTile : Call → Bool
  | Call.getTile _ _ _ _ => true
  | _ => false

/-- Whether a call is `lockForRead` or `lockForWrite` on tile object `t`. -/
def Call.isLockOf (t : Nat) : Call → Bool
  | Call.lockForRead u => u == t
  | Call.lockForWrite u => u == t
  | _ => false

/-- Whether a call is `unlock` on tile object `t`. -/
def Call.isUnlockOf (t : Nat) : Call → Bool
  | Call.unlock u => u == t
  | _ => false

/-- The number of `getTile` calls in a record. -/
def getTileCount (cs : List Call) : Nat := cs.countP Call.isGetTile

/-- The number of lock calls (read or write) on tile object `t` in a record. -/
def lockCount (t : Nat) (cs : List Call) : Nat := cs.countP (Call.isLockOf t)

/-- The number of unlock calls on tile object `t` in a record. -/
def unlockCount (t : Nat) (cs : List Call) : Nat := cs.countP (Call.isUnlockOf t)

/-- The tile objects a cache holds locked, one occurrence per lock: the current
and the old tile of every entry. -/
def heldTiles (cache : List KisTileInfo) : List Nat :=
  cache.flatMap (fun e => [e.tile.id, e.oldtile.id])

/-! ## Geometry of the tile grid and the cache invariant -/

/-- The lanes `(x, y, -x, -y)` that `moveTo` builds from a translated point. -/
def posLanes (x y : Int) : Int32V := ⟨x, y, neg32 x, neg32 y⟩

/-- The fast-path test of `moveTo` for a target `(x, y)` (before translation)
against a recorded area: all four lanes of `pos - area` are non-negative. -/
def KisRandomAccessor2.hits (a : KisRandomAccessor2) (area : Int32V) (x y : Int) : Bool :=
  ((posLanes (sub32 x a.m_offsetX) (sub32 y a.m_offsetY)).sub area).allGe0

/-- The rectangle of cell `(col, row)` as the tile grid defines it, a grid of
tiles `WIDTH` wide and `HEIGHT` high whose column and row are the pixel
coordinates divided by the tile width and height: `(x1, y1, -x2, -y2)` with
columns scaled by the width and rows by the height.  It is the reference the
rectangle recorded by `fetchTileData` is compared with. -/
def cellArea (T : KisTileData) (col row : Int) : Int32V :=
  ⟨col * T.WIDTH, row * T.HEIGHT,
   -(col * T.WIDTH + T.WIDTH - 1), -(row * T.HEIGHT + T.HEIGHT - 1)⟩

/-- The rectangle of cell `(col, row)` lies inside the `qint32` range. -/
def cellInRange (T : KisTileData) (col row : Int) : Prop :=
  -2147483648 ≤ col * T.WIDTH ∧ col * T.WIDTH + T.WIDTH ≤ 2147483648 ∧
  -2147483648 ≤ row * T.HEIGHT ∧ row * T.HEIGHT + T.HEIGHT ≤ 2147483648

/-- A store that floor-divides by the tile size, with square tiles of more than
one pixel whose side divides `2^31`, so that no tile straddles an end of the
`qint32` range. -/
structure SquareGrid {σ : Type} (K : KisTiledDataManager σ) (T : KisTileData) : Prop where
  width_gt : 1 < T.WIDTH
  square : T.HEIGHT = T.WIDTH
  aligned : 2147483648 % T.WIDTH = 0
  xToCol_floor : ∀ x, K.xToCol x = Int.fdiv x T.WIDTH
  yToRow_floor : ∀ y, K.yToRow y = Int.fdiv y T.HEIGHT

/-- The store returns one current tile object per grid cell: the same object
for the same cell, different objects for different cells. -/
def OneTilePerCell {σ : Type} (K : KisTiledDataManager σ) : Prop :=
  ∀ (st st2 : σ) (c r c2 r2 : Int) (wr wr2 : Bool),
    (K.getTile st c r wr).1.id = (K.getTile st2 c2 r2 wr2).1.id ↔ (c = c2 ∧ r = r2)

/-- Entry `e` is what a fetch of cell `(col, row)` leaves: the rectangle of the
cell, a current tile the store returned for the cell in a recorded `getTile`
call, the old tile of the cell, and the two buffer addresses. -/
def KisTileInfo.isFetchOf {σ : Type} (K : KisTiledDataManager σ) (T : KisTileData)
    (wr : Bool) (calls : List Call) (e : KisTileInfo) (col row : Int) : Prop :=
  cellInRange T col row ∧ e.area = cellArea T col row ∧
  e.data = e.tile.data ∧ e.oldData = e.oldtile.data ∧
  (∃ st, e.tile = (K.getTile st col row wr).1) ∧
  (∃ st, e.oldtile = (K.getOldTile st col row).1) ∧
  Call.getTile col row wr e.tile.id ∈ calls

/-- The invariant of an accessor over a square grid: every cache entry is the
fetch of a cell, neighbouring entries record different rectangles, and the
pixel size and the lane scales are the ones the constructor set. -/
def CacheOK {σ : Type} (K : KisTiledDataManager σ) (T : KisTileData)
    (a : KisRandomAccessor2) (calls : List Call) : Prop :=
  a.m_pixelSize = K.pixelSize ∧
  a.m_offsetScale = ⟨K.pixelSize, mul32 K.pixelSize T.WIDTH, 0, 0⟩ ∧
  (∀ e ∈ a.m_tilesCache, ∃ col row, e.isFetchOf K T a.m_writable calls col row) ∧
  List.Chain' (fun e1 e2 => e1.area ≠ e2.area) a.m_tilesCache

/-! ## The lock discipline -/

/-- The lock discipline of a call record against the tile objects currently
held (one occurrence per lock held): on every tile object the locks recorded
are the unlocks recorded plus the locks still held, and in no prefix of the
record do the unlocks of a tile object exceed its locks. -/
def LockBalance (held : List Nat) (cs : List Call) : Prop :=
  (∀ t, lockCount t cs = unlockCount t cs + held.count t) ∧
  (∀ n t, unlockCount t (cs.take n) ≤ lockCount t (cs.take n))

/-- The call `lockTile` makes on a tile object. -/
def lockCall (wr : Bool) (t : Nat) : Call :=
  if wr then Call.lockForWrite t else Call.lockForRead t

/-- An accessor state with one cache entry, the tile of cell (0, 0) of 64 by 64
tiles, and `offsetX = 3`. -/
def sampleAccessor : KisRandomAccessor2 :=
  { m_tilesCache := [⟨⟨0, 0, -63, -63⟩, ⟨0, 0⟩, ⟨1, 1000000⟩, 0, 1000000⟩]
    m_tilesCacheSize := 0
    m_pixelSize := 4
    m_writable := true
    m_lastX := 0
    m_lastY := 0
    m_offsetX := 3
    m_offsetY := 0
    offset := 0
    m_offsetScale := ⟨4, 256, 0, 0⟩ }

/-! ## The steps of a run -/

/-- The accessor and the world of the constructor after `push_front(firstTile)`,
before its closing `moveTo`. -/
def KisRandomAccessor2.ctorFetched {σ : Type} (K : KisTiledDataManager σ) (T : KisTileData)
    (w : World σ) (x y offsetX offsetY : Int) (writable : Bool) :
    KisRandomAccessor2 × World σ :=
  let c := KisRandomAccessor2.xToCol K w (sub32 x offsetX)
  let rw := KisRandomAccessor2.yToRow K c.2 (sub32 y offsetY)
  let f := KisRandomAccessor2.fetchTileData K T writable rw.2 (toInt32 c.1) (toInt32 rw.1)
             KisTileInfo.uninit
  ({ m_tilesCache := [f.1]
     m_tilesCacheSize := 0
     m_pixelSize := K.pixelSize
     m_writable := writable
     m_lastX := x
     m_lastY := y
     m_offsetX := offsetX
     m_offsetY := offsetY
     offset := 0
     m_offsetScale := ⟨K.pixelSize, mul32 K.pixelSize T.WIDTH, 0, 0⟩ }, f.2)

/-- The calls of one tile fetch of cell `(col, row)` that returns the current
tile object `t` and the old tile object `o`: the four calls that get and lock
the two tiles, each lock followed by the read of the buffer address. -/
def fetchCalls (wr : Bool) (col row : Int) (t o : Nat) : List Call :=
  [Call.getTile col row wr t, lockCall wr t, Call.data t,
   Call.getOldTile col row o, Call.lockForRead o, Call.data o]

/-- The index `moveTo` and the constructor hand to `fetchTileData` for a
translated coordinate `v`, given the store's `xToCol` or `yToRow` as `f`: the
coordinate enters the private wrapper as `quint32`, the store takes and returns
`qint32`, the wrapper returns `quint32`, and `fetchTileData` receives
`qint32`. -/
def fetchIndex (f : Int → Int) (v : Int) : Int :=
  toInt32 (toUInt32 (toInt32 (f (toInt32 (toUInt32 v)))))

/-- Whether a call gets or locks a tile: `getTile`, `getOldTile` or a lock. -/
def Call.isFetchCall : Call → Bool
  | Call.getTile _ _ _ _ => true
  | Call.getOldTile _ _ _ => true
  | Call.lockForRead _ => true
  | Call.lockForWrite _ => true
  | _ => false

/-- Whether a call is one of the calls of a tile fetch: `getTile`, `getOldTile`,
a lock or `data`. -/
def Call.isOfFetch : Call → Bool
  | Call.getTile _ _ _ _ => true
  | Call.getOldTile _ _ _ => true
  | Call.lockForRead _ => true
  | Call.lockForWrite _ => true
  | Call.data _ => true
  | _ => false

/-- The shape of the tile fetches in a call record of an accessor of mode `wr`:
every `getTile`, `getOldTile`, lock and `data` call of the record sits in a
group of six adjacent calls that are the calls `fetchCalls` of one fetch with
mode `wr`, for some cell and the two tile objects returned. -/
def FetchShape (wr : Bool) (cs : List Call) : Prop :=
  ∀ i c, cs[i]? = some c → c.isOfFetch = true →
    ∃ j col row t o, j ≤ i ∧ i < j + 6 ∧
      ∀ k, k < 6 → cs[j + k]? = (fetchCalls wr col row t o)[k]?

/-- Entry `e` is what a fetch with mode `wr` leaves for some cell: the current
tile the store returned for the cell, the old tile the store returned for the
same cell right after, and the buffer addresses of the two. -/
def KisTileInfo.isFetched {σ : Type} (K : KisTiledDataManager σ) (wr : Bool)
    (e : KisTileInfo) : Prop :=
  ∃ st col row, e.tile = (K.getTile st col row wr).1 ∧
    e.oldtile = (K.getOldTile (K.getTile st col row wr).2 col row).1 ∧
    e.data = e.tile.data ∧ e.oldData = e.oldtile.data

/-- What every run keeps, whatever the store and the tile constants: the mode
fixed at construction, a front entry, the shape of the fetches in the call
record, and cache entries that are fetches. -/
def RunOK {σ : Type} (K : KisTiledDataManager σ) (wr : Bool)
    (s : KisRandomAccessor2 × World σ) : Prop :=
  s.1.m_writable = wr ∧ s.1.m_tilesCache ≠ [] ∧ FetchShape wr s.2.calls ∧
  ∀ e ∈ s.1.m_tilesCache, e.isFetched K wr

/-! ## Pointers and bytes -/

/-- A value that a `qint32` holds. -/
def inInt32 (v : Int) : Prop := -2147483648 ≤ v ∧ v < 2147483648

/-- Modelled from the spec: the tile buffers live in a byte memory that the
sources embedded here never touch (the accessor only hands out addresses); a
memory is a map from addresses to bytes, and this is the caller's write of the
bytes `bytes` through a pointer `p`, as in "writing through `rawData()`". -/
def writeBytes (mem : Int → Nat) (p : Int) (bytes : List Nat) : Int → Nat :=
  fun q => if p ≤ q ∧ q < p + bytes.length then bytes.getD (q - p).toNat 0 else mem q

/-- Modelled from the spec: the caller's read of `n` bytes through a pointer
`p`, as in "the bytes returned by `oldRawData()`". -/
def readBytes (mem : Int → Nat) (p : Int) (n : Nat) : List Nat :=
  (List.range n).map (fun (k : Nat) => mem (p + (k : Int)))

/-- Modelled from the spec: what an open transaction on a tile means for the
accessor, the store's snapshot has a buffer of its own: the buffers of `size`
bytes at `p` and at `q` do not overlap. -/
def buffersApart (p q size : Int) : Prop := p + size ≤ q ∨ q + size ≤ p

/-! ## Rectangles -/

/-- The point `(x, y)` lies in the rectangle that the lanes
`(x1, y1, -x2, -y2)` stand for, bounds included. -/
def Int32V.contains (area : Int32V) (x y : Int) : Prop :=
  area.e0 ≤ x ∧ x ≤ -area.e2 ∧ area.e1 ≤ y ∧ y ≤ -area.e3

/-- The tile constants with width and height exchanged. -/
def KisTileData.transposed (T : KisTileData) : KisTileData := ⟨T.HEIGHT, T.WIDTH⟩

/-- The lanes `lo` and `negHi` of one axis of a recorded rectangle stand for a
span `lo .. -negHi` that 32-bit lanes hold without wrapping: both lanes and the
upper bound are `qint32` values, the span is not empty and it is shorter than
`2^31`. -/
def properSpan (lo negHi : Int) : Prop :=
  inInt32 lo ∧ inInt32 negHi ∧ inInt32 (-negHi) ∧ lo ≤ -negHi ∧ -negHi - lo < 2147483648

/-- The lanes `(x1, y1, -x2, -y2)` are those of a rectangle that 32-bit lanes
hold without wrapping, on both axes. -/
def Int32V.properRect (area : Int32V) : Prop :=
  properSpan area.e0 area.e2 ∧ properSpan area.e1 area.e3

/-- The bound test as the design words it, for a rectangle `(x1, y1) .. (x2, y2)`
and a translated point `(x, y)`: four comparisons, bounds included. -/
def fourBoundTest (x1 y1 x2 y2 x y : Int) : Bool :=
  decide (x ≥ x1) && decide (y ≥ y1) && decide (x ≤ x2) && decide (y ≤ y2)

/-- The byte offset as the design words it, for the rectangle's corner
`(x1, y1)`: `((x - xmin) + (y - ymin) * tileWidth) * pixelSize`, in the
integers. -/
def byteOffsetSpec (x1 y1 x y tileWidth pixelSize : Int) : Int :=
  ((x - x1) + (y - y1) * tileWidth) * pixelSize

/-- The value the fetch path of `moveTo` assigns to `offset` for the translated
point `(x, y)` and the front entry's area, as the source computes it. -/
def fetchPathOffset (T : KisTileData) (pixelSize : Int) (area : Int32V) (x y : Int) : Int :=
  toUInt32 (mul32 (add32 (sub32 x area.e0) (mul32 (sub32 y area.e1) T.WIDTH)) pixelSize)

/-- The value the fast path of `moveTo` assigns to `offset`: the lanes of
`d = pos - area` times the lanes of `m_offsetScale`, lanes 0 and 1 added. -/
def fastPathOffset (scale : Int32V) (area : Int32V) (x y : Int) : Int :=
  toUInt32 (add32 (((posLanes x y).sub area).mul scale).e0
                  (((posLanes x y).sub area).mul scale).e1)

/-! ## The order of the cache -/

/-- The tile objects that the `getTile` calls of a record returned, oldest
first. -/
def fetchedIds : List Call → List Nat
  | [] => []
  | Call.getTile _ _ _ t :: cs => t :: fetchedIds cs
  | _ :: cs => fetchedIds cs

/-- The tile objects that the `getOldTile` calls of a record returned, oldest
first. -/
def fetchedOldIds : List Call → List Nat
  | [] => []
  | Call.getOldTile _ _ o :: cs => o :: fetchedOldIds cs
  | _ :: cs => fetchedOldIds cs

/-- The cache lists the tiles most recently fetched first: its current tiles
are the last five that `getTile` returned, newest first, and its old tiles the
last five that `getOldTile` returned. -/
def MruOrder {σ : Type} (s : KisRandomAccessor2 × World σ) : Prop :=
  s.1.m_tilesCache.map (fun e => e.tile.id) = (fetchedIds s.2.calls).reverse.take 5 ∧
  s.1.m_tilesCache.map (fun e => e.oldtile.id) = (fetchedOldIds s.2.calls).reverse.take 5

/-! ## Counting the moves that miss -/

/-- Whether `moveTo(x, y)` fails the fast-path test against the front entry in
state `a`, and so takes the fetch path. -/
def KisRandomAccessor2.misses (a : KisRandomAccessor2) (x y : Int) : Bool :=
  match a.m_tilesCache with
  | [] => false
  | front :: _ => !(a.hits front.area x y)

/-- The number of `moveTo` calls of a sequence, made in order from state `s`,
that miss the front entry. -/
def KisRandomAccessor2.missCount {σ : Type} (K : KisTiledDataManager σ) (T : KisTileData)
    (s : KisRandomAccessor2 × World σ) : List (Int × Int) → Nat
  | [] => 0
  | p :: ps =>
    (if s.1.misses p.1 p.2 then 1 else 0) +
      match KisRandomAccessor2.moveTo K T s.1 s.2 p.1 p.2 with
      | none => 0
      | some s1 => KisRandomAccessor2.missCount K T s1 ps

/-! ## The channel docker model -/

/-- A `QBitArray`: the bits, bit 0 first. -/
abbrev QBitArray := List Bool

/-- The method `QBitArray::isEmpty()`. -/
def QBitArray.isEmpty (b : QBitArray) : Bool := b.length == 0

/-- The method `QBitArray::testBit(i)`; `none` when `i` is not a position of
the array, where the access is undefined. -/
def QBitArray.testBit (b : QBitArray) (i : Int) : Option Bool :=
  if 0 ≤ i ∧ i < b.length then b[i.toNat]? else none

/-- The method `QBitArray::setBit(i, value)`; `none` when `i` is not a position
of the array, where the access is undefined. -/
def QBitArray.setBit (b : QBitArray) (i : Int) (value : Bool) : Option QBitArray :=
  if 0 ≤ i ∧ i < b.length then some (b.set i.toNat value) else none

/-- The enumeration `KoChannelInfo::enumChannelType`. -/
inductive ChannelType where
  | COLOR
  | ALPHA
  | SUBSTANCE
  | SUBSTRATE
  deriving DecidableEq

/-- What the channel model reads of a `KoChannelInfo`: the name, the channel
type and the display position. -/
structure KoChannelInfo where
  name : String
  channelType : ChannelType
  displayPosition : Int

/-- What the channel model reads of a `KoColorSpace`: the list `channels()` and
the bit array `channelFlags(color, alpha)`, whose code is not part of the
sources embedded here and is taken as given. -/
structure KoColorSpace where
  channels : List KoChannelInfo
  channelFlags : Bool → Bool → QBitArray

/-- The operations of the root layer that the channel model calls, over a type
`L` of layer states; their code is not part of the sources embedded here and
is taken as given. -/
structure KisGroupLayer (L : Type) where
  colorSpace : L → KoColorSpace
  channelFlags : L → QBitArray
  setChannelFlags : L → QBitArray → L

/-- An image, as far as the channel model looks at it: its root layer. -/
structure KisImage (L : Type) where
  rootLayer : L

/-- A canvas: `image()` may be null. -/
structure KisCanvas2 (L : Type) where
  image : Option (KisImage L)

/-- A `QModelIndex`: row, column and whether it belongs to a model. -/
structure QModelIndex where
  row : Int
  column : Int
  hasModel : Bool

/-- The method `QModelIndex::isValid()`. -/
def QModelIndex.isValid (i : QModelIndex) : Bool :=
  decide (0 ≤ i.row) && decide (0 ≤ i.column) && i.hasModel

/-- A `QVariant` as `ChannelModel::data` returns it: invalid, a string, an image
(thumbnails are named by a number) or an integer. -/
inductive QVariant where
  | invalid
  | string (s : String)
  | image (id : Nat)
  | int (v : Int)
  deriving DecidableEq

/-- The role `Qt::DisplayRole`. -/
def Qt.DisplayRole : Int := 0

/-- The role `Qt::DecorationRole`. -/
def Qt.DecorationRole : Int := 1

/-- The role `Qt::CheckStateRole`. -/
def Qt.CheckStateRole : Int := 10

/-- The check state `Qt::Unchecked`. -/
def Qt.Unchecked : Int := 0

/-- The check state `Qt::Checked`. -/
def Qt.Checked : Int := 2

/-- What a call of the channel model does to the outside, in order: the call
`rootLayer->setChannelFlags(flags)` and the signals emitted;
`dataChanged r1 c1 r2 c2` is `dataChanged(index(r1, c1), index(r2, c2))`. -/
inductive ChannelEvent where
  | setChannelFlags (flags : QBitArray)
  | channelFlagsChanged
  | dataChanged (r1 c1 r2 c2 : Int)
  deriving DecidableEq

/-- The state of a `ChannelModel` that `data`, `setData` and `rowActivated`
read: the canvas (may be null) and the thumbnails. -/
structure ChannelModel (L : Type) where
  m_canvas : Option (KisCanvas2 L)
  m_thumbnails : List Nat

/-- The model after `rootLayer->setChannelFlags(flags)` on the root layer of
the image of its canvas. -/
def ChannelModel.withRootLayer {L : Type} (m : ChannelModel L) (rootLayer : L) :
    ChannelModel L :=
  { m with m_canvas := some ⟨some ⟨rootLayer⟩⟩ }

/-- The root layer of the image of the model's canvas, when there are both. -/
def ChannelModel.rootLayer {L : Type} (m : ChannelModel L) : Option L :=
  match m.m_canvas with
  | some canvas => canvas.image.map (fun image => image.rootLayer)
  | none => none

/-- The member `at(i)` of a `QList` or `QVector`; `none` when `i` is not a
position of the list, where the access is undefined. -/
def listAt {α : Type} (l : List α) (i : Int) : Option α :=
  if 0 ≤ i then l[i.toNat]? else none

/-- The method `ChannelModel::data(index, role)`.  The static function
`KoChannelInfo::displayPositionToChannelIndex`, whose code is not part of the
sources embedded here, is the parameter `displayPositionToChannelIndex`.
`Q_ASSERT` lines are those of a release build and do nothing. -/
def ChannelModel.data {L : Type}
    (displayPositionToChannelIndex : Int → List KoChannelInfo → Int)
    (R : KisGroupLayer L) (m : ChannelModel L) (index : QModelIndex) (role : Int) :
    Option QVariant :=
  match m.m_canvas with
  | none => some QVariant.invalid
  | some canvas =>
    if index.isValid then
      match canvas.image with
      | none => none
      | some image =>
        let rootLayer := image.rootLayer
        let cs := R.colorSpace rootLayer
        let channels := cs.channels
        let channelIndex := displayPositionToChannelIndex index.row channels
        if role = Qt.DisplayRole then
          if index.column = 2 then
            (listAt channels channelIndex).map (fun ch => QVariant.string ch.name)
          else some QVariant.invalid
        else if role = Qt.DecorationRole then
          if index.column = 1 then
            (listAt m.m_thumbnails index.row).map QVariant.image
          else some QVariant.invalid
        else if role = Qt.CheckStateRole then
          if index.column = 0 then
            let flags := R.channelFlags rootLayer
            if flags.isEmpty then some (QVariant.int Qt.Checked)
            else (flags.testBit channelIndex).map
                   (fun b => QVariant.int (if b then Qt.Checked else Qt.Unchecked))
          else some QVariant.invalid
        else some QVariant.invalid
    else some QVariant.invalid

/-- The method `ChannelModel::setData(index, value, role)`; `value` is what
`value.toInt()` returns.  The result is the return value, the model after the
call and what the call did to the outside; `none` stands for an access
outside the bit array. -/
def ChannelModel.setData {L : Type}
    (displayPositionToChannelIndex : Int → List KoChannelInfo → Int)
    (R : KisGroupLayer L) (m : ChannelModel L) (index : QModelIndex) (value : Int)
    (role : Int) : Option (Bool × ChannelModel L × List ChannelEvent) :=
  match m.rootLayer with
  | none => some (false, m, [])
  | some rootLayer =>
    let cs := R.colorSpace rootLayer
    let channels := cs.channels
    let channelIndex := displayPositionToChannelIndex index.row channels
    if role = Qt.CheckStateRole then
      let flags := cs.channelFlags true true
      if flags.isEmpty then some (false, m, [])
      else
        match flags.setBit channelIndex (decide (value = Qt.Checked)) with
        | none => none
        | some flags =>
          some (true, m.withRootLayer (R.setChannelFlags rootLayer flags),
                [ChannelEvent.setChannelFlags flags, ChannelEvent.channelFlagsChanged,
                 ChannelEvent.dataChanged 0 0 channels.length 0])
    else some (false, m, [])

/-- The loop of `rowActivated` over the positions `0 .. channels.count() - 1`:
at every channel that is not alpha, `flags.setBit(i, i == channelIndex)`. -/
def ChannelModel.rowActivatedLoop (channels : List KoChannelInfo) (channelIndex : Int)
    (flags : QBitArray) : Option QBitArray :=
  (List.range channels.length).foldlM
    (fun (fl : QBitArray) (i : Nat) =>
      match channels[i]? with
      | none => none
      | some ch =>
        if ch.channelType ≠ ChannelType.ALPHA then
          fl.setBit (i : Int) (decide ((i : Int) = channelIndex))
        else some fl)
    flags

/-- The slot `ChannelModel::rowActivated(index)`.  The result is the model
after the call and what the call did to the outside; `none` stands for an
access outside the bit array. -/
def ChannelModel.rowActivated {L : Type}
    (displayPositionToChannelIndex : Int → List KoChannelInfo → Int)
    (R : KisGroupLayer L) (m : ChannelModel L) (index : QModelIndex) :
    Option (ChannelModel L × List ChannelEvent) :=
  match m.rootLayer with
  | none => some (m, [])
  | some rootLayer =>
    let cs := R.colorSpace rootLayer
    let channels := cs.channels
    let channelIndex := displayPositionToChannelIndex index.row channels
    let flags := cs.channelFlags true true
    if flags.isEmpty then some (m, [])
    else
      match ChannelModel.rowActivatedLoop channels channelIndex flags with
      | none => none
      | some flags =>
        some (m.withRootLayer (R.setChannelFlags rootLayer flags),
              [ChannelEvent.setChannelFlags flags, ChannelEvent.channelFlagsChanged,
               ChannelEvent.dataChanged 0 0 channels.length 0])

/-- The instance of `displayPositionToChannelIndex` used in the evaluations,
counting from position `i`: the position of the first channel whose display
position is `displayPosition`, and -1 when there is none. -/
def positionToIndexFrom (displayPosition : Int) : List KoChannelInfo → Int → Int
  | [], _ => -1
  | ch :: rest, i =>
    if ch.displayPosition = displayPosition then i
    else positionToIndexFrom displayPosition rest (i + 1)

/-- The instance of `displayPositionToChannelIndex` used in the evaluations. -/
def positionToIndex (displayPosition : Int) (channels : List KoChannelInfo) : Int :=
  positionToIndexFrom displayPosition channels 0

/-- The colour space used in the evaluations: blue, green, red and alpha in
this order, displayed as red, green, blue, alpha; `channelFlags(color, alpha)`
has the bit of every colour channel set when `color` and the bit of the alpha
channel set when `alpha`. -/
def rgbaSpace : KoColorSpace :=
  { channels := [⟨"Blue", ChannelType.COLOR, 2⟩, ⟨"Green", ChannelType.COLOR, 1⟩,
                 ⟨"Red", ChannelType.COLOR, 0⟩, ⟨"Alpha", ChannelType.ALPHA, 3⟩]
    channelFlags := fun color alpha => [color, color, color, alpha] }

/-- A root layer state for the evaluations: its colour space and the flags it
holds. -/
structure PlainLayer where
  colorSpace : KoColorSpace
  channelFlags : QBitArray

/-- The root layer operations for the evaluations: `setChannelFlags` stores the
flags handed to it, `channelFlags` returns them. -/
def plainLayer : KisGroupLayer PlainLayer :=
  { colorSpace := fun l => l.colorSpace
    channelFlags := fun l => l.channelFlags
    setChannelFlags := fun l flags => { l with channelFlags := flags } }

/-- A channel model for the evaluations: a canvas with an image whose root
layer has the colour space `rgbaSpace` and holds `flags`. -/
def sampleChannelModel (flags : QBitArray) : ChannelModel PlainLayer :=
  { m_canvas := some ⟨some ⟨⟨rgbaSpace, flags⟩⟩⟩
    m_thumbnails := [] }

/-- The flags the root layer of a model holds, in the evaluations. -/
def ChannelModel.rootFlags (m : ChannelModel PlainLayer) : Option QBitArray :=
  m.rootLayer.map (fun l => l.channelFlags)

/-! ## The pixel distance of the clone test -/

/-- The spacing of the `float` values around a natural number `n`: the least
power of two `p`, from `p` on, with `n < p * 2^24`; `fuel` bounds the search. -/
def floatUlp (n : Nat) : Nat → Nat → Nat
  | 0, p => p
  | fuel + 1, p => if n < p * 16777216 then p else floatUlp n fuel (2 * p)

/-- The `float` nearest to a natural number, ties to even: what the conversion
to `float` and the `float` addition of two whole numbers round to.  Numbers
below `2^24` are `float` values themselves.  (Overflow to infinity is out of
reach of the sums formed here.) -/
def floatOfNat (n : Nat) : Nat :=
  if 2 * (n % floatUlp n n 1) > floatUlp n n 1 ∨
      (2 * (n % floatUlp n n 1) = floatUlp n n 1 ∧ (n / floatUlp n n 1) % 2 = 1) then
    (n / floatUlp n n 1 + 1) * floatUlp n n 1
  else n / floatUlp n n 1 * floatUlp n n 1

/-- What `MaskedImage::distance` reads of a `MaskedImage`: `channelCount()` and
`getImagePixelU8(x, y, chan)`, the value `cs->scaleToU8` returns for the pixel
(a `quint8`: the value is taken modulo 256). -/
structure MaskedImage where
  channelCount : Nat
  scaleToU8 : Int → Int → Nat → Nat

/-- The method `MaskedImage::getImagePixelU8(x, y, chan)`, a `quint8`. -/
def MaskedImage.getImagePixelU8 (self : MaskedImage) (x y : Int) (chan : Nat) : Nat :=
  self.scaleToU8 x y chan % 256

/-- The method `MaskedImage::distance(x, y, other, xo, yo)`.  The difference of
the two channel values is computed in `int` and stored in the `quint8` `v`;
`v * v` is an `int`, added to the `float` `dsq`.  The result is the value of
`dsq`, a whole number. -/
def MaskedImage.distance (self : MaskedImage) (x y : Int) (other : MaskedImage)
    (xo yo : Int) : Nat :=
  (List.range self.channelCount).foldl
    (fun (dsq : Nat) (chan : Nat) =>
      let v : Nat := (((self.getImagePixelU8 x y chan : Int)
                        - (other.getImagePixelU8 xo yo chan : Int)) % 256).toNat
      floatOfNat (dsq + v * v))
    0

/-- The sum of squared differences of two pixels as the claim words it: the sum
over the channels `c` of `(a_c - b_c)^2`, for the 8-bit channel values `a_c` of
this image's pixel and `b_c` of the other's. -/
def MaskedImage.ssd (self : MaskedImage) (x y : Int) (other : MaskedImage) (xo yo : Int) :
    Int :=
  ((List.range self.channelCount).map
    (fun (c : Nat) => ((self.getImagePixelU8 x y c : Int)
                        - (other.getImagePixelU8 xo yo c : Int)) ^ 2)).sum

/-- An image of one channel whose every pixel has the 8-bit value `v`. -/
def grayImage (v : Nat) : MaskedImage := ⟨1, fun _ _ _ => v⟩

/-! # Theorems -/

/-! ## Machine integers and the lock discipline: lemmas -/

theorem toInt32_of_range (v : Int) (h1 : -2147483648 ≤ v) (h2 : v < 2147483648) :
    toInt32 v = v := by
  unfold toInt32; omega

theorem toInt32_range (v : Int) : -2147483648 ≤ toInt32 v ∧ toInt32 v < 2147483648 := by
  unfold toInt32; omega

theorem lockBalance_nil : LockBalance [] [] := by
  constructor
  · intro t; simp [lockCount, unlockCount]
  · intro n t; simp [lockCount, unlockCount]

theorem lockBalance_congr {held held2 : List Nat} {cs : List Call}
    (h : ∀ t, held.count t = held2.count t) (hb : LockBalance held cs) :
    LockBalance held2 cs := by
  refine ⟨fun t => ?_, hb.2⟩
  rw [← h t]; exact hb.1 t

theorem take_append_one {α : Type} (cs : List α) (c : α) (n : Nat) :
    (cs ++ [c]).take n = cs.take n ∨ (cs ++ [c]).take n = cs ++ [c] := by
  by_cases h : n ≤ cs.length
  · left; exact List.take_append_of_le_length h
  · right; apply List.take_of_length_le; simp; omega

theorem lockBalance_step {held held2 : List Nat} {cs : List Call} {c : Call}
    (hb : LockBalance held cs)
    (h : ∀ t, lockCount t [c] + held.count t = unlockCount t [c] + held2.count t) :
    LockBalance held2 (cs ++ [c]) := by
  have h1 : ∀ t, lockCount t (cs ++ [c]) = unlockCount t (cs ++ [c]) + held2.count t := by
    intro t
    have := hb.1 t
    have := h t
    simp only [lockCount, unlockCount, List.countP_append] at *
    omega
  refine ⟨h1, fun n t => ?_⟩
  rcases take_append_one cs c n with e | e
  · rw [e]; exact hb.2 n t
  · rw [e]; have := h1 t; omega

theorem lockBalance_other {held : List Nat} {cs : List Call} {c : Call}
    (hb : LockBalance held cs)
    (h : ∀ t, c.isLockOf t = false ∧ c.isUnlockOf t = false) :
    LockBalance held (cs ++ [c]) := by
  apply lockBalance_step hb
  intro t
  simp [lockCount, unlockCount, List.countP_cons, (h t).1, (h t).2]

theorem lockBalance_lockForRead {held : List Nat} {cs : List Call} (u : Nat)
    (hb : LockBalance held cs) : LockBalance (u :: held) (cs ++ [Call.lockForRead u]) := by
  apply lockBalance_step hb
  intro t
  by_cases e : u = t
  · simp [lockCount, unlockCount, List.countP_cons, Call.isLockOf, Call.isUnlockOf,
      List.count_cons, e]
    omega
  · simp [lockCount, unlockCount, List.countP_cons, Call.isLockOf, Call.isUnlockOf,
      List.count_cons, e]

theorem lockBalance_lockForWrite {held : List Nat} {cs : List Call} (u : Nat)
    (hb : LockBalance held cs) : LockBalance (u :: held) (cs ++ [Call.lockForWrite u]) := by
  apply lockBalance_step hb
  intro t
  by_cases e : u = t
  · simp [lockCount, unlockCount, List.countP_cons, Call.isLockOf, Call.isUnlockOf,
      List.count_cons, e]
    omega
  · simp [lockCount, unlockCount, List.countP_cons, Call.isLockOf, Call.isUnlockOf,
      List.count_cons, e]

theorem lockBalance_unlock {held : List Nat} {cs : List Call} (u : Nat)
    (hb : LockBalance (u :: held) cs) : LockBalance held (cs ++ [Call.unlock u]) := by
  apply lockBalance_step hb
  intro t
  by_cases e : u = t
  · simp [lockCount, unlockCount, List.countP_cons, Call.isLockOf, Call.isUnlockOf,
      List.count_cons, e]
    omega
  · simp [lockCount, unlockCount, List.countP_cons, Call.isLockOf, Call.isUnlockOf,
      List.count_cons, e]

theorem heldTiles_cons (e : KisTileInfo) (es : List KisTileInfo) :
    heldTiles (e :: es) = e.tile.id :: e.oldtile.id :: heldTiles es := by
  simp [heldTiles]

theorem heldTiles_count_back (l : List KisTileInfo) (h : l ≠ []) (t : Nat) :
    (heldTiles l).count t
      = ((l.getLast h).tile.id :: (l.getLast h).oldtile.id :: heldTiles l.dropLast).count t := by
  have e : heldTiles l = heldTiles (l.dropLast ++ [l.getLast h]) := by
    rw [List.dropLast_append_getLast]
  rw [e]
  simp only [heldTiles, List.flatMap_append, List.count_append, List.flatMap_cons,
    List.flatMap_nil, List.append_nil, List.count_cons, List.count_nil]
  omega


theorem fetchTileData_tile {σ : Type} (K : KisTiledDataManager σ) (T : KisTileData)
    (wr : Bool) (w : World σ) (col row : Int) (kti : KisTileInfo) :
    (KisRandomAccessor2.fetchTileData K T wr w col row kti).1.tile
      = (K.getTile w.store col row wr).1 := rfl

theorem fetchTileData_oldtile {σ : Type} (K : KisTiledDataManager σ) (T : KisTileData)
    (wr : Bool) (w : World σ) (col row : Int) (kti : KisTileInfo) :
    (KisRandomAccessor2.fetchTileData K T wr w col row kti).1.oldtile
      = (K.getOldTile (K.getTile w.store col row wr).2 col row).1 := by
  cases wr <;> rfl

theorem fetchTileData_calls {σ : Type} (K : KisTiledDataManager σ) (T : KisTileData)
    (wr : Bool) (w : World σ) (col row : Int) (kti : KisTileInfo) :
    (KisRandomAccessor2.fetchTileData K T wr w col row kti).2.calls
      = w.calls ++ [Call.getTile col row wr (K.getTile w.store col row wr).1.id,
          lockCall wr (K.getTile w.store col row wr).1.id,
          Call.data (K.getTile w.store col row wr).1.id,
          Call.getOldTile col row (K.getOldTile (K.getTile w.store col row wr).2 col row).1.id,
          Call.lockForRead (K.getOldTile (K.getTile w.store col row wr).2 col row).1.id,
          Call.data (K.getOldTile (K.getTile w.store col row wr).2 col row).1.id] := by
  cases wr <;>
    simp [KisRandomAccessor2.fetchTileData, KisRandomAccessor2.lockTile,
      KisRandomAccessor2.lockOldTile, World.emit, lockCall]

theorem lockBalance_lockCall {held : List Nat} {cs : List Call} (wr : Bool) (u : Nat)
    (hb : LockBalance held cs) : LockBalance (u :: held) (cs ++ [lockCall wr u]) := by
  cases wr
  · exact lockBalance_lockForRead u hb
  · exact lockBalance_lockForWrite u hb

theorem fetchTileData_balance {σ : Type} (K : KisTiledDataManager σ) (T : KisTileData)
    (wr : Bool) (w : World σ) (col row : Int) (kti : KisTileInfo) (held : List Nat)
    (hb : LockBalance held w.calls) :
    LockBalance
      ((KisRandomAccessor2.fetchTileData K T wr w col row kti).1.tile.id ::
        (KisRandomAccessor2.fetchTileData K T wr w col row kti).1.oldtile.id :: held)
      (KisRandomAccessor2.fetchTileData K T wr w col row kti).2.calls := by
  rw [fetchTileData_calls, fetchTileData_tile, fetchTileData_oldtile]
  have h1 := lockBalance_other (c := Call.getTile col row wr (K.getTile w.store col row wr).1.id)
    hb (fun t => ⟨rfl, rfl⟩)
  have h2 := lockBalance_lockCall wr (K.getTile w.store col row wr).1.id h1
  have h2d := lockBalance_other (c := Call.data (K.getTile w.store col row wr).1.id)
    h2 (fun t => ⟨rfl, rfl⟩)
  have h3 := lockBalance_other (c := Call.getOldTile col row
      (K.getOldTile (K.getTile w.store col row wr).2 col row).1.id) h2d (fun t => ⟨rfl, rfl⟩)
  have h4 := lockBalance_lockForRead
      (K.getOldTile (K.getTile w.store col row wr).2 col row).1.id h3
  have h4d := lockBalance_other
    (c := Call.data (K.getOldTile (K.getTile w.store col row wr).2 col row).1.id)
    h4 (fun t => ⟨rfl, rfl⟩)
  simp only [List.append_assoc, List.singleton_append] at h4d
  refine lockBalance_congr ?_ h4d
  intro t; simp only [List.count_cons]; omega

theorem xToCol_calls {σ : Type} (K : KisTiledDataManager σ) (w : World σ) (x : Int) :
    (KisRandomAccessor2.xToCol K w x).2.calls = w.calls ++ [Call.xToCol (toInt32 (toUInt32 x))] :=
  rfl

theorem yToRow_calls {σ : Type} (K : KisTiledDataManager σ) (w : World σ) (y : Int) :
    (KisRandomAccessor2.yToRow K w y).2.calls = w.calls ++ [Call.yToRow (toInt32 (toUInt32 y))] :=
  rfl

theorem unlockTile_calls {σ : Type} (w : World σ) (t : KisTile) :
    (KisRandomAccessor2.unlockTile w t).calls = w.calls ++ [Call.unlock t.id] := rfl

theorem lockBalance_xToCol {held : List Nat} {cs : List Call} (x : Int)
    (hb : LockBalance held cs) : LockBalance held (cs ++ [Call.xToCol x]) :=
  lockBalance_other hb (fun _ => ⟨rfl, rfl⟩)

theorem lockBalance_yToRow {held : List Nat} {cs : List Call} (y : Int)
    (hb : LockBalance held cs) : LockBalance held (cs ++ [Call.yToRow y]) :=
  lockBalance_other hb (fun _ => ⟨rfl, rfl⟩)

theorem moveTo_balance {σ : Type} (K : KisTiledDataManager σ) (T : KisTileData)
    (a : KisRandomAccessor2) (w : World σ) (x y : Int)
    (hne : a.m_tilesCache ≠ [])
    (hb : LockBalance (heldTiles a.m_tilesCache) w.calls) :
    ∃ s, KisRandomAccessor2.moveTo K T a w x y = some s ∧ s.1.m_tilesCache ≠ [] ∧
      LockBalance (heldTiles s.1.m_tilesCache) s.2.calls := by
  obtain ⟨cur, rest, hc⟩ := List.exists_cons_of_ne_nil hne
  unfold KisRandomAccessor2.moveTo
  simp only [hc]
  split
  · exact ⟨_, rfl, by simp [hc], by simpa [hc] using hb⟩
  · refine ⟨_, rfl, by simp, ?_⟩
    simp only [heldTiles_cons]
    split
    · -- the cache is full: the back entry is unlocked and its slot reused
      simp only [List.headD_cons, List.tail_cons]
      apply fetchTileData_balance
      rw [yToRow_calls, xToCol_calls]
      refine lockBalance_yToRow _ (lockBalance_xToCol _ ?_)
      rw [unlockTile_calls, unlockTile_calls]
      apply lockBalance_unlock
      apply lockBalance_unlock
      rw [hc] at hb
      exact lockBalance_congr (heldTiles_count_back (cur :: rest) (List.cons_ne_nil cur rest)) hb
    · simp only [List.headD_cons, List.tail_cons]
      apply fetchTileData_balance
      rw [yToRow_calls, xToCol_calls]
      refine lockBalance_yToRow _ (lockBalance_xToCol _ ?_)
      rw [hc] at hb
      exact hb

/-! ## Floor division and the fast-path test -/

theorem fdiv_bounds (x W : Int) (h : 0 < W) :
    Int.fdiv x W * W ≤ x ∧ x < Int.fdiv x W * W + W := by
  rw [Int.fdiv_eq_ediv x (Int.le_of_lt h)]
  have h1 := Int.ediv_mul_le x (Int.ne_of_gt h)
  have h2 := Int.lt_ediv_add_one_mul_self x h
  rw [Int.add_mul, Int.one_mul] at h2
  exact ⟨h1, h2⟩

theorem fdiv_unique (x W q : Int) (h : 0 < W) (h1 : q * W ≤ x) (h2 : x < q * W + W) :
    Int.fdiv x W = q := by
  rw [Int.fdiv_eq_ediv x (Int.le_of_lt h)]
  have a1 : q ≤ x / W := Int.le_ediv_of_mul_le h h1
  have a2 : x / W < q + 1 := by
    apply Int.ediv_lt_of_lt_mul h
    rw [Int.add_mul, Int.one_mul]; exact h2
  omega

theorem fdiv_aligned (x W : Int) (h : 0 < W) (ha : 2147483648 % W = 0)
    (hx1 : -2147483648 ≤ x) (hx2 : x < 2147483648) :
    -2147483648 ≤ Int.fdiv x W * W ∧ Int.fdiv x W * W + W ≤ 2147483648 := by
  rw [Int.fdiv_eq_ediv x (Int.le_of_lt h)]
  have hM : 2147483648 / W * W = 2147483648 :=
    Int.ediv_mul_cancel (Int.dvd_of_emod_eq_zero ha)
  have a1 : -(2147483648 / W) ≤ x / W := by
    apply Int.le_ediv_of_mul_le h
    rw [Int.neg_mul, hM]; exact hx1
  have a2 : x / W < 2147483648 / W := by
    apply Int.ediv_lt_of_lt_mul h
    rw [hM]; exact hx2
  have b1 : -(2147483648 / W) * W ≤ x / W * W := Int.mul_le_mul_of_nonneg_right a1 (Int.le_of_lt h)
  have b2 : (x / W + 1) * W ≤ 2147483648 / W * W :=
    Int.mul_le_mul_of_nonneg_right (by omega) (Int.le_of_lt h)
  rw [Int.neg_mul, hM] at b1
  rw [hM, Int.add_mul, Int.one_mul] at b2
  exact ⟨b1, b2⟩

theorem fdiv_int32 (x W : Int) (h : 0 < W)
    (hx1 : -2147483648 ≤ x) (hx2 : x < 2147483648) :
    -2147483648 ≤ Int.fdiv x W ∧ Int.fdiv x W < 2147483648 := by
  rw [Int.fdiv_eq_ediv x (Int.le_of_lt h)]
  constructor
  · apply Int.le_ediv_of_mul_le h
    have : (-2147483648 : Int) * W ≤ -2147483648 * 1 :=
      Int.mul_le_mul_of_nonpos_left (by omega) (by omega)
    omega
  · apply Int.ediv_lt_of_lt_mul h
    have : (2147483648 : Int) * 1 ≤ 2147483648 * W :=
      Int.mul_le_mul_of_nonneg_left (by omega) (by omega)
    omega

theorem allGe0_iff (x y cw rw W H : Int)
    (hx1 : -2147483648 ≤ x) (hx2 : x < 2147483648)
    (hy1 : -2147483648 ≤ y) (hy2 : y < 2147483648)
    (hW : 0 < W) (hW2 : W ≤ 2147483648) (hc1 : -2147483648 ≤ cw) (hc2 : cw + W ≤ 2147483648)
    (hH : 0 < H) (hH2 : H ≤ 2147483648) (hr1 : -2147483648 ≤ rw) (hr2 : rw + H ≤ 2147483648) :
    (Int32V.sub ⟨x, y, neg32 x, neg32 y⟩ ⟨cw, rw, -(cw + W - 1), -(rw + H - 1)⟩).allGe0 = true
      ↔ (cw ≤ x ∧ x ≤ cw + W - 1 ∧ rw ≤ y ∧ y ≤ rw + H - 1) := by
  simp only [Int32V.allGe0, Int32V.sub, sub32, neg32, toInt32, Bool.and_eq_true,
    decide_eq_true_eq]
  constructor
  · rintro ⟨⟨⟨h0, h1⟩, h2⟩, h3⟩
    omega
  · rintro ⟨h0, h1, h2, h3⟩
    refine ⟨⟨⟨?_, ?_⟩, ?_⟩, ?_⟩ <;> omega

/-! ## The two paths of `moveTo` -/

theorem fetchTileData_kti {σ : Type} (K : KisTiledDataManager σ) (T : KisTileData)
    (wr : Bool) (w : World σ) (col row : Int) (kti : KisTileInfo) :
    KisRandomAccessor2.fetchTileData K T wr w col row kti
      = KisRandomAccessor2.fetchTileData K T wr w col row KisTileInfo.uninit := rfl

theorem moveTo_hit {σ : Type} (K : KisTiledDataManager σ) (T : KisTileData)
    (a : KisRandomAccessor2) (w : World σ) (x y : Int) (cur : KisTileInfo)
    (rest : List KisTileInfo) (hc : a.m_tilesCache = cur :: rest)
    (hh : a.hits cur.area x y = true) :
    KisRandomAccessor2.moveTo K T a w x y
      = some ({ a with
                  m_lastX := x
                  m_lastY := y
                  offset := toUInt32 (add32
                    (mul32 (sub32 (sub32 x a.m_offsetX) cur.area.e0) a.m_offsetScale.e0)
                    (mul32 (sub32 (sub32 y a.m_offsetY) cur.area.e1) a.m_offsetScale.e1)) },
              w) := by
  unfold KisRandomAccessor2.moveTo
  simp only [hc]
  unfold KisRandomAccessor2.hits posLanes at hh
  rw [if_pos hh]
  rfl

theorem moveTo_miss {σ : Type} (K : KisTiledDataManager σ) (T : KisTileData)
    (a : KisRandomAccessor2) (w : World σ) (x y : Int) (cur : KisTileInfo)
    (rest : List KisTileInfo) (hc : a.m_tilesCache = cur :: rest)
    (hh : a.hits cur.area x y = false) :
    ∃ (kept : List KisTileInfo) (n : Int) (pre : List Call) (w1 : World σ),
      w1.store = w.store ∧ w1.calls = w.calls ++ pre ∧
      ((kept = cur :: rest ∧ a.m_tilesCacheSize ≠ KisRandomAccessor2.CACHESIZE ∧
          n = toUInt32 (a.m_tilesCacheSize + 1) ∧
          pre = [Call.xToCol (toInt32 (toUInt32 (sub32 x a.m_offsetX))),
            Call.yToRow (toInt32 (toUInt32 (sub32 y a.m_offsetY)))]) ∨
       (kept = (cur :: rest).dropLast ∧ a.m_tilesCacheSize = KisRandomAccessor2.CACHESIZE ∧
          n = a.m_tilesCacheSize ∧
          pre =
            [Call.unlock ((cur :: rest).getLast (List.cons_ne_nil cur rest)).tile.id,
             Call.unlock ((cur :: rest).getLast (List.cons_ne_nil cur rest)).oldtile.id,
             Call.xToCol (toInt32 (toUInt32 (sub32 x a.m_offsetX))),
             Call.yToRow (toInt32 (toUInt32 (sub32 y a.m_offsetY)))])) ∧
      KisRandomAccessor2.moveTo K T a w x y
        = some ({ a with
                    m_lastX := x
                    m_lastY := y
                    m_tilesCache :=
                      (KisRandomAccessor2.fetchTileData K T a.m_writable w1
                        (toInt32 (toUInt32 (toInt32 (K.xToCol (toInt32 (toUInt32
                          (sub32 x a.m_offsetX)))))))
                        (toInt32 (toUInt32 (toInt32 (K.yToRow (toInt32 (toUInt32
                          (sub32 y a.m_offsetY)))))))
                        KisTileInfo.uninit).1 :: kept
                    m_tilesCacheSize := n
                    offset := toUInt32 (mul32 (add32
                      (sub32 (sub32 x a.m_offsetX) (mul32 (toInt32 (toUInt32 (toInt32 (K.xToCol
                        (toInt32 (toUInt32 (sub32 x a.m_offsetX))))))) T.HEIGHT))
                      (mul32 (sub32 (sub32 y a.m_offsetY) (mul32 (toInt32 (toUInt32 (toInt32
                        (K.yToRow (toInt32 (toUInt32 (sub32 y a.m_offsetY))))))) T.WIDTH))
                        T.WIDTH)) a.m_pixelSize) },
                (KisRandomAccessor2.fetchTileData K T a.m_writable w1
                  (toInt32 (toUInt32 (toInt32 (K.xToCol (toInt32 (toUInt32
                    (sub32 x a.m_offsetX)))))))
                  (toInt32 (toUInt32 (toInt32 (K.yToRow (toInt32 (toUInt32
                    (sub32 y a.m_offsetY)))))))
                  KisTileInfo.uninit).2) := by
  unfold KisRandomAccessor2.hits posLanes at hh
  unfold KisRandomAccessor2.moveTo
  simp only [hc]
  rw [if_neg (by simp [hh])]
  by_cases hs : a.m_tilesCacheSize = KisRandomAccessor2.CACHESIZE
  · refine ⟨(cur :: rest).dropLast, a.m_tilesCacheSize, _,
      (KisRandomAccessor2.yToRow K (KisRandomAccessor2.xToCol K
        (KisRandomAccessor2.unlockTile (KisRandomAccessor2.unlockTile w
          ((cur :: rest).getLast (List.cons_ne_nil cur rest)).tile)
          ((cur :: rest).getLast (List.cons_ne_nil cur rest)).oldtile)
        (sub32 x a.m_offsetX)).2 (sub32 y a.m_offsetY)).2, rfl, ?_, Or.inr ⟨rfl, hs, rfl, rfl⟩, ?_⟩
    · simp [KisRandomAccessor2.yToRow, KisRandomAccessor2.xToCol, KisRandomAccessor2.unlockTile,
        World.emit]
    · rw [if_pos hs]
      rfl
  · refine ⟨cur :: rest, toUInt32 (a.m_tilesCacheSize + 1), _,
      (KisRandomAccessor2.yToRow K (KisRandomAccessor2.xToCol K w
        (sub32 x a.m_offsetX)).2 (sub32 y a.m_offsetY)).2, rfl, ?_, Or.inl ⟨rfl, hs, rfl, rfl⟩, ?_⟩
    · simp [KisRandomAccessor2.yToRow, KisRandomAccessor2.xToCol, World.emit]
    · rw [if_neg hs]
      rfl

/-! ## Conversions and the recorded rectangle -/

theorem toUInt32_toInt32 (v : Int) : toUInt32 (toInt32 v) = toUInt32 v := by
  unfold toUInt32 toInt32; omega

theorem toInt32_toUInt32 (v : Int) : toInt32 (toUInt32 v) = toInt32 v := by
  unfold toUInt32 toInt32; omega

theorem toInt32_modEq (v : Int) : toInt32 v ≡ v [ZMOD 4294967296] := by
  unfold Int.ModEq toInt32; omega

theorem toUInt32_congr {a b : Int} (h : a ≡ b [ZMOD 4294967296]) : toUInt32 a = toUInt32 b := h

theorem toUInt32_of_range (v : Int) (h1 : 0 ≤ v) (h2 : v < 4294967296) : toUInt32 v = v := by
  unfold toUInt32; omega

/-- The index the accessor hands to `fetchTileData` is the store's floor
quotient for an in-range coordinate. -/
theorem wrapper_floor (f : Int → Int) (x W : Int) (hW : 0 < W)
    (hf : ∀ x, f x = Int.fdiv x W)
    (hx1 : -2147483648 ≤ x) (hx2 : x < 2147483648) :
    toInt32 (toUInt32 (toInt32 (f (toInt32 (toUInt32 x))))) = Int.fdiv x W := by
  have h := fdiv_int32 x W hW hx1 hx2
  rw [toInt32_toUInt32 x, toInt32_of_range x hx1 hx2, hf, toInt32_toUInt32,
    toInt32_of_range _ (toInt32_range _).1 (toInt32_range _).2, toInt32_of_range _ h.1 h.2]

/-- On a square grid the rectangle `fetchTileData` records for an in-range
cell is the rectangle of the cell. -/
theorem fetchTileData_area_square {σ : Type} (K : KisTiledDataManager σ) (T : KisTileData)
    (wr : Bool) (w : World σ) (col row : Int) (kti : KisTileInfo)
    (hsq : T.HEIGHT = T.WIDTH) (hW : 1 < T.WIDTH) (hr : cellInRange T col row) :
    (KisRandomAccessor2.fetchTileData K T wr w col row kti).1.area = cellArea T col row := by
  obtain ⟨h1, h2, h3, h4⟩ := hr
  simp only [KisRandomAccessor2.fetchTileData, cellArea, mul32, add32, sub32, neg32]
  rw [hsq] at h3 h4 ⊢
  generalize col * T.WIDTH = cw at h1 h2 ⊢
  generalize row * T.WIDTH = rw at h3 h4 ⊢
  have e0 : toInt32 cw = cw := toInt32_of_range cw h1 (by omega)
  have e1 : toInt32 rw = rw := toInt32_of_range rw h3 (by omega)
  have e2 : toInt32 (-toInt32 (toInt32 (cw + T.WIDTH) - 1)) = -(cw + T.WIDTH - 1) := by
    by_cases hc : cw + T.WIDTH = 2147483648
    · rw [hc]; simp only [toInt32]; omega
    · rw [toInt32_of_range (cw + T.WIDTH) (by omega) (by omega),
        toInt32_of_range (cw + T.WIDTH - 1) (by omega) (by omega),
        toInt32_of_range _ (by omega) (by omega)]
  have e3 : toInt32 (-toInt32 (toInt32 (rw + T.WIDTH) - 1)) = -(rw + T.WIDTH - 1) := by
    by_cases hc : rw + T.WIDTH = 2147483648
    · rw [hc]; simp only [toInt32]; omega
    · rw [toInt32_of_range (rw + T.WIDTH) (by omega) (by omega),
        toInt32_of_range (rw + T.WIDTH - 1) (by omega) (by omega),
        toInt32_of_range _ (by omega) (by omega)]
  rw [e0, e1, e2, e3]

theorem offset_fast (x y cw rw P W : Int) :
    toUInt32 (add32 (mul32 (sub32 x cw) P) (mul32 (sub32 y rw) (mul32 P W)))
      = toUInt32 (((x - cw) + (y - rw) * W) * P) := by
  apply toUInt32_congr
  have h1 : mul32 (sub32 x cw) P ≡ (x - cw) * P [ZMOD 4294967296] :=
    (toInt32_modEq _).trans ((toInt32_modEq _).mul_right _)
  have h2 : mul32 (sub32 y rw) (mul32 P W) ≡ (y - rw) * (P * W) [ZMOD 4294967296] :=
    (toInt32_modEq _).trans ((toInt32_modEq _).mul (toInt32_modEq _))
  have h3 := (toInt32_modEq (mul32 (sub32 x cw) P + mul32 (sub32 y rw) (mul32 P W))).trans
    (h1.add h2)
  have e : ((x - cw) + (y - rw) * W) * P = (x - cw) * P + (y - rw) * (P * W) := by ring
  rw [e]
  exact h3

theorem offset_fetch (x y cw rw P W : Int) :
    toUInt32 (mul32 (add32 (sub32 x cw) (mul32 (sub32 y rw) W)) P)
      = toUInt32 (((x - cw) + (y - rw) * W) * P) := by
  apply toUInt32_congr
  have h2 : mul32 (sub32 y rw) W ≡ (y - rw) * W [ZMOD 4294967296] :=
    (toInt32_modEq _).trans ((toInt32_modEq _).mul_right _)
  have h3 : add32 (sub32 x cw) (mul32 (sub32 y rw) W) ≡ (x - cw) + (y - rw) * W
      [ZMOD 4294967296] :=
    (toInt32_modEq _).trans ((toInt32_modEq _).add h2)
  exact (toInt32_modEq _).trans (h3.mul_right _)

/-! ## The invariant on a square grid -/

theorem cellArea_injective (T : KisTileData) (hW : 0 < T.WIDTH) (hH : 0 < T.HEIGHT)
    (c r c2 r2 : Int) (h : cellArea T c r = cellArea T c2 r2) : c = c2 ∧ r = r2 := by
  simp only [cellArea, Int32V.mk.injEq] at h
  exact ⟨Int.eq_of_mul_eq_mul_right (Int.ne_of_gt hW) h.1,
    Int.eq_of_mul_eq_mul_right (Int.ne_of_gt hH) h.2.1⟩

theorem isFetchOf_mono {σ : Type} (K : KisTiledDataManager σ) (T : KisTileData)
    (wr : Bool) (calls more : List Call) (e : KisTileInfo) (col row : Int)
    (h : e.isFetchOf K T wr calls col row) : e.isFetchOf K T wr (calls ++ more) col row := by
  obtain ⟨h1, h2, h3, h4, h5, h6, h7⟩ := h
  exact ⟨h1, h2, h3, h4, h5, h6, List.mem_append_left _ h7⟩

theorem fetchTileData_isFetchOf {σ : Type} (K : KisTiledDataManager σ) (T : KisTileData)
    (wr : Bool) (w : World σ) (col row : Int) (kti : KisTileInfo)
    (hsq : T.HEIGHT = T.WIDTH) (hW : 1 < T.WIDTH) (hr : cellInRange T col row) :
    (KisRandomAccessor2.fetchTileData K T wr w col row kti).1.isFetchOf K T wr
      (KisRandomAccessor2.fetchTileData K T wr w col row kti).2.calls col row := by
  refine ⟨hr, fetchTileData_area_square K T wr w col row kti hsq hW hr, rfl, ?_, ⟨w.store, rfl⟩,
    ⟨(K.getTile w.store col row wr).2, fetchTileData_oldtile K T wr w col row kti⟩, ?_⟩
  · cases wr <;> rfl
  · rw [fetchTileData_calls, fetchTileData_tile]
    simp

theorem head_dropLast_cons {α : Type} (cur : α) (rest : List α) :
    ∀ y ∈ ((cur :: rest).dropLast).head?, y = cur := by
  cases rest with
  | nil => simp
  | cons r rs => simp

/-- One `moveTo` on a square grid: it returns, keeps the invariant, leaves at
the front the fetch of the cell of the translated target, and sets the byte
offset of the target inside that cell. -/
theorem moveTo_square {σ : Type} (K : KisTiledDataManager σ) (T : KisTileData)
    (hG : SquareGrid K T) (a : KisRandomAccessor2) (w : World σ) (x y : Int)
    (hne : a.m_tilesCache ≠ []) (hI : CacheOK K T a w.calls) :
    ∃ s front rest, KisRandomAccessor2.moveTo K T a w x y = some s ∧
      CacheOK K T s.1 s.2.calls ∧ s.1.m_tilesCache = front :: rest ∧
      front.isFetchOf K T a.m_writable s.2.calls
        (Int.fdiv (sub32 x a.m_offsetX) T.WIDTH) (Int.fdiv (sub32 y a.m_offsetY) T.HEIGHT) ∧
      s.1.offset = toUInt32
        (((sub32 x a.m_offsetX - Int.fdiv (sub32 x a.m_offsetX) T.WIDTH * T.WIDTH)
          + (sub32 y a.m_offsetY - Int.fdiv (sub32 y a.m_offsetY) T.HEIGHT * T.HEIGHT)
              * T.WIDTH) * K.pixelSize) ∧
      s.1.m_offsetX = a.m_offsetX ∧ s.1.m_offsetY = a.m_offsetY ∧
      s.1.m_writable = a.m_writable := by
  obtain ⟨cur, rest, hc⟩ := List.exists_cons_of_ne_nil hne
  obtain ⟨hP, hS, hE, hCh⟩ := hI
  obtain ⟨col, row, hcur⟩ := hE cur (by simp [hc])
  obtain ⟨hr, harea, hd, hod, ht, hot, hcall⟩ := hcur
  obtain ⟨hW, hsq, hal, hxc, hyr⟩ := hG
  have hW0 : 0 < T.WIDTH := by omega
  have hWle : T.WIDTH ≤ 2147483648 := Int.le_of_dvd (by decide) (Int.dvd_of_emod_eq_zero hal)
  have rx := toInt32_range (x - a.m_offsetX)
  have ry := toInt32_range (y - a.m_offsetY)
  have bx := fdiv_bounds (sub32 x a.m_offsetX) T.WIDTH hW0
  have by1 := fdiv_bounds (sub32 y a.m_offsetY) T.WIDTH hW0
  have ax := fdiv_aligned (sub32 x a.m_offsetX) T.WIDTH hW0 hal rx.1 rx.2
  have ay := fdiv_aligned (sub32 y a.m_offsetY) T.WIDTH hW0 hal ry.1 ry.2
  have hin : cellInRange T (Int.fdiv (sub32 x a.m_offsetX) T.WIDTH)
      (Int.fdiv (sub32 y a.m_offsetY) T.WIDTH) := by
    unfold cellInRange; rw [hsq]; exact ⟨ax.1, ax.2, ay.1, ay.2⟩
  have hr2 := hr
  unfold cellInRange at hr2
  rw [hsq] at hr2
  have hit_iff := allGe0_iff (sub32 x a.m_offsetX) (sub32 y a.m_offsetY)
    (col * T.WIDTH) (row * T.WIDTH) T.WIDTH T.WIDTH rx.1 rx.2 ry.1 ry.2 hW0 hWle hr2.1 hr2.2.1
    hW0 hWle hr2.2.2.1 hr2.2.2.2
  have hareaW : cur.area = ⟨col * T.WIDTH, row * T.WIDTH,
      -(col * T.WIDTH + T.WIDTH - 1), -(row * T.WIDTH + T.WIDTH - 1)⟩ := by
    rw [harea, cellArea, hsq]
  rw [hsq]
  by_cases hh : a.hits cur.area x y = true
  · -- fast path
    have hh2 := hh
    unfold KisRandomAccessor2.hits posLanes at hh2
    rw [hareaW] at hh2
    have hb := hit_iff.1 hh2
    have ecol : Int.fdiv (sub32 x a.m_offsetX) T.WIDTH = col :=
      fdiv_unique _ _ _ hW0 hb.1 (by omega)
    have erow : Int.fdiv (sub32 y a.m_offsetY) T.WIDTH = row :=
      fdiv_unique _ _ _ hW0 hb.2.2.1 (by omega)
    refine ⟨_, cur, rest, moveTo_hit K T a w x y cur rest hc hh, ⟨hP, hS, hE, hCh⟩, hc, ?_, ?_,
      rfl, rfl, rfl⟩
    · rw [ecol, erow]
      have := hsq
      exact ⟨hr, harea, hd, hod, ht, hot, hcall⟩
    · simp only
      rw [hS, hareaW, ecol, erow]
      exact offset_fast _ _ _ _ _ _
  · -- fetch path
    have hh1 : a.hits cur.area x y = false := by simpa using hh
    obtain ⟨kept, n, pre, w1, hst, hw1, hk, hm⟩ := moveTo_miss K T a w x y cur rest hc hh1
    have wc := wrapper_floor K.xToCol (sub32 x a.m_offsetX) T.WIDTH hW0 hxc rx.1 rx.2
    have wr := wrapper_floor K.yToRow (sub32 y a.m_offsetY) T.WIDTH hW0
      (fun v => by rw [hyr, hsq]) ry.1 ry.2
    rw [wc, wr] at hm
    have hkept : (∀ e ∈ kept, e ∈ a.m_tilesCache) ∧ (∀ e ∈ kept.head?, e = cur) ∧
        List.Chain' (fun e1 e2 => e1.area ≠ e2.area) kept := by
      rcases hk with ⟨hk, _⟩ | ⟨hk, _⟩
      · rw [hk, hc]
        rw [hc] at hCh
        exact ⟨fun e he => he, by simp, hCh⟩
      · rw [hk, hc]
        rw [hc] at hCh
        exact ⟨fun e he => List.mem_of_mem_dropLast he, head_dropLast_cons cur rest,
          hCh.prefix (List.dropLast_prefix _)⟩
    have hf := fetchTileData_isFetchOf K T a.m_writable w1
      (Int.fdiv (sub32 x a.m_offsetX) T.WIDTH) (Int.fdiv (sub32 y a.m_offsetY) T.WIDTH)
      KisTileInfo.uninit hsq hW hin
    have hcalls : ∃ more, (KisRandomAccessor2.fetchTileData K T a.m_writable w1
        (Int.fdiv (sub32 x a.m_offsetX) T.WIDTH) (Int.fdiv (sub32 y a.m_offsetY) T.WIDTH)
        KisTileInfo.uninit).2.calls = w.calls ++ more :=
      ⟨_, by rw [fetchTileData_calls, hw1, List.append_assoc]⟩
    obtain ⟨more, hcalls⟩ := hcalls
    refine ⟨_, _, kept, hm, ⟨hP, hS, ?_, ?_⟩, rfl, hf, ?_, rfl, rfl, rfl⟩
    · intro e he
      simp only [List.mem_cons] at he
      rcases he with he | he
      · exact ⟨_, _, he ▸ hf⟩
      · obtain ⟨c2, r2, h2⟩ := hE e (hkept.1 e he)
        refine ⟨c2, r2, ?_⟩
        simp only
        rw [hcalls]
        exact isFetchOf_mono K T _ _ _ e c2 r2 h2
    · simp only
      rw [List.chain'_cons']
      refine ⟨fun e he => ?_, hkept.2.2⟩
      rw [hkept.2.1 e he, hf.2.1, harea]
      intro heq
      have := cellArea_injective T hW0 (by omega) _ _ _ _ heq
      apply hh
      unfold KisRandomAccessor2.hits posLanes
      rw [hareaW]
      apply hit_iff.2
      rw [← this.1, ← this.2]
      omega
    · simp only
      have e0 : mul32 (Int.fdiv (sub32 x a.m_offsetX) T.WIDTH) T.HEIGHT
          = Int.fdiv (sub32 x a.m_offsetX) T.WIDTH * T.WIDTH := by
        rw [hsq]; exact toInt32_of_range _ ax.1 (by omega)
      have e1 : mul32 (Int.fdiv (sub32 y a.m_offsetY) T.WIDTH) T.WIDTH
          = Int.fdiv (sub32 y a.m_offsetY) T.WIDTH * T.WIDTH :=
        toInt32_of_range _ ay.1 (by omega)
      rw [e0, e1, hP]
      exact offset_fetch _ _ _ _ _ _

theorem ctor_square {σ : Type} (K : KisTiledDataManager σ) (T : KisTileData)
    (hG : SquareGrid K T) (w : World σ) (x y offsetX offsetY : Int) (writable : Bool) :
    ∃ s front rest, KisRandomAccessor2.ctor K T w x y offsetX offsetY writable = some s ∧
      CacheOK K T s.1 s.2.calls ∧ s.1.m_tilesCache = front :: rest ∧
      front.isFetchOf K T writable s.2.calls
        (Int.fdiv (sub32 (sub32 x offsetX) offsetX) T.WIDTH)
        (Int.fdiv (sub32 (sub32 y offsetY) offsetY) T.HEIGHT) ∧
      s.1.offset = toUInt32
        (((sub32 (sub32 x offsetX) offsetX
              - Int.fdiv (sub32 (sub32 x offsetX) offsetX) T.WIDTH * T.WIDTH)
          + (sub32 (sub32 y offsetY) offsetY
              - Int.fdiv (sub32 (sub32 y offsetY) offsetY) T.HEIGHT * T.HEIGHT)
              * T.WIDTH) * K.pixelSize) ∧
      s.1.m_offsetX = offsetX ∧ s.1.m_offsetY = offsetY ∧ s.1.m_writable = writable := by
  have hG2 := hG
  obtain ⟨hW, hsq, hal, hxc, hyr⟩ := hG2
  have hW0 : 0 < T.WIDTH := by omega
  have rx := toInt32_range (x - offsetX)
  have ry := toInt32_range (y - offsetY)
  have ax := fdiv_aligned (sub32 x offsetX) T.WIDTH hW0 hal rx.1 rx.2
  have ay := fdiv_aligned (sub32 y offsetY) T.WIDTH hW0 hal ry.1 ry.2
  have hin : cellInRange T (Int.fdiv (sub32 x offsetX) T.WIDTH)
      (Int.fdiv (sub32 y offsetY) T.WIDTH) := by
    unfold cellInRange; rw [hsq]; exact ⟨ax.1, ax.2, ay.1, ay.2⟩
  have wc := wrapper_floor K.xToCol (sub32 x offsetX) T.WIDTH hW0 hxc rx.1 rx.2
  have wr := wrapper_floor K.yToRow (sub32 y offsetY) T.WIDTH hW0
    (fun v => by rw [hyr, hsq]) ry.1 ry.2
  unfold KisRandomAccessor2.ctor
  simp only [KisRandomAccessor2.xToCol, KisRandomAccessor2.yToRow]
  rw [wc, wr]
  apply moveTo_square K T hG
  · simp
  · refine ⟨rfl, rfl, ?_, by simp⟩
    intro e he
    simp only [List.mem_singleton] at he
    rw [he]
    exact ⟨_, _, fetchTileData_isFetchOf K T writable _ _ _ _ hsq hW hin⟩

/-- What a run over a square grid keeps: the invariant, a non-empty cache and
the construction arguments held in the accessor. -/
theorem moveAll_square {σ : Type} (K : KisTiledDataManager σ) (T : KisTileData)
    (hG : SquareGrid K T) (ps : List (Int × Int)) (s : KisRandomAccessor2 × World σ)
    (hne : s.1.m_tilesCache ≠ []) (hI : CacheOK K T s.1 s.2.calls) :
    ∃ s2, KisRandomAccessor2.moveAll K T s ps = some s2 ∧ s2.1.m_tilesCache ≠ [] ∧
      CacheOK K T s2.1 s2.2.calls ∧ s2.1.m_offsetX = s.1.m_offsetX ∧
      s2.1.m_offsetY = s.1.m_offsetY ∧ s2.1.m_writable = s.1.m_writable := by
  induction ps generalizing s with
  | nil => exact ⟨s, rfl, hne, hI, rfl, rfl, rfl⟩
  | cons p ps ih =>
    obtain ⟨s1, front, rest, h1, hI1, hc1, _, _, hx1, hy1, hw1⟩ :=
      moveTo_square K T hG s.1 s.2 p.1 p.2 hne hI
    obtain ⟨s2, h2, hne2, hI2, hx2, hy2, hw2⟩ := ih s1 (by simp [hc1]) hI1
    refine ⟨s2, ?_, hne2, hI2, hx2.trans hx1, hy2.trans hy1, hw2.trans hw1⟩
    simp only [KisRandomAccessor2.moveAll, h1, h2]

theorem run_square {σ : Type} (K : KisTiledDataManager σ) (T : KisTileData)
    (hG : SquareGrid K T) (w : World σ) (x y offsetX offsetY : Int) (writable : Bool)
    (ps : List (Int × Int)) :
    ∃ s, KisRandomAccessor2.run K T w x y offsetX offsetY writable ps = some s ∧
      s.1.m_tilesCache ≠ [] ∧ CacheOK K T s.1 s.2.calls ∧ s.1.m_offsetX = offsetX ∧
      s.1.m_offsetY = offsetY ∧ s.1.m_writable = writable := by
  obtain ⟨s1, front, rest, h1, hI1, hc1, _, _, hx1, hy1, hw1⟩ :=
    ctor_square K T hG w x y offsetX offsetY writable
  obtain ⟨s2, h2, hne2, hI2, hx2, hy2, hw2⟩ := moveAll_square K T hG ps s1 (by simp [hc1]) hI1
  refine ⟨s2, ?_, hne2, hI2, hx2.trans hx1, hy2.trans hy1, hw2.trans hw1⟩
  unfold KisRandomAccessor2.run
  rw [h1]
  exact h2

theorem moveAll_append {σ : Type} (K : KisTiledDataManager σ) (T : KisTileData)
    (ps : List (Int × Int)) (p : Int × Int) (s : KisRandomAccessor2 × World σ) :
    KisRandomAccessor2.moveAll K T s (ps ++ [p])
      = (KisRandomAccessor2.moveAll K T s ps).bind
          (fun s1 => KisRandomAccessor2.moveTo K T s1.1 s1.2 p.1 p.2) := by
  induction ps generalizing s with
  | nil =>
    simp only [List.nil_append, KisRandomAccessor2.moveAll, Option.some_bind]
    cases KisRandomAccessor2.moveTo K T s.1 s.2 p.1 p.2 <;> rfl
  | cons q qs ih =>
    simp only [List.cons_append, KisRandomAccessor2.moveAll]
    cases KisRandomAccessor2.moveTo K T s.1 s.2 q.1 q.2 with
    | none => rfl
    | some s1 => exact ih s1

theorem run_append {σ : Type} (K : KisTiledDataManager σ) (T : KisTileData)
    (w : World σ) (x y offsetX offsetY : Int) (writable : Bool)
    (ps : List (Int × Int)) (p : Int × Int) :
    KisRandomAccessor2.run K T w x y offsetX offsetY writable (ps ++ [p])
      = (KisRandomAccessor2.run K T w x y offsetX offsetY writable ps).bind
          (fun s1 => KisRandomAccessor2.moveTo K T s1.1 s1.2 p.1 p.2) := by
  unfold KisRandomAccessor2.run
  cases KisRandomAccessor2.ctor K T w x y offsetX offsetY writable with
  | none => rfl
  | some s => exact moveAll_append K T ps p s

/-! ## Square tiles: what the accessor does serve -/

/-- The byte offset of a pixel inside its tile fits the buffer. -/
theorem pixel_offset_bounds (i j W H P : Int) (hi0 : 0 ≤ i) (hi : i < W) (hj0 : 0 ≤ j)
    (hj : j < H) (hP : 0 ≤ P) :
    0 ≤ (i + j * W) * P ∧ (i + j * W) * P + P ≤ W * H * P := by
  have hW : 0 ≤ W := by omega
  have h1 : 0 ≤ j * W := Int.mul_nonneg hj0 hW
  have h2 : j * W ≤ (H - 1) * W := Int.mul_le_mul_of_nonneg_right (by omega) hW
  have h3 : i + j * W + 1 ≤ W * H := by
    have : (H - 1) * W = W * H - W := by ring
    omega
  have h4 : (i + j * W + 1) * P ≤ W * H * P := Int.mul_le_mul_of_nonneg_right h3 hP
  have h5 : (i + j * W + 1) * P = (i + j * W) * P + P := by ring
  exact ⟨Int.mul_nonneg (by omega) hP, by omega⟩

/-- On a square grid every run that ends with `moveTo(px, py)` returns with,
at the front of the cache, the fetch of the cell of the translated target (a
tile the store returned for that cell in a recorded `getTile` call), whose
recorded rectangle contains the translated target, and with the byte offset of
the translated target inside that tile (as a `quint32`). -/
theorem square_moveTo_serves_target {σ : Type} (K : KisTiledDataManager σ) (T : KisTileData)
    (hG : SquareGrid K T) (w : World σ) (x y offsetX offsetY : Int) (writable : Bool)
    (ps : List (Int × Int)) (px py : Int) :
    ∃ s front rest,
      KisRandomAccessor2.run K T w x y offsetX offsetY writable (ps ++ [(px, py)]) = some s ∧
      s.1.m_tilesCache = front :: rest ∧
      front.isFetchOf K T writable s.2.calls
        (Int.fdiv (sub32 px offsetX) T.WIDTH) (Int.fdiv (sub32 py offsetY) T.HEIGHT) ∧
      (front.area.e0 ≤ sub32 px offsetX ∧ sub32 px offsetX ≤ -front.area.e2 ∧
        front.area.e1 ≤ sub32 py offsetY ∧ sub32 py offsetY ≤ -front.area.e3) ∧
      s.1.offset = toUInt32
        (((sub32 px offsetX - Int.fdiv (sub32 px offsetX) T.WIDTH * T.WIDTH)
          + (sub32 py offsetY - Int.fdiv (sub32 py offsetY) T.HEIGHT * T.HEIGHT)
              * T.WIDTH) * K.pixelSize) := by
  obtain ⟨s1, h1, hne1, hI1, hx1, hy1, hw1⟩ :=
    run_square K T hG w x y offsetX offsetY writable ps
  obtain ⟨s, front, rest, h2, _, hc, hf, hoff, _, _, _⟩ :=
    moveTo_square K T hG s1.1 s1.2 px py hne1 hI1
  rw [hx1, hy1] at hf hoff
  rw [hw1] at hf
  refine ⟨s, front, rest, ?_, hc, hf, ?_, hoff⟩
  · rw [run_append, h1]
    exact h2
  · have hW0 : 0 < T.WIDTH := by have := hG.width_gt; omega
    have bx := fdiv_bounds (sub32 px offsetX) T.WIDTH hW0
    have by1 := fdiv_bounds (sub32 py offsetY) T.HEIGHT (by rw [hG.square]; exact hW0)
    rw [hf.2.1]
    simp only [cellArea]
    omega

/-- C1: on a grid of square tiles (`WIDTH = HEIGHT`, a side above 1 that
divides `2^31`, as the 64 by 64 tiles of the build) with a store that
floor-divides, after construction and any sequence of `moveTo` calls, a
`moveTo` whose translated target is the pixel `(i, j)` of the tile of cell
`(col, row)`, the tile with origin `(col * WIDTH, row * HEIGHT)`, with
`0 ≤ i < WIDTH` and `0 ≤ j < HEIGHT`, returns and leaves `rawData()` equal to
the buffer base of the front tile, a tile the store returned for cell
`(col, row)` in a recorded `getTile` call, plus `(i + j * WIDTH) * pixelSize`,
whichever path served the move.  The tile buffer has at most `2^32` bytes. -/
theorem C1_offset_correct {σ : Type} (K : KisTiledDataManager σ) (T : KisTileData)
    (hG : SquareGrid K T) (hP : 0 ≤ K.pixelSize)
    (hB : T.WIDTH * T.HEIGHT * K.pixelSize ≤ 4294967296)
    (w : World σ) (x y offsetX offsetY : Int) (writable : Bool)
    (ps : List (Int × Int)) (px py col row i j : Int)
    (hi0 : 0 ≤ i) (hi : i < T.WIDTH) (hj0 : 0 ≤ j) (hj : j < T.HEIGHT)
    (hx : sub32 px offsetX = col * T.WIDTH + i) (hy : sub32 py offsetY = row * T.HEIGHT + j) :
    ∃ s front rest,
      KisRandomAccessor2.run K T w x y offsetX offsetY writable (ps ++ [(px, py)]) = some s ∧
      s.1.m_tilesCache = front :: rest ∧
      (∃ st, front.tile = (K.getTile st col row writable).1) ∧
      Call.getTile col row writable front.tile.id ∈ s.2.calls ∧
      s.1.rawData = some (front.tile.data + (i + j * T.WIDTH) * K.pixelSize) := by
  obtain ⟨s, front, rest, hs, hc, hf, _, hoff⟩ :=
    square_moveTo_serves_target K T hG w x y offsetX offsetY writable ps px py
  have hW0 : 0 < T.WIDTH := by have := hG.width_gt; omega
  have hH0 : 0 < T.HEIGHT := by rw [hG.square]; exact hW0
  have ec : Int.fdiv (sub32 px offsetX) T.WIDTH = col :=
    fdiv_unique _ _ _ hW0 (by omega) (by omega)
  have er : Int.fdiv (sub32 py offsetY) T.HEIGHT = row :=
    fdiv_unique _ _ _ hH0 (by omega) (by omega)
  rw [ec, er] at hf hoff
  obtain ⟨_, _, hd, _, ht, _, hcall⟩ := hf
  refine ⟨s, front, rest, hs, hc, ht, hcall, ?_⟩
  have hb := pixel_offset_bounds i j T.WIDTH T.HEIGHT K.pixelSize hi0 hi hj0 hj hP
  have e1 : sub32 px offsetX - col * T.WIDTH = i := by omega
  have e2 : sub32 py offsetY - row * T.HEIGHT = j := by omega
  rw [e1, e2, toUInt32_of_range _ hb.1 (by
    by_cases h : 0 < K.pixelSize
    · omega
    · have : K.pixelSize = 0 := by omega
      rw [this]; simp)] at hoff
  simp only [KisRandomAccessor2.rawData, hc, List.head?_cons, Option.map_some', hoff, hd]

/-- C3: on a grid of square tiles (`WIDTH = HEIGHT`, a side above 1 that
divides `2^31`, as the 64 by 64 tiles of the build) with a store that
floor-divides and a tile buffer of at most `2^32` bytes, after construction
and after every `moveTo` the byte offset that `rawData`, `rawDataConst` and
`oldRawData` add to the front tile's buffer stays inside the buffer:
`0 ≤ offset` and `offset + pixelSize ≤ WIDTH * HEIGHT * pixelSize`. -/
theorem C3_offset_in_buffer {σ : Type} (K : KisTiledDataManager σ) (T : KisTileData)
    (hG : SquareGrid K T) (hP : 0 ≤ K.pixelSize)
    (hB : T.WIDTH * T.HEIGHT * K.pixelSize ≤ 4294967296)
    (w : World σ) (x y offsetX offsetY : Int) (writable : Bool) (ps : List (Int × Int)) :
    ∃ s, KisRandomAccessor2.run K T w x y offsetX offsetY writable ps = some s ∧
      0 ≤ s.1.offset ∧ s.1.offset + K.pixelSize ≤ T.WIDTH * T.HEIGHT * K.pixelSize := by
  have hW0 : 0 < T.WIDTH := by have := hG.width_gt; omega
  have hH0 : 0 < T.HEIGHT := by rw [hG.square]; exact hW0
  have key : ∀ u v : Int,
      0 ≤ toUInt32 (((u - Int.fdiv u T.WIDTH * T.WIDTH)
          + (v - Int.fdiv v T.HEIGHT * T.HEIGHT) * T.WIDTH) * K.pixelSize) ∧
      toUInt32 (((u - Int.fdiv u T.WIDTH * T.WIDTH)
          + (v - Int.fdiv v T.HEIGHT * T.HEIGHT) * T.WIDTH) * K.pixelSize) + K.pixelSize
        ≤ T.WIDTH * T.HEIGHT * K.pixelSize := by
    intro u v
    have bu := fdiv_bounds u T.WIDTH hW0
    have bv := fdiv_bounds v T.HEIGHT hH0
    have hb := pixel_offset_bounds (u - Int.fdiv u T.WIDTH * T.WIDTH)
      (v - Int.fdiv v T.HEIGHT * T.HEIGHT) T.WIDTH T.HEIGHT K.pixelSize
      (by omega) (by omega) (by omega) (by omega) hP
    rw [toUInt32_of_range _ hb.1 (by
      by_cases h : 0 < K.pixelSize
      · omega
      · have : K.pixelSize = 0 := by omega
        rw [this]; simp)]
    exact hb
  rcases List.eq_nil_or_concat ps with rfl | ⟨qs, p, rfl⟩
  · obtain ⟨s, front, rest, hs, _, _, _, hoff, _, _, _⟩ :=
      ctor_square K T hG w x y offsetX offsetY writable
    refine ⟨s, ?_, ?_⟩
    · unfold KisRandomAccessor2.run
      rw [hs]
      rfl
    · rw [hoff]; exact key _ _
  · obtain ⟨s, front, rest, hs, _, _, _, hoff⟩ :=
      square_moveTo_serves_target K T hG w x y offsetX offsetY writable qs p.1 p.2
    refine ⟨s, ?_, ?_⟩
    · rw [List.concat_eq_append]
      exact hs
    · rw [hoff]; exact key _ _

/-- On a square grid the fast-path test against the rectangle of an in-range
cell succeeds exactly when the translated target lies in that cell. -/
theorem hits_iff_cell {σ : Type} (K : KisTiledDataManager σ) (T : KisTileData)
    (hG : SquareGrid K T) (a : KisRandomAccessor2) (col row : Int)
    (hr : cellInRange T col row) (x y : Int) :
    a.hits (cellArea T col row) x y = true
      ↔ (Int.fdiv (sub32 x a.m_offsetX) T.WIDTH = col ∧
         Int.fdiv (sub32 y a.m_offsetY) T.HEIGHT = row) := by
  obtain ⟨hW, hsq, hal, _, _⟩ := hG
  have hW0 : 0 < T.WIDTH := by omega
  have hWle : T.WIDTH ≤ 2147483648 := Int.le_of_dvd (by decide) (Int.dvd_of_emod_eq_zero hal)
  have rx := toInt32_range (x - a.m_offsetX)
  have ry := toInt32_range (y - a.m_offsetY)
  have bx := fdiv_bounds (sub32 x a.m_offsetX) T.WIDTH hW0
  have by1 := fdiv_bounds (sub32 y a.m_offsetY) T.WIDTH hW0
  unfold cellInRange at hr
  rw [hsq] at hr ⊢
  have hit_iff := allGe0_iff (sub32 x a.m_offsetX) (sub32 y a.m_offsetY)
    (col * T.WIDTH) (row * T.WIDTH) T.WIDTH T.WIDTH rx.1 rx.2 ry.1 ry.2 hW0 hWle hr.1 hr.2.1
    hW0 hWle hr.2.2.1 hr.2.2.2
  unfold KisRandomAccessor2.hits posLanes cellArea
  rw [hsq, hit_iff]
  constructor
  · intro hb
    exact ⟨fdiv_unique _ _ _ hW0 hb.1 (by omega), fdiv_unique _ _ _ hW0 hb.2.2.1 (by omega)⟩
  · rintro ⟨rfl, rfl⟩
    omega

/-- A `moveTo` whose translated target lies in the cell of the front entry
changes neither the cache nor the size counter nor the world. -/
theorem moveTo_in_front_cell {σ : Type} (K : KisTiledDataManager σ) (T : KisTileData)
    (hG : SquareGrid K T) (a : KisRandomAccessor2) (w : World σ) (x y : Int)
    (cur : KisTileInfo) (rest : List KisTileInfo) (hc : a.m_tilesCache = cur :: rest)
    (hr : cellInRange T (Int.fdiv (sub32 x a.m_offsetX) T.WIDTH)
            (Int.fdiv (sub32 y a.m_offsetY) T.HEIGHT))
    (ha : cur.area = cellArea T (Int.fdiv (sub32 x a.m_offsetX) T.WIDTH)
            (Int.fdiv (sub32 y a.m_offsetY) T.HEIGHT)) :
    ∃ s, KisRandomAccessor2.moveTo K T a w x y = some s ∧
      s.1.m_tilesCache = a.m_tilesCache ∧ s.1.m_tilesCacheSize = a.m_tilesCacheSize ∧
      s.1.m_offsetX = a.m_offsetX ∧ s.1.m_offsetY = a.m_offsetY ∧ s.2 = w := by
  have hh : a.hits cur.area x y = true := by
    rw [ha]
    exact (hits_iff_cell K T hG a _ _ hr x y).2 ⟨rfl, rfl⟩
  exact ⟨_, moveTo_hit K T a w x y cur rest hc hh, rfl, rfl, rfl, rfl, rfl⟩

/-- A sequence of `moveTo` calls whose translated targets all lie in the cell
of the front entry changes neither the cache nor the world. -/
theorem moveAll_in_front_cell {σ : Type} (K : KisTiledDataManager σ) (T : KisTileData)
    (hG : SquareGrid K T) (ps : List (Int × Int)) (s : KisRandomAccessor2 × World σ)
    (cur : KisTileInfo) (rest : List KisTileInfo) (col row : Int)
    (hc : s.1.m_tilesCache = cur :: rest) (hr : cellInRange T col row)
    (ha : cur.area = cellArea T col row)
    (hps : ∀ p ∈ ps, Int.fdiv (sub32 p.1 s.1.m_offsetX) T.WIDTH = col ∧
                      Int.fdiv (sub32 p.2 s.1.m_offsetY) T.HEIGHT = row) :
    ∃ s2, KisRandomAccessor2.moveAll K T s ps = some s2 ∧
      s2.1.m_tilesCache = s.1.m_tilesCache ∧ s2.1.m_tilesCacheSize = s.1.m_tilesCacheSize ∧
      s2.2 = s.2 := by
  induction ps generalizing s with
  | nil => exact ⟨s, rfl, rfl, rfl, rfl⟩
  | cons p ps ih =>
    have hp := hps p (List.mem_cons_self p ps)
    obtain ⟨s1, h1, hc1, hn1, hx1, hy1, hw1⟩ :=
      moveTo_in_front_cell K T hG s.1 s.2 p.1 p.2 cur rest hc (by rw [hp.1, hp.2]; exact hr)
        (by rw [hp.1, hp.2]; exact ha)
    obtain ⟨s2, h2, hc2, hn2, hw2⟩ := ih s1 (hc1.trans hc)
      (fun q hq => by rw [hx1, hy1]; exact hps q (List.mem_cons_of_mem p hq))
    refine ⟨s2, ?_, hc2.trans hc1, hn2.trans hn1, hw2.trans hw1⟩
    simp only [KisRandomAccessor2.moveAll, h1, h2]

theorem sub32_zero_idem (v : Int) : sub32 (sub32 v 0) 0 = sub32 v 0 := by
  unfold sub32 toInt32; omega

theorem getTileCount_fetch {σ : Type} (K : KisTiledDataManager σ) (T : KisTileData)
    (wr : Bool) (w : World σ) (col row : Int) (kti : KisTileInfo) :
    getTileCount (KisRandomAccessor2.fetchTileData K T wr w col row kti).2.calls
      = getTileCount w.calls + 1 := by
  rw [fetchTileData_calls]
  cases wr <;> simp [getTileCount, List.countP_cons, Call.isGetTile, lockCall]

/-- C7 and C8 with zero offsets on a square grid: the constructed accessor has
exactly one cache entry, the fetch of the cell of `(x, y)`, and construction
followed by any moves that stay in that cell makes exactly one `getTile`
call. -/
theorem square_locality_zero_offset {σ : Type} (K : KisTiledDataManager σ) (T : KisTileData)
    (hG : SquareGrid K T) (w : World σ) (x y : Int) (writable : Bool) (ps : List (Int × Int))
    (hps : ∀ p ∈ ps, Int.fdiv (sub32 p.1 0) T.WIDTH = Int.fdiv (sub32 x 0) T.WIDTH ∧
                      Int.fdiv (sub32 p.2 0) T.HEIGHT = Int.fdiv (sub32 y 0) T.HEIGHT) :
    ∃ s e, KisRandomAccessor2.run K T w x y 0 0 writable ps = some s ∧
      s.1.m_tilesCache = [e] ∧
      e.isFetchOf K T writable s.2.calls
        (Int.fdiv (sub32 x 0) T.WIDTH) (Int.fdiv (sub32 y 0) T.HEIGHT) ∧
      getTileCount s.2.calls = getTileCount w.calls + 1 := by
  have hG2 := hG
  obtain ⟨hW, hsq, hal, hxc, hyr⟩ := hG2
  have hW0 : 0 < T.WIDTH := by omega
  have rx := toInt32_range (x - 0)
  have ry := toInt32_range (y - 0)
  have ax := fdiv_aligned (sub32 x 0) T.WIDTH hW0 hal rx.1 rx.2
  have ay := fdiv_aligned (sub32 y 0) T.WIDTH hW0 hal ry.1 ry.2
  have hin : cellInRange T (Int.fdiv (sub32 x 0) T.WIDTH) (Int.fdiv (sub32 y 0) T.HEIGHT) := by
    unfold cellInRange; rw [hsq]; exact ⟨ax.1, ax.2, ay.1, ay.2⟩
  have wc := wrapper_floor K.xToCol (sub32 x 0) T.WIDTH hW0 hxc rx.1 rx.2
  have wr := wrapper_floor K.yToRow (sub32 y 0) T.HEIGHT (by rw [hsq]; exact hW0) hyr ry.1 ry.2
  have hf := fetchTileData_isFetchOf K T writable
    (KisRandomAccessor2.yToRow K (KisRandomAccessor2.xToCol K w (sub32 x 0)).2 (sub32 y 0)).2
    (Int.fdiv (sub32 x 0) T.WIDTH) (Int.fdiv (sub32 y 0) T.HEIGHT) KisTileInfo.uninit hsq hW hin
  have hcount := getTileCount_fetch K T writable
    (KisRandomAccessor2.yToRow K (KisRandomAccessor2.xToCol K w (sub32 x 0)).2 (sub32 y 0)).2
    (Int.fdiv (sub32 x 0) T.WIDTH) (Int.fdiv (sub32 y 0) T.HEIGHT) KisTileInfo.uninit
  have hc0 : getTileCount
      (KisRandomAccessor2.yToRow K (KisRandomAccessor2.xToCol K w (sub32 x 0)).2
        (sub32 y 0)).2.calls = getTileCount w.calls := by
    rw [yToRow_calls, xToCol_calls]
    simp [getTileCount, List.countP_cons, Call.isGetTile]
  rw [hc0] at hcount
  -- the closing `moveTo` of the constructor
  obtain ⟨s1, h1, hc1, _, hx1, hy1, hw1⟩ := moveTo_in_front_cell K T hG
    { m_tilesCache := [(KisRandomAccessor2.fetchTileData K T writable
          (KisRandomAccessor2.yToRow K (KisRandomAccessor2.xToCol K w (sub32 x 0)).2
            (sub32 y 0)).2
          (Int.fdiv (sub32 x 0) T.WIDTH) (Int.fdiv (sub32 y 0) T.HEIGHT) KisTileInfo.uninit).1]
      m_tilesCacheSize := 0
      m_pixelSize := K.pixelSize
      m_writable := writable
      m_lastX := x
      m_lastY := y
      m_offsetX := 0
      m_offsetY := 0
      offset := 0
      m_offsetScale := ⟨K.pixelSize, mul32 K.pixelSize T.WIDTH, 0, 0⟩ }
    (KisRandomAccessor2.fetchTileData K T writable
      (KisRandomAccessor2.yToRow K (KisRandomAccessor2.xToCol K w (sub32 x 0)).2 (sub32 y 0)).2
      (Int.fdiv (sub32 x 0) T.WIDTH) (Int.fdiv (sub32 y 0) T.HEIGHT) KisTileInfo.uninit).2
    (sub32 x 0) (sub32 y 0) _ [] rfl
    (by simp only [sub32_zero_idem]; exact hin)
    (by simp only [sub32_zero_idem]; exact hf.2.1)
  have hctor : KisRandomAccessor2.ctor K T w x y 0 0 writable = some s1 := by
    unfold KisRandomAccessor2.ctor
    simp only [KisRandomAccessor2.xToCol, KisRandomAccessor2.yToRow] at h1 ⊢
    rw [wc, wr]
    exact h1
  obtain ⟨s2, h2, hc2, _, hw2⟩ := moveAll_in_front_cell K T hG ps s1 _ [] _ _ hc1 hin hf.2.1
    (by rw [hx1, hy1]; exact hps)
  refine ⟨s2, _, ?_, hc2.trans hc1, ?_, ?_⟩
  · unfold KisRandomAccessor2.run
    rw [hctor]
    exact h2
  · rw [hw2, hw1]; exact hf
  · rw [hw2, hw1]; exact hcount

/-! ## The size counter and the recorded position -/

/-- One `moveTo` keeps the relation between the cache list and its size
counter: the list has one entry more than the counter says, and the counter is
at most `CACHESIZE`. -/
theorem moveTo_size {σ : Type} (K : KisTiledDataManager σ) (T : KisTileData)
    (a : KisRandomAccessor2) (w : World σ) (x y : Int)
    (hl : (a.m_tilesCache.length : Int) = a.m_tilesCacheSize + 1)
    (h0 : 0 ≤ a.m_tilesCacheSize)
    (hn : a.m_tilesCacheSize ≤ KisRandomAccessor2.CACHESIZE) :
    ∃ s, KisRandomAccessor2.moveTo K T a w x y = some s ∧
      (s.1.m_tilesCache.length : Int) = s.1.m_tilesCacheSize + 1 ∧
      0 ≤ s.1.m_tilesCacheSize ∧
      s.1.m_tilesCacheSize ≤ KisRandomAccessor2.CACHESIZE := by
  have hne : a.m_tilesCache ≠ [] := by
    intro h
    rw [h] at hl
    simp at hl
    omega
  obtain ⟨cur, rest, hc⟩ := List.exists_cons_of_ne_nil hne
  by_cases hh : a.hits cur.area x y = true
  · exact ⟨_, moveTo_hit K T a w x y cur rest hc hh, hl, h0, hn⟩
  · have hh1 : a.hits cur.area x y = false := by simpa using hh
    obtain ⟨kept, n, pre, w1, _, _, hk, hm⟩ := moveTo_miss K T a w x y cur rest hc hh1
    refine ⟨_, hm, ?_, ?_, ?_⟩
    · simp only [List.length_cons]
      rcases hk with ⟨hk, hs, hn2, _⟩ | ⟨hk, hs, hn2, _⟩
      · rw [hk, hn2, ← hc]
        unfold KisRandomAccessor2.CACHESIZE at hn hs
        unfold toUInt32
        push_cast
        omega
      · rw [hk, hn2, List.length_dropLast, ← hc]
        have h1 : 1 ≤ a.m_tilesCache.length := by rw [hc]; simp
        push_cast [h1]
        omega
    · simp only
      rcases hk with ⟨hk, hs, hn2, _⟩ | ⟨hk, hs, hn2, _⟩
      · rw [hn2]
        unfold KisRandomAccessor2.CACHESIZE at hn hs
        unfold toUInt32
        omega
      · rw [hn2]; exact h0
    · simp only
      rcases hk with ⟨hk, hs, hn2, _⟩ | ⟨hk, hs, hn2, _⟩
      · rw [hn2]
        unfold KisRandomAccessor2.CACHESIZE at hn hs ⊢
        unfold toUInt32
        omega
      · rw [hn2]; exact hn

/-- After construction and any sequence of `moveTo` calls the cache list has
one entry more than `m_tilesCacheSize`, which is at most `CACHESIZE`: the list
holds at most five entries. -/
theorem run_size {σ : Type} (K : KisTiledDataManager σ) (T : KisTileData)
    (w : World σ) (x y offsetX offsetY : Int) (writable : Bool) (ps : List (Int × Int)) :
    ∃ s, KisRandomAccessor2.run K T w x y offsetX offsetY writable ps = some s ∧
      (s.1.m_tilesCache.length : Int) = s.1.m_tilesCacheSize + 1 ∧
      s.1.m_tilesCacheSize ≤ KisRandomAccessor2.CACHESIZE ∧
      s.1.m_tilesCache.length ≤ 5 := by
  have hctor : ∃ s, KisRandomAccessor2.ctor K T w x y offsetX offsetY writable = some s ∧
      (s.1.m_tilesCache.length : Int) = s.1.m_tilesCacheSize + 1 ∧
      0 ≤ s.1.m_tilesCacheSize ∧
      s.1.m_tilesCacheSize ≤ KisRandomAccessor2.CACHESIZE := by
    unfold KisRandomAccessor2.ctor
    apply moveTo_size
    · simp
    · simp
    · simp [KisRandomAccessor2.CACHESIZE]
  have hall : ∀ (qs : List (Int × Int)) (s : KisRandomAccessor2 × World σ),
      (s.1.m_tilesCache.length : Int) = s.1.m_tilesCacheSize + 1 →
      0 ≤ s.1.m_tilesCacheSize →
      s.1.m_tilesCacheSize ≤ KisRandomAccessor2.CACHESIZE →
      ∃ s2, KisRandomAccessor2.moveAll K T s qs = some s2 ∧
        (s2.1.m_tilesCache.length : Int) = s2.1.m_tilesCacheSize + 1 ∧
        s2.1.m_tilesCacheSize ≤ KisRandomAccessor2.CACHESIZE := by
    intro qs
    induction qs with
    | nil => exact fun s h1 _ h2 => ⟨s, rfl, h1, h2⟩
    | cons p qs ih =>
      intro s h1 h0 h2
      obtain ⟨s1, e1, a1, z1, b1⟩ := moveTo_size K T s.1 s.2 p.1 p.2 h1 h0 h2
      obtain ⟨s2, e2, a2, b2⟩ := ih s1 a1 z1 b1
      exact ⟨s2, by simp only [KisRandomAccessor2.moveAll, e1, e2], a2, b2⟩
  obtain ⟨s1, e1, a1, z1, b1⟩ := hctor
  obtain ⟨s2, e2, a2, b2⟩ := hall ps s1 a1 z1 b1
  refine ⟨s2, ?_, a2, b2, ?_⟩
  · unfold KisRandomAccessor2.run
    rw [e1]
    exact e2
  · unfold KisRandomAccessor2.CACHESIZE at b2
    omega

/-- From a state with a front entry `moveTo(x, y)` returns with `m_lastX = x`
and `m_lastY = y`. -/
theorem moveTo_last {σ : Type} (K : KisTiledDataManager σ) (T : KisTileData)
    (a : KisRandomAccessor2) (w : World σ) (x y : Int) (hne : a.m_tilesCache ≠ []) :
    ∃ s, KisRandomAccessor2.moveTo K T a w x y = some s ∧ s.1.m_lastX = x ∧ s.1.m_lastY = y := by
  obtain ⟨cur, rest, hc⟩ := List.exists_cons_of_ne_nil hne
  unfold KisRandomAccessor2.moveTo
  simp only [hc]
  split
  · exact ⟨_, rfl, rfl, rfl⟩
  · exact ⟨_, rfl, rfl, rfl⟩

/-- What `x()` and `y()` answer after construction, for every store and all
arguments: the translated position `(x - offsetX, y - offsetY)` (as `qint32`),
which is the position supplied exactly when it survives the translation. -/
theorem ctor_position {σ : Type} (K : KisTiledDataManager σ) (T : KisTileData)
    (w : World σ) (x y offsetX offsetY : Int) (writable : Bool) :
    ∃ s, KisRandomAccessor2.ctor K T w x y offsetX offsetY writable = some s ∧
      s.1.x = sub32 x offsetX ∧ s.1.y = sub32 y offsetY := by
  unfold KisRandomAccessor2.ctor
  exact moveTo_last K T _ _ _ _ (by simp)

/-! ## Evaluations on concrete stores -/

/-- C4 (cache bound), evaluated on 64 by 64 tiles: after construction at (0, 0)
and moves to four further tiles the cache list holds 5 entries, one more than
`CACHESIZE`, while the size counter is 4. -/
theorem C4_cache_holds_five_entries :
    (KisRandomAccessor2.run (gridStore squareTiles 4) squareTiles World.init 0 0 0 0 true
        [(64, 0), (128, 0), (192, 0), (256, 0)]).map
        (fun s => (s.1.m_tilesCache.length, s.1.m_tilesCacheSize,
                   s.1.m_tilesCache.map (fun e => e.tile.id)))
      = some (5, KisRandomAccessor2.CACHESIZE,
          [cellTileId 4 0, cellTileId 3 0, cellTileId 2 0, cellTileId 1 0, cellTileId 0 0]) := by
  decide

/-- C5 (no double lock), refuted on 64 by 64 tiles with one tile object per
cell: after construction at (0, 0) and `moveTo(64, 0)` the cache holds the
tiles of cells (1, 0) and (0, 0); `moveTo(0, 0)` then fetches and locks the
tile of cell (0, 0) again, so the first and the third cache entry refer to the
same cell and tile object 0 has two locks and no unlock. -/
theorem C5_tile_locked_twice :
    (KisRandomAccessor2.run (gridStore squareTiles 4) squareTiles World.init 0 0 0 0 false
        [(64, 0)]).map (fun s => s.1.m_tilesCache.map (fun e => e.tile.id))
      = some [cellTileId 1 0, cellTileId 0 0] ∧
    (KisRandomAccessor2.run (gridStore squareTiles 4) squareTiles World.init 0 0 0 0 false
        [(64, 0), (0, 0)]).map
        (fun s => (s.1.m_tilesCache.map (fun e => (e.tile.id, e.area)), s.2.calls.drop 16,
                   lockCount (cellTileId 0 0) s.2.calls, unlockCount (cellTileId 0 0) s.2.calls))
      = some ([(cellTileId 0 0, ⟨0, 0, -63, -63⟩), (cellTileId 1 0, ⟨64, 0, -127, -63⟩),
                (cellTileId 0 0, ⟨0, 0, -63, -63⟩)],
              [Call.xToCol 0, Call.yToRow 0, Call.getTile 0 0 false (cellTileId 0 0),
                Call.lockForRead (cellTileId 0 0), Call.data (cellTileId 0 0),
                Call.getOldTile 0 0 (cellTileId 0 0 + 1),
                Call.lockForRead (cellTileId 0 0 + 1), Call.data (cellTileId 0 0 + 1)],
              2, 0) := by
  decide

/-- C7 (locality), evaluated on 64 by 64 tiles with `offsetX = 64`: the
construction point (64, 0) and the target of `moveTo(64, 0)` both translate to
(0, 0), inside the tile of cell (0, 0), yet the store's `getTile` is invoked
twice by the constructor (cells (0, 0) and (-1, 0)) and a third time by the
move. -/
theorem C7_three_getTile_calls_within_one_tile :
    (KisRandomAccessor2.run (gridStore squareTiles 4) squareTiles World.init 64 0 64 0 true
        []).map (fun s => getTileCount s.2.calls) = some 2 ∧
    (KisRandomAccessor2.run (gridStore squareTiles 4) squareTiles World.init 64 0 64 0 true
        [(64, 0)]).map (fun s => (getTileCount s.2.calls, s.2.calls.filter Call.isGetTile))
      = some (3, [Call.getTile 0 0 true (cellTileId 0 0),
                  Call.getTile (-1) 0 true (cellTileId (-1) 0),
                  Call.getTile 0 0 true (cellTileId 0 0)]) := by
  decide

/-- C8 (construction), evaluated on 64 by 64 tiles with pixel size 4.  The
accessor constructed at (70, 0) with `offsetX = 5` (translated point (65, 0):
cell (1, 0), byte offset 4) has two cache entries, the front one the tile of
cell (0, 0), and byte offset 240.  The accessor constructed at (10, 0) with
`offsetX = 5` (translated point (5, 0): byte offset 20) has one entry and byte
offset 0. -/
theorem C8_constructor_moves_to_twice_translated_point :
    (KisRandomAccessor2.ctor (gridStore squareTiles 4) squareTiles World.init 70 0 5 0
        true).map (fun s => (s.1.m_tilesCache.map (fun e => e.tile.id), s.1.offset))
      = some ([cellTileId 0 0, cellTileId 1 0], 240) ∧
    cellTileId 0 0 ≠ cellTileId 1 0 ∧
    (KisRandomAccessor2.ctor (gridStore squareTiles 4) squareTiles World.init 10 0 5 0
        true).map (fun s => (s.1.m_tilesCache.map (fun e => e.tile.id), s.1.offset))
      = some ([cellTileId 0 0], 0) := by
  decide

/-- C10 (position after construction), evaluated on 64 by 64 tiles: the
accessor constructed at (70, 9) with offset (64, 8) answers `x() = 6` and
`y() = 1`, the translated position, not the (70, 9) supplied. -/
theorem C10_constructor_records_translated_position :
    (KisRandomAccessor2.ctor (gridStore squareTiles 4) squareTiles World.init 70 9 64 8
        true).map (fun s => (s.1.x, s.1.y)) = some (6, 1) := by
  decide

/-! ## The claims proved in general -/

theorem cellCode_injective (a b : Int) (h : cellCode a = cellCode b) : a = b := by
  unfold cellCode at h
  split at h <;> split at h <;> omega

theorem gridStore_oneTilePerCell (T : KisTileData) (P : Int) : OneTilePerCell (gridStore T P) := by
  intro st st2 c r c2 r2 wr wr2
  simp only [gridStore, cellTileId]
  constructor
  · intro h
    have h2 : Nat.pair (cellCode c) (cellCode r) = Nat.pair (cellCode c2) (cellCode r2) := by
      omega
    rw [Nat.pair_eq_pair] at h2
    exact ⟨cellCode_injective _ _ h2.1, cellCode_injective _ _ h2.2⟩
  · rintro ⟨rfl, rfl⟩
    rfl

theorem gridStore_squareGrid (P : Int) : SquareGrid (gridStore squareTiles P) squareTiles where
  width_gt := by decide
  square := rfl
  aligned := by decide
  xToCol_floor := fun _ => rfl
  yToRow_floor := fun _ => rfl

/-- C5, amended: on a square grid with a floor-dividing store that returns one
current tile object per cell, after construction and any sequence of `moveTo`
calls no two neighbouring cache entries record the same rectangle or hold the
same current tile object: a fetch is never for the cell of the entry that is at
the front. -/
theorem C5_neighbouring_entries_differ {σ : Type} (K : KisTiledDataManager σ) (T : KisTileData)
    (hG : SquareGrid K T) (hK : OneTilePerCell K) (w : World σ)
    (x y offsetX offsetY : Int) (writable : Bool) (ps : List (Int × Int)) :
    ∃ s, KisRandomAccessor2.run K T w x y offsetX offsetY writable ps = some s ∧
      List.Chain' (fun e1 e2 => e1.area ≠ e2.area ∧ e1.tile.id ≠ e2.tile.id)
        s.1.m_tilesCache := by
  obtain ⟨s, hs, _, hI, _, _, _⟩ := run_square K T hG w x y offsetX offsetY writable ps
  refine ⟨s, hs, ?_⟩
  obtain ⟨_, _, hE, hCh⟩ := hI
  refine (List.Chain'.iff_mem.1 hCh).imp ?_
  rintro e1 e2 ⟨h1, h2, hne⟩
  refine ⟨hne, fun hid => hne ?_⟩
  obtain ⟨c1, r1, _, ha1, _, _, ⟨st1, ht1⟩, _, _⟩ := hE e1 h1
  obtain ⟨c2, r2, _, ha2, _, _, ⟨st2, ht2⟩, _, _⟩ := hE e2 h2
  rw [ht1, ht2] at hid
  have := (hK st1 st2 c1 r1 c2 r2 _ _).1 hid
  rw [ha1, ha2, this.1, this.2]

/-- C5, amended, applied to the run that revisits cell (0, 0) through cell
(1, 0) on 64 by 64 tiles. -/
theorem C5_neighbouring_entries_differ_witness :
    SquareGrid (gridStore squareTiles 4) squareTiles ∧
    OneTilePerCell (gridStore squareTiles 4) ∧
    ∃ s, KisRandomAccessor2.run (gridStore squareTiles 4) squareTiles World.init 0 0 0 0 false
          [(64, 0), (0, 0)] = some s ∧
      List.Chain' (fun e1 e2 => e1.area ≠ e2.area ∧ e1.tile.id ≠ e2.tile.id)
        s.1.m_tilesCache :=
  ⟨gridStore_squareGrid 4, gridStore_oneTilePerCell squareTiles 4,
   C5_neighbouring_entries_differ (gridStore squareTiles 4) squareTiles (gridStore_squareGrid 4)
     (gridStore_oneTilePerCell squareTiles 4) World.init 0 0 0 0 false [(64, 0), (0, 0)]⟩

/-! ## The square-tile statements on the 64 by 64 store -/

/-- C1 on the 64 by 64 store: pixel (6, 3) of the tile of cell (1, 0), reached
with `offsetX = 5` by `moveTo(75, 3)` after a move elsewhere. -/
theorem C1_offset_correct_witness :
    ∃ s front rest,
      KisRandomAccessor2.run (gridStore squareTiles 4) squareTiles World.init 0 0 5 0 true
        ([(300, 300)] ++ [(75, 3)]) = some s ∧
      s.1.m_tilesCache = front :: rest ∧
      (∃ st, front.tile = ((gridStore squareTiles 4).getTile st 1 0 true).1) ∧
      Call.getTile 1 0 true front.tile.id ∈ s.2.calls ∧
      s.1.rawData = some (front.tile.data
        + (6 + 3 * squareTiles.WIDTH) * (gridStore squareTiles 4).pixelSize) :=
  C1_offset_correct (gridStore squareTiles 4) squareTiles (gridStore_squareGrid 4)
    (by decide) (by decide) World.init 0 0 5 0 true [(300, 300)] 75 3 1 0 6 3
    (by decide) (by decide) (by decide) (by decide) (by decide) (by decide)

/-- C2: on a grid of square tiles (`WIDTH = HEIGHT`, a side above 1 that
divides `2^31`, as the 64 by 64 tiles of the build) with a store whose `xToCol`
and `yToRow` floor-divide, for all offsets, either mode, every construction
point and every sequence of `moveTo` calls ending with `moveTo(px, py)`, for
all integer coordinates: the run returns (no coordinate is rejected), the front
cache entry holds a tile the store returned for the cell
`(xToCol(px - offsetX), yToRow(py - offsetY))` in a recorded `getTile` call,
its rectangle is the rectangle of that cell, and the rectangle contains the
translated point. -/
theorem C2_front_serves_target {σ : Type} (K : KisTiledDataManager σ) (T : KisTileData)
    (hG : SquareGrid K T) (w : World σ) (x y offsetX offsetY : Int) (writable : Bool)
    (ps : List (Int × Int)) (px py : Int) :
    ∃ s front rest,
      KisRandomAccessor2.run K T w x y offsetX offsetY writable (ps ++ [(px, py)]) = some s ∧
      s.1.m_tilesCache = front :: rest ∧
      (∃ st, front.tile = (K.getTile st (K.xToCol (sub32 px offsetX))
                            (K.yToRow (sub32 py offsetY)) writable).1) ∧
      Call.getTile (K.xToCol (sub32 px offsetX)) (K.yToRow (sub32 py offsetY)) writable
        front.tile.id ∈ s.2.calls ∧
      front.area = cellArea T (K.xToCol (sub32 px offsetX)) (K.yToRow (sub32 py offsetY)) ∧
      front.area.contains (sub32 px offsetX) (sub32 py offsetY) := by
  obtain ⟨s, front, rest, hs, hc, hf, hin, _⟩ :=
    square_moveTo_serves_target K T hG w x y offsetX offsetY writable ps px py
  rw [← hG.xToCol_floor, ← hG.yToRow_floor] at hf
  obtain ⟨_, harea, _, _, ht, _, hcall⟩ := hf
  exact ⟨s, front, rest, hs, hc, ht, hcall, harea, hin⟩

/-- C2 on the 64 by 64 store, with offsets (5, -7): moves to negative and to
positive coordinates, the last to (-60, 3), whose translated point (-65, 10)
lies in cell (-2, 0). -/
theorem C2_front_serves_target_witness :
    ∃ s front rest,
      KisRandomAccessor2.run (gridStore squareTiles 4) squareTiles World.init 0 0 5 (-7) false
        ([(300, -300), (-2147483648, 2147483647)] ++ [(-60, 3)]) = some s ∧
      s.1.m_tilesCache = front :: rest ∧
      (∃ st, front.tile = ((gridStore squareTiles 4).getTile st
          ((gridStore squareTiles 4).xToCol (sub32 (-60) 5))
          ((gridStore squareTiles 4).yToRow (sub32 3 (-7))) false).1) ∧
      Call.getTile ((gridStore squareTiles 4).xToCol (sub32 (-60) 5))
        ((gridStore squareTiles 4).yToRow (sub32 3 (-7))) false front.tile.id ∈ s.2.calls ∧
      front.area = cellArea squareTiles ((gridStore squareTiles 4).xToCol (sub32 (-60) 5))
        ((gridStore squareTiles 4).yToRow (sub32 3 (-7))) ∧
      front.area.contains (sub32 (-60) 5) (sub32 3 (-7)) :=
  C2_front_serves_target (gridStore squareTiles 4) squareTiles (gridStore_squareGrid 4)
    World.init 0 0 5 (-7) false [(300, -300), (-2147483648, 2147483647)] (-60) 3

/-- C3 on the 64 by 64 store with 4-byte pixels: after `moveTo(31, 63)` the
offset is inside the buffer of 16384 bytes. -/
theorem C3_offset_in_buffer_witness :
    ∃ s, KisRandomAccessor2.run (gridStore squareTiles 4) squareTiles World.init 0 0 0 0 true
        [(31, 63)] = some s ∧
      0 ≤ s.1.offset ∧
      s.1.offset + (gridStore squareTiles 4).pixelSize
        ≤ squareTiles.WIDTH * squareTiles.HEIGHT * (gridStore squareTiles 4).pixelSize :=
  C3_offset_in_buffer (gridStore squareTiles 4) squareTiles (gridStore_squareGrid 4)
    (by decide) (by decide) World.init 0 0 0 0 true [(31, 63)]

/-- The locality of `square_locality_zero_offset` on three moves inside the
tile of cell (-1, 0). -/
theorem square_locality_zero_offset_witness :
    ∃ s e,
      KisRandomAccessor2.run (gridStore squareTiles 4) squareTiles World.init (-1) 0 0 0 false
        [(-64, 63), (-30, 7), (-1, 0)] = some s ∧
      s.1.m_tilesCache = [e] ∧
      e.isFetchOf (gridStore squareTiles 4) squareTiles false s.2.calls
        (Int.fdiv (sub32 (-1) 0) squareTiles.WIDTH) (Int.fdiv (sub32 0 0) squareTiles.HEIGHT) ∧
      getTileCount s.2.calls = getTileCount World.init.calls + 1 :=
  square_locality_zero_offset (gridStore squareTiles 4) squareTiles (gridStore_squareGrid 4)
    World.init (-1) 0 false [(-64, 63), (-30, 7), (-1, 0)] (by decide)

/-! ## Locks and positions -/

theorem ctor_balance {σ : Type} (K : KisTiledDataManager σ) (T : KisTileData)
    (w : World σ) (x y offsetX offsetY : Int) (writable : Bool)
    (hb : LockBalance [] w.calls) :
    ∃ s, KisRandomAccessor2.ctor K T w x y offsetX offsetY writable = some s ∧
      s.1.m_tilesCache ≠ [] ∧ LockBalance (heldTiles s.1.m_tilesCache) s.2.calls := by
  unfold KisRandomAccessor2.ctor
  apply moveTo_balance
  · simp
  · simp only [heldTiles_cons]
    have e : heldTiles [] = [] := rfl
    rw [e]
    apply fetchTileData_balance
    rw [yToRow_calls, xToCol_calls]
    exact lockBalance_yToRow _ (lockBalance_xToCol _ hb)

theorem moveAll_balance {σ : Type} (K : KisTiledDataManager σ) (T : KisTileData)
    (ps : List (Int × Int)) (s : KisRandomAccessor2 × World σ)
    (hne : s.1.m_tilesCache ≠ [])
    (hb : LockBalance (heldTiles s.1.m_tilesCache) s.2.calls) :
    ∃ s2, KisRandomAccessor2.moveAll K T s ps = some s2 ∧ s2.1.m_tilesCache ≠ [] ∧
      LockBalance (heldTiles s2.1.m_tilesCache) s2.2.calls := by
  induction ps generalizing s with
  | nil => exact ⟨s, rfl, hne, hb⟩
  | cons p ps ih =>
    obtain ⟨s1, h1, hne1, hb1⟩ := moveTo_balance K T s.1 s.2 p.1 p.2 hne hb
    obtain ⟨s2, h2, hne2, hb2⟩ := ih s1 hne1 hb1
    refine ⟨s2, ?_, hne2, hb2⟩
    simp only [KisRandomAccessor2.moveAll, h1, h2]

theorem run_balance {σ : Type} (K : KisTiledDataManager σ) (T : KisTileData)
    (w : World σ) (x y offsetX offsetY : Int) (writable : Bool) (ps : List (Int × Int))
    (hb : LockBalance [] w.calls) :
    ∃ s, KisRandomAccessor2.run K T w x y offsetX offsetY writable ps = some s ∧
      s.1.m_tilesCache ≠ [] ∧ LockBalance (heldTiles s.1.m_tilesCache) s.2.calls := by
  obtain ⟨s1, h1, hne1, hb1⟩ := ctor_balance K T w x y offsetX offsetY writable hb
  obtain ⟨s2, h2, hne2, hb2⟩ := moveAll_balance K T ps s1 hne1 hb1
  refine ⟨s2, ?_, hne2, hb2⟩
  unfold KisRandomAccessor2.run
  rw [h1]
  exact h2

theorem dtor_balance {σ : Type} (cache : List KisTileInfo) (a : KisRandomAccessor2)
    (w : World σ) (hc : a.m_tilesCache = cache)
    (hb : LockBalance (heldTiles cache) w.calls) :
    LockBalance [] (KisRandomAccessor2.dtor a w).calls := by
  unfold KisRandomAccessor2.dtor
  rw [hc]
  clear hc
  induction cache generalizing w with
  | nil => simpa [heldTiles] using hb
  | cons e es ih =>
    simp only [List.foldl_cons]
    apply ih
    rw [unlockTile_calls, unlockTile_calls]
    rw [heldTiles_cons] at hb
    exact lockBalance_unlock _ (lockBalance_unlock _ hb)

/-- C6: for every store, construction arguments and sequence of `moveTo`
calls, the run returns, and after the destructor every tile object has as many
unlock calls as lock calls (`lockForRead` plus `lockForWrite`) in the call
record, and in no prefix of the record do the unlocks of a tile object exceed
its locks. -/
theorem C6_locks_balanced {σ : Type} (K : KisTiledDataManager σ) (T : KisTileData)
    (st : σ) (x y offsetX offsetY : Int) (writable : Bool) (ps : List (Int × Int)) :
    ∃ s, KisRandomAccessor2.run K T ⟨st, []⟩ x y offsetX offsetY writable ps = some s ∧
      (∀ t, lockCount t (KisRandomAccessor2.dtor s.1 s.2).calls
              = unlockCount t (KisRandomAccessor2.dtor s.1 s.2).calls) ∧
      (∀ n t, unlockCount t ((KisRandomAccessor2.dtor s.1 s.2).calls.take n)
              ≤ lockCount t ((KisRandomAccessor2.dtor s.1 s.2).calls.take n)) := by
  obtain ⟨s, h, _, hb⟩ := run_balance K T ⟨st, []⟩ x y offsetX offsetY writable ps lockBalance_nil
  have hd := dtor_balance s.1.m_tilesCache s.1 s.2 rfl hb
  exact ⟨s, h, fun t => by simpa using hd.1 t, hd.2⟩

/-- C9: from every accessor state with a front entry, `moveTo(x, y)` returns
and afterwards `x()` and `y()` are the `x` and `y` passed, before translation
by the offset; the statement covers the fast path and the fetch path. -/
theorem C9_moveTo_records_position {σ : Type} (K : KisTiledDataManager σ) (T : KisTileData)
    (a : KisRandomAccessor2) (w : World σ) (x y : Int) (hne : a.m_tilesCache ≠ []) :
    ∃ s, KisRandomAccessor2.moveTo K T a w x y = some s ∧ s.1.x = x ∧ s.1.y = y :=
  moveTo_last K T a w x y hne

/-- C9 applied to a move of the sample accessor out of its front tile. -/
theorem C9_moveTo_records_position_witness :
    sampleAccessor.m_tilesCache ≠ [] ∧
    ∃ s, KisRandomAccessor2.moveTo (gridStore squareTiles 4) squareTiles sampleAccessor
          World.init 100 (-7) = some s ∧ s.1.x = 100 ∧ s.1.y = -7 :=
  ⟨by decide,
   C9_moveTo_records_position (gridStore squareTiles 4) squareTiles sampleAccessor World.init
     100 (-7) (by decide)⟩

/-! ## Runs step by step -/

theorem ctor_eq_moveTo {σ : Type} (K : KisTiledDataManager σ) (T : KisTileData)
    (w : World σ) (x y offsetX offsetY : Int) (writable : Bool) :
    KisRandomAccessor2.ctor K T w x y offsetX offsetY writable
      = KisRandomAccessor2.moveTo K T
          (KisRandomAccessor2.ctorFetched K T w x y offsetX offsetY writable).1
          (KisRandomAccessor2.ctorFetched K T w x y offsetX offsetY writable).2
          (sub32 x offsetX) (sub32 y offsetY) := rfl

/-- A property that the constructor establishes before its closing `moveTo`
and that every `moveTo` keeps holds after every run, and every run returns. -/
theorem run_induct {σ : Type} (K : KisTiledDataManager σ) (T : KisTileData)
    (I : KisRandomAccessor2 × World σ → Prop)
    (hmove : ∀ (s : KisRandomAccessor2 × World σ) (x y : Int), I s →
      ∃ s2, KisRandomAccessor2.moveTo K T s.1 s.2 x y = some s2 ∧ I s2)
    (w : World σ) (x y offsetX offsetY : Int) (writable : Bool)
    (h0 : I (KisRandomAccessor2.ctorFetched K T w x y offsetX offsetY writable))
    (ps : List (Int × Int)) :
    ∃ s, KisRandomAccessor2.run K T w x y offsetX offsetY writable ps = some s ∧ I s := by
  have hall : ∀ (qs : List (Int × Int)) (s : KisRandomAccessor2 × World σ), I s →
      ∃ s2, KisRandomAccessor2.moveAll K T s qs = some s2 ∧ I s2 := by
    intro qs
    induction qs with
    | nil => exact fun s h => ⟨s, rfl, h⟩
    | cons p qs ih =>
      intro s h
      obtain ⟨s1, e1, h1⟩ := hmove s p.1 p.2 h
      obtain ⟨s2, e2, h2⟩ := ih s1 h1
      exact ⟨s2, by simp only [KisRandomAccessor2.moveAll, e1, e2], h2⟩
  obtain ⟨s1, e1, h1⟩ := hmove _ (sub32 x offsetX) (sub32 y offsetY) h0
  obtain ⟨s2, e2, h2⟩ := hall ps s1 h1
  refine ⟨s2, ?_, h2⟩
  unfold KisRandomAccessor2.run
  rw [ctor_eq_moveTo, e1]
  exact e2

theorem fetchTileData_fetchCalls {σ : Type} (K : KisTiledDataManager σ) (T : KisTileData)
    (wr : Bool) (w : World σ) (col row : Int) (kti : KisTileInfo) :
    (KisRandomAccessor2.fetchTileData K T wr w col row kti).2.calls
      = w.calls ++ fetchCalls wr col row
          (KisRandomAccessor2.fetchTileData K T wr w col row kti).1.tile.id
          (KisRandomAccessor2.fetchTileData K T wr w col row kti).1.oldtile.id := by
  rw [fetchTileData_calls, fetchTileData_tile, fetchTileData_oldtile]
  rfl

theorem ctorFetched_calls {σ : Type} (K : KisTiledDataManager σ) (T : KisTileData)
    (w : World σ) (x y offsetX offsetY : Int) (writable : Bool) :
    ∃ e, (KisRandomAccessor2.ctorFetched K T w x y offsetX offsetY writable).1.m_tilesCache = [e] ∧
      (KisRandomAccessor2.ctorFetched K T w x y offsetX offsetY writable).2.calls
      = w.calls ++ [Call.xToCol (toInt32 (toUInt32 (sub32 x offsetX))),
                    Call.yToRow (toInt32 (toUInt32 (sub32 y offsetY)))]
          ++ fetchCalls writable
              (toInt32 (toUInt32 (toInt32 (K.xToCol (toInt32 (toUInt32 (sub32 x offsetX)))))))
              (toInt32 (toUInt32 (toInt32 (K.yToRow (toInt32 (toUInt32 (sub32 y offsetY)))))))
              e.tile.id e.oldtile.id := by
  refine ⟨_, rfl, ?_⟩
  unfold KisRandomAccessor2.ctorFetched
  simp only [fetchTileData_fetchCalls, KisRandomAccessor2.xToCol, KisRandomAccessor2.yToRow,
    World.emit, List.append_assoc, List.singleton_append]

/-! ## The shape of the fetches in the call record -/

theorem getElem?_append_of_some {α : Type} (cs b : List α) (j : Nat) (v : α)
    (h : cs[j]? = some v) : (cs ++ b)[j]? = some v := by
  have hj : j < cs.length := (List.getElem?_eq_some.1 h).1
  rw [List.getElem?_append_left hj]
  exact h

theorem getElem?_append_add {α : Type} (cs b : List α) (k : Nat) :
    (cs ++ b)[cs.length + k]? = b[k]? := by
  rw [List.getElem?_append_right (Nat.le_add_right _ _), Nat.add_sub_cancel_left]

theorem fetchShape_nil (wr : Bool) : FetchShape wr [] := by
  intro i c hi
  simp at hi

theorem fetchShape_append_plain (wr : Bool) (cs pre : List Call) (h : FetchShape wr cs)
    (hp : ∀ c ∈ pre, c.isOfFetch = false) : FetchShape wr (cs ++ pre) := by
  intro i c hi hc
  by_cases hlt : i < cs.length
  · rw [List.getElem?_append_left hlt] at hi
    obtain ⟨j, col, row, t, o, hj1, hj2, hg⟩ := h i c hi hc
    refine ⟨j, col, row, t, o, hj1, hj2, fun k hk => ?_⟩
    have hk6 : (fetchCalls wr col row t o).length = 6 := rfl
    obtain ⟨v, hv⟩ : ∃ v, (fetchCalls wr col row t o)[k]? = some v :=
      ⟨(fetchCalls wr col row t o)[k], List.getElem?_eq_getElem (by omega)⟩
    rw [hv]
    exact getElem?_append_of_some cs pre (j + k) v ((hg k hk).trans hv)
  · rw [List.getElem?_append_right (by omega)] at hi
    have hm : c ∈ pre := List.getElem?_mem hi
    rw [hp c hm] at hc
    cases hc

theorem fetchShape_append_fetch (wr : Bool) (cs : List Call) (col row : Int) (t o : Nat)
    (h : FetchShape wr cs) : FetchShape wr (cs ++ fetchCalls wr col row t o) := by
  intro i c hi hc
  by_cases hlt : i < cs.length
  · rw [List.getElem?_append_left hlt] at hi
    obtain ⟨j, col2, row2, t2, o2, hj1, hj2, hg⟩ := h i c hi hc
    refine ⟨j, col2, row2, t2, o2, hj1, hj2, fun k hk => ?_⟩
    have hk6 : (fetchCalls wr col2 row2 t2 o2).length = 6 := rfl
    obtain ⟨v, hv⟩ : ∃ v, (fetchCalls wr col2 row2 t2 o2)[k]? = some v :=
      ⟨(fetchCalls wr col2 row2 t2 o2)[k], List.getElem?_eq_getElem (by omega)⟩
    rw [hv]
    exact getElem?_append_of_some cs _ (j + k) v ((hg k hk).trans hv)
  · have hlen : (fetchCalls wr col row t o).length = 6 := rfl
    have hi6 : i < cs.length + 6 := by
      have := (List.getElem?_eq_some.1 hi).1
      rw [List.length_append, hlen] at this
      exact this
    exact ⟨cs.length, col, row, t, o, by omega, hi6,
      fun k _ => getElem?_append_add cs (fetchCalls wr col row t o) k⟩

/-- What the shape says of a `getTile` call of the record: it carries the flag
of the mode and heads a group of six, followed in this order by the lock of
the tile it returned, the read of that tile's buffer address, the `getOldTile`
call of the same cell, the read lock of the tile that one returned and the
read of its buffer address. -/
theorem fetchShape_getTile (wr : Bool) (cs : List Call) (h : FetchShape wr cs)
    (i : Nat) (c r : Int) (w : Bool) (t : Nat) (hi : cs[i]? = some (Call.getTile c r w t)) :
    w = wr ∧ cs[i + 1]? = some (lockCall wr t) ∧ cs[i + 2]? = some (Call.data t) ∧
    ∃ o, cs[i + 3]? = some (Call.getOldTile c r o) ∧
         cs[i + 4]? = some (Call.lockForRead o) ∧ cs[i + 5]? = some (Call.data o) := by
  obtain ⟨j, col, row, t2, o, hj1, hj2, hg⟩ := h i _ hi rfl
  obtain ⟨k, rfl⟩ : ∃ k, i = j + k := ⟨i - j, by omega⟩
  have hk : k < 6 := by omega
  have hik := hg k hk
  rw [hi] at hik
  have h0 := hg 0 (by omega)
  have h1 := hg 1 (by omega)
  have h2 := hg 2 (by omega)
  have h3 := hg 3 (by omega)
  have h4 := hg 4 (by omega)
  have h5 := hg 5 (by omega)
  interval_cases k
  · simp only [fetchCalls, List.getElem?_cons_zero, Option.some.injEq, Call.getTile.injEq]
      at hik
    obtain ⟨rfl, rfl, rfl, rfl⟩ := hik
    exact ⟨rfl, h1, h2, o, h3, h4, h5⟩
  · cases wr <;> simp [fetchCalls, lockCall] at hik
  · simp [fetchCalls] at hik
  · simp [fetchCalls] at hik
  · simp [fetchCalls] at hik
  · simp [fetchCalls] at hik

/-- What the shape says of a `getOldTile` call of the record: it stands fourth
in its group, three places after the `getTile` call of the same cell. -/
theorem fetchShape_getOldTile (wr : Bool) (cs : List Call) (h : FetchShape wr cs)
    (i : Nat) (c r : Int) (o : Nat) (hi : cs[i]? = some (Call.getOldTile c r o)) :
    3 ≤ i ∧ cs[i + 1]? = some (Call.lockForRead o) ∧ cs[i + 2]? = some (Call.data o) ∧
    ∃ t, cs[i - 3]? = some (Call.getTile c r wr t) ∧ cs[i - 2]? = some (lockCall wr t) ∧
         cs[i - 1]? = some (Call.data t) := by
  obtain ⟨j, col, row, t, o2, hj1, hj2, hg⟩ := h i _ hi rfl
  obtain ⟨k, rfl⟩ : ∃ k, i = j + k := ⟨i - j, by omega⟩
  have hk : k < 6 := by omega
  have hik := hg k hk
  rw [hi] at hik
  have h0 := hg 0 (by omega)
  have h1 := hg 1 (by omega)
  have h2 := hg 2 (by omega)
  have h4 := hg 4 (by omega)
  have h5 := hg 5 (by omega)
  interval_cases k
  · simp [fetchCalls] at hik
  · cases wr <;> simp [fetchCalls, lockCall] at hik
  · simp [fetchCalls] at hik
  · simp only [fetchCalls, List.getElem?_cons_succ, List.getElem?_cons_zero,
      Option.some.injEq, Call.getOldTile.injEq] at hik
    obtain ⟨rfl, rfl, rfl⟩ := hik
    have e3 : j + 3 - 3 = j + 0 := by omega
    have e2 : j + 3 - 2 = j + 1 := by omega
    have e1 : j + 3 - 1 = j + 2 := by omega
    rw [e3, e2, e1]
    exact ⟨by omega, h4, h5, t, h0, h1, h2⟩
  · simp [fetchCalls] at hik
  · simp [fetchCalls] at hik

/-- What the shape says of a lock call of the record: it stands right after the
`getTile` call (with the flag of the mode) or the `getOldTile` call that
returned its tile, and a write lock only after a `getTile` call of a writable
accessor. -/
theorem fetchShape_lock (wr : Bool) (cs : List Call) (h : FetchShape wr cs)
    (i : Nat) (t : Nat) :
    (cs[i]? = some (Call.lockForRead t) →
      1 ≤ i ∧ ∃ c r, (wr = false ∧ cs[i - 1]? = some (Call.getTile c r wr t)) ∨
                     cs[i - 1]? = some (Call.getOldTile c r t)) ∧
    (cs[i]? = some (Call.lockForWrite t) →
      1 ≤ i ∧ wr = true ∧ ∃ c r, cs[i - 1]? = some (Call.getTile c r true t)) := by
  constructor
  · intro hi
    obtain ⟨j, col, row, t2, o, hj1, hj2, hg⟩ := h i _ hi rfl
    obtain ⟨k, rfl⟩ : ∃ k, i = j + k := ⟨i - j, by omega⟩
    have hk : k < 6 := by omega
    have hik := hg k hk
    rw [hi] at hik
    have h0 := hg 0 (by omega)
    have h3 := hg 3 (by omega)
    interval_cases k
    · simp [fetchCalls] at hik
    · cases wr with
      | true => simp [fetchCalls, lockCall] at hik
      | false =>
        have e : t = t2 := by simpa [fetchCalls, lockCall] using hik
        subst e
        exact ⟨by omega, col, row, Or.inl ⟨rfl, h0⟩⟩
    · simp [fetchCalls] at hik
    · simp [fetchCalls] at hik
    · simp only [fetchCalls, List.getElem?_cons_succ, List.getElem?_cons_zero,
        Option.some.injEq, Call.lockForRead.injEq] at hik
      subst hik
      exact ⟨by omega, col, row, Or.inr h3⟩
    · simp [fetchCalls] at hik
  · intro hi
    obtain ⟨j, col, row, t2, o, hj1, hj2, hg⟩ := h i _ hi rfl
    obtain ⟨k, rfl⟩ : ∃ k, i = j + k := ⟨i - j, by omega⟩
    have hk : k < 6 := by omega
    have hik := hg k hk
    rw [hi] at hik
    have h0 := hg 0 (by omega)
    interval_cases k
    · simp [fetchCalls] at hik
    · cases wr with
      | false => simp [fetchCalls, lockCall] at hik
      | true =>
        have e : t = t2 := by simpa [fetchCalls, lockCall] using hik
        subst e
        exact ⟨by omega, rfl, col, row, h0⟩
    · simp [fetchCalls] at hik
    · simp [fetchCalls] at hik
    · simp [fetchCalls] at hik
    · simp [fetchCalls] at hik

/-- What the shape says of a `data` call of the record: it stands right after
the lock of the tile it reads. -/
theorem fetchShape_data (wr : Bool) (cs : List Call) (h : FetchShape wr cs)
    (i : Nat) (t : Nat) (hi : cs[i]? = some (Call.data t)) :
    1 ≤ i ∧ (cs[i - 1]? = some (lockCall wr t) ∨ cs[i - 1]? = some (Call.lockForRead t)) := by
  obtain ⟨j, col, row, t2, o, hj1, hj2, hg⟩ := h i _ hi rfl
  obtain ⟨k, rfl⟩ : ∃ k, i = j + k := ⟨i - j, by omega⟩
  have hk : k < 6 := by omega
  have hik := hg k hk
  rw [hi] at hik
  have h1 := hg 1 (by omega)
  have h4 := hg 4 (by omega)
  interval_cases k
  · simp [fetchCalls] at hik
  · cases wr <;> simp [fetchCalls, lockCall] at hik
  · simp only [fetchCalls, List.getElem?_cons_succ, List.getElem?_cons_zero,
      Option.some.injEq, Call.data.injEq] at hik
    subst hik
    exact ⟨by omega, Or.inl h1⟩
  · simp [fetchCalls] at hik
  · simp [fetchCalls] at hik
  · simp only [fetchCalls, List.getElem?_cons_succ, List.getElem?_cons_zero,
      Option.some.injEq, Call.data.injEq] at hik
    subst hik
    exact ⟨by omega, Or.inr h4⟩

theorem fetchTileData_isFetched {σ : Type} (K : KisTiledDataManager σ) (T : KisTileData)
    (wr : Bool) (w : World σ) (col row : Int) (kti : KisTileInfo) :
    (KisRandomAccessor2.fetchTileData K T wr w col row kti).1.isFetched K wr :=
  ⟨w.store, col, row, rfl, fetchTileData_oldtile K T wr w col row kti, rfl, by cases wr <;> rfl⟩

/-- One `moveTo` from a state with a front entry, in full: it returns, keeps
the mode and the offsets, records the position, and either passes the
fast-path test and leaves cache, size counter and world alone, or fails it and
puts a fetched entry in front of the entries kept, after the calls `pre`. -/
theorem moveTo_step {σ : Type} (K : KisTiledDataManager σ) (T : KisTileData)
    (a : KisRandomAccessor2) (w : World σ) (x y : Int) (cur : KisTileInfo)
    (rest : List KisTileInfo) (hc : a.m_tilesCache = cur :: rest) :
    ∃ s, KisRandomAccessor2.moveTo K T a w x y = some s ∧
      s.1.m_writable = a.m_writable ∧ s.1.m_offsetX = a.m_offsetX ∧
      s.1.m_offsetY = a.m_offsetY ∧ s.1.m_lastX = x ∧ s.1.m_lastY = y ∧
      ((a.hits cur.area x y = true ∧ s.1.m_tilesCache = cur :: rest ∧
          s.1.m_tilesCacheSize = a.m_tilesCacheSize ∧ s.2 = w) ∨
       (a.hits cur.area x y = false ∧ ∃ e kept pre,
          s.1.m_tilesCache = e :: kept ∧
          ((a.m_tilesCacheSize ≠ KisRandomAccessor2.CACHESIZE ∧ kept = cur :: rest ∧
              s.1.m_tilesCacheSize = toUInt32 (a.m_tilesCacheSize + 1) ∧
              pre = [Call.xToCol (toInt32 (toUInt32 (sub32 x a.m_offsetX))),
                     Call.yToRow (toInt32 (toUInt32 (sub32 y a.m_offsetY)))]) ∨
           (a.m_tilesCacheSize = KisRandomAccessor2.CACHESIZE ∧
              kept = (cur :: rest).dropLast ∧
              s.1.m_tilesCacheSize = a.m_tilesCacheSize ∧
              pre = [Call.unlock ((cur :: rest).getLast (List.cons_ne_nil cur rest)).tile.id,
                     Call.unlock ((cur :: rest).getLast (List.cons_ne_nil cur rest)).oldtile.id,
                     Call.xToCol (toInt32 (toUInt32 (sub32 x a.m_offsetX))),
                     Call.yToRow (toInt32 (toUInt32 (sub32 y a.m_offsetY)))])) ∧
          e.tile = (K.getTile w.store (fetchIndex K.xToCol (sub32 x a.m_offsetX))
                      (fetchIndex K.yToRow (sub32 y a.m_offsetY)) a.m_writable).1 ∧
          e.isFetched K a.m_writable ∧
          s.2.calls = w.calls ++ pre ++
            fetchCalls a.m_writable (fetchIndex K.xToCol (sub32 x a.m_offsetX))
              (fetchIndex K.yToRow (sub32 y a.m_offsetY)) e.tile.id e.oldtile.id)) := by
  by_cases hh : a.hits cur.area x y = true
  · exact ⟨_, moveTo_hit K T a w x y cur rest hc hh, rfl, rfl, rfl, rfl, rfl,
      Or.inl ⟨hh, hc, rfl, rfl⟩⟩
  · have hh1 : a.hits cur.area x y = false := by simpa using hh
    obtain ⟨kept, n, pre, w1, hst, hw1, hk, hm⟩ := moveTo_miss K T a w x y cur rest hc hh1
    refine ⟨_, hm, rfl, rfl, rfl, rfl, rfl, Or.inr ⟨hh1, _, kept, pre, rfl, ?_, ?_, ?_, ?_⟩⟩
    · rcases hk with ⟨h1, h2, h3, h4⟩ | ⟨h1, h2, h3, h4⟩
      · exact Or.inl ⟨h2, h1, h3, h4⟩
      · exact Or.inr ⟨h2, h1, h3, h4⟩
    · rw [fetchTileData_tile, hst]
      rfl
    · exact fetchTileData_isFetched K T _ _ _ _ _
    · simp only
      rw [fetchTileData_fetchCalls, hw1]
      rfl

theorem mem_of_mem_kept {α : Type} (cur : α) (rest kept : List α) (e : α)
    (hk : kept = cur :: rest ∨ kept = (cur :: rest).dropLast) (he : e ∈ kept) :
    e ∈ cur :: rest := by
  rcases hk with rfl | rfl
  · exact he
  · exact List.mem_of_mem_dropLast he

/-- Every `moveTo` keeps `RunOK`. -/
theorem moveTo_runOK {σ : Type} (K : KisTiledDataManager σ) (T : KisTileData) (wr : Bool)
    (s : KisRandomAccessor2 × World σ) (x y : Int) (h : RunOK K wr s) :
    ∃ s2, KisRandomAccessor2.moveTo K T s.1 s.2 x y = some s2 ∧ RunOK K wr s2 := by
  obtain ⟨hw, hne, hshape, hent⟩ := h
  obtain ⟨cur, rest, hc⟩ := List.exists_cons_of_ne_nil hne
  obtain ⟨s2, hm, hw2, _, _, _, _, hcase⟩ := moveTo_step K T s.1 s.2 x y cur rest hc
  refine ⟨s2, hm, hw2.trans hw, ?_⟩
  rcases hcase with ⟨_, hc2, _, hworld⟩ | ⟨_, e, kept, pre, hc2, hk, _, hf, hcalls⟩
  · rw [hc2, hworld, ← hc]
    exact ⟨hne, hshape, hent⟩
  · rw [hc2, hcalls]
    refine ⟨by simp, ?_, ?_⟩
    · rw [hw]
      apply fetchShape_append_fetch
      apply fetchShape_append_plain wr _ _ hshape
      rcases hk with ⟨_, _, _, rfl⟩ | ⟨_, _, _, rfl⟩
      · intro c hcm
        simp only [List.mem_cons, List.mem_singleton, List.not_mem_nil, or_false] at hcm
        rcases hcm with rfl | rfl <;> rfl
      · intro c hcm
        simp only [List.mem_cons, List.mem_singleton, List.not_mem_nil, or_false] at hcm
        rcases hcm with rfl | rfl | rfl | rfl <;> rfl
    · intro e2 he2
      simp only [List.mem_cons] at he2
      rcases he2 with rfl | he2
      · rw [← hw]; exact hf
      · apply hent
        rw [hc]
        refine mem_of_mem_kept cur rest kept e2 ?_ he2
        rcases hk with ⟨_, h, _, _⟩ | ⟨_, h, _, _⟩
        · exact Or.inl h
        · exact Or.inr h

/-- The constructor establishes `RunOK` before its closing `moveTo`, from an
empty call record. -/
theorem ctorFetched_runOK {σ : Type} (K : KisTiledDataManager σ) (T : KisTileData)
    (st : σ) (x y offsetX offsetY : Int) (writable : Bool) :
    RunOK K writable
      (KisRandomAccessor2.ctorFetched K T ⟨st, []⟩ x y offsetX offsetY writable) := by
  obtain ⟨e, he, hcalls⟩ := ctorFetched_calls K T ⟨st, []⟩ x y offsetX offsetY writable
  refine ⟨rfl, by rw [he]; simp, ?_, ?_⟩
  · rw [hcalls]
    apply fetchShape_append_fetch
    apply fetchShape_append_plain writable _ _ (fetchShape_nil writable)
    intro c hcm
    simp only [List.mem_cons, List.mem_singleton, List.not_mem_nil, or_false] at hcm
    rcases hcm with rfl | rfl <;> rfl
  · intro e2 he2
    rw [he] at he2
    simp only [List.mem_singleton] at he2
    subst he2
    have : e2 = (KisRandomAccessor2.fetchTileData K T writable
        (KisRandomAccessor2.yToRow K (KisRandomAccessor2.xToCol K ⟨st, []⟩
          (sub32 x offsetX)).2 (sub32 y offsetY)).2
        (toInt32 (KisRandomAccessor2.xToCol K ⟨st, []⟩ (sub32 x offsetX)).1)
        (toInt32 (KisRandomAccessor2.yToRow K (KisRandomAccessor2.xToCol K ⟨st, []⟩
          (sub32 x offsetX)).2 (sub32 y offsetY)).1) KisTileInfo.uninit).1 := by
      have h2 : (KisRandomAccessor2.ctorFetched K T ⟨st, []⟩ x y offsetX offsetY
          writable).1.m_tilesCache = [_] := rfl
      rw [he] at h2
      exact List.singleton_inj.1 h2
    rw [this]
    exact fetchTileData_isFetched K T _ _ _ _ _

/-- Every run from an empty call record returns and ends in `RunOK`. -/
theorem run_runOK {σ : Type} (K : KisTiledDataManager σ) (T : KisTileData)
    (st : σ) (x y offsetX offsetY : Int) (writable : Bool) (ps : List (Int × Int)) :
    ∃ s, KisRandomAccessor2.run K T ⟨st, []⟩ x y offsetX offsetY writable ps = some s ∧
      RunOK K writable s :=
  run_induct K T (RunOK K writable) (moveTo_runOK K T writable) ⟨st, []⟩ x y offsetX offsetY
    writable (ctorFetched_runOK K T st x y offsetX offsetY writable) ps

/-- The call record the constructor leaves before its closing `moveTo`, from an
empty record: `xToCol`, `yToRow` and the six calls of the fetch of the cell of
the translated point, with the tiles the store returns. -/
theorem ctorFetched_record {σ : Type} (K : KisTiledDataManager σ) (T : KisTileData)
    (st : σ) (x y offsetX offsetY : Int) (writable : Bool) :
    (KisRandomAccessor2.ctorFetched K T ⟨st, []⟩ x y offsetX offsetY writable).2.calls
      = [Call.xToCol (toInt32 (toUInt32 (sub32 x offsetX))),
         Call.yToRow (toInt32 (toUInt32 (sub32 y offsetY)))] ++
        fetchCalls writable (fetchIndex K.xToCol (sub32 x offsetX))
          (fetchIndex K.yToRow (sub32 y offsetY))
          (K.getTile st (fetchIndex K.xToCol (sub32 x offsetX))
            (fetchIndex K.yToRow (sub32 y offsetY)) writable).1.id
          (K.getOldTile (K.getTile st (fetchIndex K.xToCol (sub32 x offsetX))
              (fetchIndex K.yToRow (sub32 y offsetY)) writable).2
            (fetchIndex K.xToCol (sub32 x offsetX))
            (fetchIndex K.yToRow (sub32 y offsetY))).1.id := by
  unfold KisRandomAccessor2.ctorFetched
  simp only [fetchTileData_calls, KisRandomAccessor2.xToCol, KisRandomAccessor2.yToRow,
    World.emit, List.nil_append, List.singleton_append, List.cons_append]
  rfl

/-- The calls of a `moveTo` that misses the front entry: calls `pre` that are
not calls of a fetch, then the six calls of the fetch of the cell of the
translated target, with the tiles the store returns from its state before the
move. -/
theorem moveTo_miss_calls {σ : Type} (K : KisTiledDataManager σ) (T : KisTileData)
    (a : KisRandomAccessor2) (w : World σ) (x y : Int) (cur : KisTileInfo)
    (rest : List KisTileInfo) (hc : a.m_tilesCache = cur :: rest)
    (hh : a.hits cur.area x y = false) :
    ∃ s pre, KisRandomAccessor2.moveTo K T a w x y = some s ∧
      (∀ c ∈ pre, c.isOfFetch = false) ∧
      s.2.calls = w.calls ++ pre ++
        fetchCalls a.m_writable (fetchIndex K.xToCol (sub32 x a.m_offsetX))
          (fetchIndex K.yToRow (sub32 y a.m_offsetY))
          (K.getTile w.store (fetchIndex K.xToCol (sub32 x a.m_offsetX))
            (fetchIndex K.yToRow (sub32 y a.m_offsetY)) a.m_writable).1.id
          (K.getOldTile (K.getTile w.store (fetchIndex K.xToCol (sub32 x a.m_offsetX))
              (fetchIndex K.yToRow (sub32 y a.m_offsetY)) a.m_writable).2
            (fetchIndex K.xToCol (sub32 x a.m_offsetX))
            (fetchIndex K.yToRow (sub32 y a.m_offsetY))).1.id := by
  obtain ⟨kept, n, pre, w1, hst, hw1, hk, hm⟩ := moveTo_miss K T a w x y cur rest hc hh
  refine ⟨_, pre, hm, ?_, ?_⟩
  · rcases hk with ⟨_, _, _, rfl⟩ | ⟨_, _, _, rfl⟩
    · intro c hcm
      simp only [List.mem_cons, List.mem_singleton, List.not_mem_nil, or_false] at hcm
      rcases hcm with rfl | rfl <;> rfl
    · intro c hcm
      simp only [List.mem_cons, List.mem_singleton, List.not_mem_nil, or_false] at hcm
      rcases hcm with rfl | rfl | rfl | rfl <;> rfl
  · simp only
    rw [fetchTileData_calls, hw1, hst]
    rfl

/-- Every run from an empty record, in full: it returns in a state that keeps
`RunOK`, whose record starts with the calls of the constructor's fetch, and
from which every further `moveTo` returns, keeps the mode, adds nothing to the
record when it passes the front test and adds calls that are not of a fetch
and then the six calls of one fetch when it misses. -/
theorem run_fetch_record {σ : Type} (K : KisTiledDataManager σ) (T : KisTileData)
    (st : σ) (x y offsetX offsetY : Int) (writable : Bool) (ps : List (Int × Int)) :
    ∃ s, KisRandomAccessor2.run K T ⟨st, []⟩ x y offsetX offsetY writable ps = some s ∧
      RunOK K writable s ∧
      (∃ more, s.2.calls =
        ([Call.xToCol (toInt32 (toUInt32 (sub32 x offsetX))),
          Call.yToRow (toInt32 (toUInt32 (sub32 y offsetY)))] ++
         fetchCalls writable (fetchIndex K.xToCol (sub32 x offsetX))
           (fetchIndex K.yToRow (sub32 y offsetY))
           (K.getTile st (fetchIndex K.xToCol (sub32 x offsetX))
             (fetchIndex K.yToRow (sub32 y offsetY)) writable).1.id
           (K.getOldTile (K.getTile st (fetchIndex K.xToCol (sub32 x offsetX))
               (fetchIndex K.yToRow (sub32 y offsetY)) writable).2
             (fetchIndex K.xToCol (sub32 x offsetX))
             (fetchIndex K.yToRow (sub32 y offsetY))).1.id) ++ more) ∧
      ∀ x2 y2, ∃ s2, KisRandomAccessor2.moveTo K T s.1 s.2 x2 y2 = some s2 ∧
        s2.1.m_writable = writable ∧
        (s.1.misses x2 y2 = false → s2.2.calls = s.2.calls) ∧
        (s.1.misses x2 y2 = true → ∃ pre, (∀ c ∈ pre, c.isOfFetch = false) ∧
          s2.2.calls = s.2.calls ++ pre ++
            fetchCalls writable (fetchIndex K.xToCol (sub32 x2 s.1.m_offsetX))
              (fetchIndex K.yToRow (sub32 y2 s.1.m_offsetY))
              (K.getTile s.2.store (fetchIndex K.xToCol (sub32 x2 s.1.m_offsetX))
                (fetchIndex K.yToRow (sub32 y2 s.1.m_offsetY)) writable).1.id
              (K.getOldTile (K.getTile s.2.store (fetchIndex K.xToCol (sub32 x2 s.1.m_offsetX))
                  (fetchIndex K.yToRow (sub32 y2 s.1.m_offsetY)) writable).2
                (fetchIndex K.xToCol (sub32 x2 s.1.m_offsetX))
                (fetchIndex K.yToRow (sub32 y2 s.1.m_offsetY))).1.id) := by
  obtain ⟨s, hs, hok, hpre⟩ := run_induct K T
    (fun s => RunOK K writable s ∧ ∃ more, s.2.calls =
      (KisRandomAccessor2.ctorFetched K T ⟨st, []⟩ x y offsetX offsetY writable).2.calls
        ++ more)
    (fun s x2 y2 h => by
      obtain ⟨s2, e2, hok2⟩ := moveTo_runOK K T writable s x2 y2 h.1
      refine ⟨s2, e2, hok2, ?_⟩
      obtain ⟨more, hmore⟩ := h.2
      obtain ⟨cur, rest, hc⟩ := List.exists_cons_of_ne_nil h.1.2.1
      obtain ⟨s3, e3, _, _, _, _, _, hcase⟩ := moveTo_step K T s.1 s.2 x2 y2 cur rest hc
      have e : s3 = s2 := Option.some.inj (e3.symm.trans e2)
      subst e
      rcases hcase with ⟨_, _, _, hw⟩ | ⟨_, e, kept, pre, _, _, _, _, hcalls⟩
      · exact ⟨more, by rw [hw, hmore]⟩
      · exact ⟨more ++ pre ++ fetchCalls s.1.m_writable
            (fetchIndex K.xToCol (sub32 x2 s.1.m_offsetX))
            (fetchIndex K.yToRow (sub32 y2 s.1.m_offsetY)) e.tile.id e.oldtile.id,
          by rw [hcalls, hmore]; simp only [List.append_assoc]⟩)
    ⟨st, []⟩ x y offsetX offsetY writable
    ⟨ctorFetched_runOK K T st x y offsetX offsetY writable, [], by simp⟩ ps
  rw [ctorFetched_record] at hpre
  refine ⟨s, hs, hok, hpre, ?_⟩
  intro x2 y2
  obtain ⟨hw, hne, _, _⟩ := hok
  obtain ⟨cur, rest, hc⟩ := List.exists_cons_of_ne_nil hne
  have hm : s.1.misses x2 y2 = !(s.1.hits cur.area x2 y2) := by
    simp only [KisRandomAccessor2.misses, hc]
  by_cases hh : s.1.hits cur.area x2 y2 = true
  · refine ⟨_, moveTo_hit K T s.1 s.2 x2 y2 cur rest hc hh, hw, fun _ => rfl, ?_⟩
    intro h
    rw [hm, hh] at h
    cases h
  · have hh1 : s.1.hits cur.area x2 y2 = false := by simpa using hh
    obtain ⟨s2, pre, e2, hpre2, hcalls⟩ := moveTo_miss_calls K T s.1 s.2 x2 y2 cur rest hc hh1
    obtain ⟨s3, e3, hw3, _⟩ := moveTo_step K T s.1 s.2 x2 y2 cur rest hc
    have e : s3 = s2 := Option.some.inj (e3.symm.trans e2)
    subst e
    refine ⟨s3, e2, hw3.trans hw, ?_, ?_⟩
    · intro h
      rw [hm, hh1] at h
      cases h
    · intro _
      rw [hw] at hcalls
      exact ⟨pre, hpre2, hcalls⟩

/-! ## Lock modes, lock order and destruction -/

/-- C11: every tile fetch of a run requests the current tile with the flag the
accessor was constructed with and locks it with `lockForWrite` if that flag is
set and with `lockForRead` otherwise, and locks the old tile with
`lockForRead` in both modes.  The run returns and keeps the mode.  Its record
starts with the constructor's fetch: `xToCol`, `yToRow`, then `getTile` with
the flag, the lock of the tile the store returned in the mode of the flag, the
read of its buffer address, `getOldTile`, `lockForRead` of the old tile the
store returned and the read of its buffer address.  Every further `moveTo`
that misses the front entry adds, after calls that are not of a fetch, the
same six calls for the cell of its target; one that does not miss adds
nothing.  In the whole record every `getTile` call carries the flag and is
followed at once by the lock in the mode of the flag, every `getOldTile` call
by `lockForRead`, and a `lockForWrite` occurs only in a writable accessor,
right after the `getTile` call that returned its tile. -/
theorem C11_lock_modes {σ : Type} (K : KisTiledDataManager σ) (T : KisTileData)
    (st : σ) (x y offsetX offsetY : Int) (writable : Bool) (ps : List (Int × Int)) :
    ∃ s, KisRandomAccessor2.run K T ⟨st, []⟩ x y offsetX offsetY writable ps = some s ∧
      s.1.m_writable = writable ∧
      (∃ more, s.2.calls =
        [Call.xToCol (toInt32 (toUInt32 (sub32 x offsetX))),
         Call.yToRow (toInt32 (toUInt32 (sub32 y offsetY))),
         Call.getTile (fetchIndex K.xToCol (sub32 x offsetX))
           (fetchIndex K.yToRow (sub32 y offsetY)) writable
           (K.getTile st (fetchIndex K.xToCol (sub32 x offsetX))
             (fetchIndex K.yToRow (sub32 y offsetY)) writable).1.id,
         (if writable then
            Call.lockForWrite (K.getTile st (fetchIndex K.xToCol (sub32 x offsetX))
              (fetchIndex K.yToRow (sub32 y offsetY)) writable).1.id
          else
            Call.lockForRead (K.getTile st (fetchIndex K.xToCol (sub32 x offsetX))
              (fetchIndex K.yToRow (sub32 y offsetY)) writable).1.id),
         Call.data (K.getTile st (fetchIndex K.xToCol (sub32 x offsetX))
           (fetchIndex K.yToRow (sub32 y offsetY)) writable).1.id,
         Call.getOldTile (fetchIndex K.xToCol (sub32 x offsetX))
           (fetchIndex K.yToRow (sub32 y offsetY))
           (K.getOldTile (K.getTile st (fetchIndex K.xToCol (sub32 x offsetX))
               (fetchIndex K.yToRow (sub32 y offsetY)) writable).2
             (fetchIndex K.xToCol (sub32 x offsetX))
             (fetchIndex K.yToRow (sub32 y offsetY))).1.id,
         Call.lockForRead
           (K.getOldTile (K.getTile st (fetchIndex K.xToCol (sub32 x offsetX))
               (fetchIndex K.yToRow (sub32 y offsetY)) writable).2
             (fetchIndex K.xToCol (sub32 x offsetX))
             (fetchIndex K.yToRow (sub32 y offsetY))).1.id,
         Call.data
           (K.getOldTile (K.getTile st (fetchIndex K.xToCol (sub32 x offsetX))
               (fetchIndex K.yToRow (sub32 y offsetY)) writable).2
             (fetchIndex K.xToCol (sub32 x offsetX))
             (fetchIndex K.yToRow (sub32 y offsetY))).1.id] ++ more) ∧
      (∀ x2 y2, ∃ s2, KisRandomAccessor2.moveTo K T s.1 s.2 x2 y2 = some s2 ∧
        s2.1.m_writable = writable ∧
        (s.1.misses x2 y2 = false → s2.2.calls = s.2.calls) ∧
        (s.1.misses x2 y2 = true → ∃ pre tile oldtile,
          (∀ c ∈ pre, c.isOfFetch = false) ∧
          tile = (K.getTile s.2.store (fetchIndex K.xToCol (sub32 x2 s.1.m_offsetX))
                   (fetchIndex K.yToRow (sub32 y2 s.1.m_offsetY)) writable).1 ∧
          oldtile = (K.getOldTile
                   (K.getTile s.2.store (fetchIndex K.xToCol (sub32 x2 s.1.m_offsetX))
                     (fetchIndex K.yToRow (sub32 y2 s.1.m_offsetY)) writable).2
                   (fetchIndex K.xToCol (sub32 x2 s.1.m_offsetX))
                   (fetchIndex K.yToRow (sub32 y2 s.1.m_offsetY))).1 ∧
          s2.2.calls = s.2.calls ++ pre ++
            [Call.getTile (fetchIndex K.xToCol (sub32 x2 s.1.m_offsetX))
               (fetchIndex K.yToRow (sub32 y2 s.1.m_offsetY)) writable tile.id,
             (if writable then Call.lockForWrite tile.id else Call.lockForRead tile.id),
             Call.data tile.id,
             Call.getOldTile (fetchIndex K.xToCol (sub32 x2 s.1.m_offsetX))
               (fetchIndex K.yToRow (sub32 y2 s.1.m_offsetY)) oldtile.id,
             Call.lockForRead oldtile.id,
             Call.data oldtile.id])) ∧
      (∀ i c r w t, s.2.calls[i]? = some (Call.getTile c r w t) →
        w = writable ∧
        s.2.calls[i + 1]?
          = some (if writable then Call.lockForWrite t else Call.lockForRead t)) ∧
      (∀ i c r o, s.2.calls[i]? = some (Call.getOldTile c r o) →
        s.2.calls[i + 1]? = some (Call.lockForRead o)) ∧
      (∀ i t, s.2.calls[i]? = some (Call.lockForWrite t) →
        writable = true ∧ 1 ≤ i ∧ ∃ c r, s.2.calls[i - 1]? = some (Call.getTile c r true t)) := by
  obtain ⟨s, hs, ⟨hw, _, hshape, _⟩, hctor, hmove⟩ :=
    run_fetch_record K T st x y offsetX offsetY writable ps
  refine ⟨s, hs, hw, hctor, ?_, ?_, ?_, ?_⟩
  · intro x2 y2
    obtain ⟨s2, e2, hw2, hhit, hmiss⟩ := hmove x2 y2
    refine ⟨s2, e2, hw2, hhit, fun h => ?_⟩
    obtain ⟨pre, hpre, hcalls⟩ := hmiss h
    exact ⟨pre, _, _, hpre, rfl, rfl, hcalls⟩
  · intro i c r w t hi
    obtain ⟨a, b, _⟩ := fetchShape_getTile writable s.2.calls hshape i c r w t hi
    exact ⟨a, b⟩
  · intro i c r o hi
    exact (fetchShape_getOldTile writable s.2.calls hshape i c r o hi).2.1
  · intro i t hi
    obtain ⟨a, b, c⟩ := (fetchShape_lock writable s.2.calls hshape i t).2 hi
    exact ⟨b, a, c⟩

/-- C12 (the four calls of a fetch with nothing interleaved), refuted on the 64
by 64 store: in the record of the constructor at (0, 0) the call `data` on the
current tile, the read of its buffer address by `tile->data()`, stands between
the lock of the current tile and the `getOldTile` call. -/
theorem C12_data_read_between_lock_and_getOldTile :
    (KisRandomAccessor2.ctor (gridStore squareTiles 4) squareTiles World.init 0 0 0 0
        true).map (fun s => s.2.calls)
      = some [Call.xToCol 0, Call.yToRow 0,
              Call.getTile 0 0 true (cellTileId 0 0), Call.lockForWrite (cellTileId 0 0),
              Call.data (cellTileId 0 0),
              Call.getOldTile 0 0 (cellTileId 0 0 + 1), Call.lockForRead (cellTileId 0 0 + 1),
              Call.data (cellTileId 0 0 + 1)] := by
  decide

/-- C12, amended: every tile fetch of a run issues, in this order, `getTile`
for its cell, the lock of the tile returned, `getOldTile` for the same cell
and the lock of the old tile returned; the only calls in between are the reads
of the buffer address of the tile just locked, one after each lock.  The
run's record starts with `xToCol`, `yToRow` and the six calls of the
constructor's fetch in this order; every further `moveTo` that misses the
front entry adds, after calls that are not of a fetch, the six calls of the
fetch of its target's cell in this order, and one that does not miss adds
nothing.  In the whole record every `getTile` call is followed at once by
these five calls, every `getOldTile` call stands three places after the
`getTile` call of its cell, every lock stands right after the `getTile` or
`getOldTile` call that returned its tile, and every `data` call right after
the lock of its tile. -/
theorem C12_lock_order {σ : Type} (K : KisTiledDataManager σ) (T : KisTileData)
    (st : σ) (x y offsetX offsetY : Int) (writable : Bool) (ps : List (Int × Int)) :
    ∃ s, KisRandomAccessor2.run K T ⟨st, []⟩ x y offsetX offsetY writable ps = some s ∧
      (∃ more tile oldtile,
        tile = (K.getTile st (fetchIndex K.xToCol (sub32 x offsetX))
                 (fetchIndex K.yToRow (sub32 y offsetY)) writable).1 ∧
        oldtile = (K.getOldTile (K.getTile st (fetchIndex K.xToCol (sub32 x offsetX))
                     (fetchIndex K.yToRow (sub32 y offsetY)) writable).2
                   (fetchIndex K.xToCol (sub32 x offsetX))
                   (fetchIndex K.yToRow (sub32 y offsetY))).1 ∧
        s.2.calls =
          [Call.xToCol (toInt32 (toUInt32 (sub32 x offsetX))),
           Call.yToRow (toInt32 (toUInt32 (sub32 y offsetY))),
           Call.getTile (fetchIndex K.xToCol (sub32 x offsetX))
             (fetchIndex K.yToRow (sub32 y offsetY)) writable tile.id,
           lockCall writable tile.id,
           Call.data tile.id,
           Call.getOldTile (fetchIndex K.xToCol (sub32 x offsetX))
             (fetchIndex K.yToRow (sub32 y offsetY)) oldtile.id,
           Call.lockForRead oldtile.id,
           Call.data oldtile.id] ++ more) ∧
      (∀ x2 y2, ∃ s2, KisRandomAccessor2.moveTo K T s.1 s.2 x2 y2 = some s2 ∧
        (s.1.misses x2 y2 = false → s2.2.calls = s.2.calls) ∧
        (s.1.misses x2 y2 = true → ∃ pre tile oldtile,
          (∀ c ∈ pre, c.isOfFetch = false) ∧
          tile = (K.getTile s.2.store (fetchIndex K.xToCol (sub32 x2 s.1.m_offsetX))
                   (fetchIndex K.yToRow (sub32 y2 s.1.m_offsetY)) writable).1 ∧
          oldtile = (K.getOldTile
                   (K.getTile s.2.store (fetchIndex K.xToCol (sub32 x2 s.1.m_offsetX))
                     (fetchIndex K.yToRow (sub32 y2 s.1.m_offsetY)) writable).2
                   (fetchIndex K.xToCol (sub32 x2 s.1.m_offsetX))
                   (fetchIndex K.yToRow (sub32 y2 s.1.m_offsetY))).1 ∧
          s2.2.calls = s.2.calls ++ pre ++
            [Call.getTile (fetchIndex K.xToCol (sub32 x2 s.1.m_offsetX))
               (fetchIndex K.yToRow (sub32 y2 s.1.m_offsetY)) writable tile.id,
             lockCall writable tile.id,
             Call.data tile.id,
             Call.getOldTile (fetchIndex K.xToCol (sub32 x2 s.1.m_offsetX))
               (fetchIndex K.yToRow (sub32 y2 s.1.m_offsetY)) oldtile.id,
             Call.lockForRead oldtile.id,
             Call.data oldtile.id])) ∧
      (∀ i c r w t, s.2.calls[i]? = some (Call.getTile c r w t) →
        s.2.calls[i + 1]? = some (lockCall w t) ∧
        s.2.calls[i + 2]? = some (Call.data t) ∧
        ∃ o, s.2.calls[i + 3]? = some (Call.getOldTile c r o) ∧
             s.2.calls[i + 4]? = some (Call.lockForRead o) ∧
             s.2.calls[i + 5]? = some (Call.data o)) ∧
      (∀ i c r o, s.2.calls[i]? = some (Call.getOldTile c r o) →
        3 ≤ i ∧ ∃ w t, s.2.calls[i - 3]? = some (Call.getTile c r w t) ∧
                       s.2.calls[i - 2]? = some (lockCall w t) ∧
                       s.2.calls[i - 1]? = some (Call.data t)) ∧
      (∀ i t, (s.2.calls[i]? = some (Call.lockForRead t) ∨
               s.2.calls[i]? = some (Call.lockForWrite t)) →
        1 ≤ i ∧ ∃ c r, (∃ w, s.2.calls[i - 1]? = some (Call.getTile c r w t)) ∨
                       s.2.calls[i - 1]? = some (Call.getOldTile c r t)) ∧
      (∀ i t, s.2.calls[i]? = some (Call.data t) →
        1 ≤ i ∧ (s.2.calls[i - 1]? = some (Call.lockForRead t) ∨
                 s.2.calls[i - 1]? = some (Call.lockForWrite t))) := by
  obtain ⟨s, hs, ⟨_, _, hshape, _⟩, hctor, hmove⟩ :=
    run_fetch_record K T st x y offsetX offsetY writable ps
  refine ⟨s, hs, ?_, ?_, ?_, ?_, ?_, ?_⟩
  · obtain ⟨more, hmore⟩ := hctor
    exact ⟨more, _, _, rfl, rfl, hmore⟩
  · intro x2 y2
    obtain ⟨s2, e2, _, hhit, hmiss⟩ := hmove x2 y2
    refine ⟨s2, e2, hhit, fun h => ?_⟩
    obtain ⟨pre, hpre, hcalls⟩ := hmiss h
    exact ⟨pre, _, _, hpre, rfl, rfl, hcalls⟩
  · intro i c r w t hi
    obtain ⟨a, b, d, o, e1, e2, e3⟩ := fetchShape_getTile writable s.2.calls hshape i c r w t hi
    exact ⟨by rw [a]; exact b, d, o, e1, e2, e3⟩
  · intro i c r o hi
    obtain ⟨a, _, _, t, e1, e2, e3⟩ := fetchShape_getOldTile writable s.2.calls hshape i c r o hi
    exact ⟨a, writable, t, e1, e2, e3⟩
  · intro i t hi
    rcases hi with hi | hi
    · obtain ⟨a, c, r, b⟩ := (fetchShape_lock writable s.2.calls hshape i t).1 hi
      refine ⟨a, c, r, ?_⟩
      rcases b with ⟨_, b⟩ | b
      · exact Or.inl ⟨writable, b⟩
      · exact Or.inr b
    · obtain ⟨a, _, c, r, b⟩ := (fetchShape_lock writable s.2.calls hshape i t).2 hi
      exact ⟨a, c, r, Or.inl ⟨true, b⟩⟩
  · intro i t hi
    obtain ⟨a, b⟩ := fetchShape_data writable s.2.calls hshape i t hi
    refine ⟨a, ?_⟩
    rcases b with b | b
    · cases writable with
      | false => exact Or.inl b
      | true => exact Or.inr b
    · exact Or.inl b

theorem dtor_calls {σ : Type} (a : KisRandomAccessor2) (w : World σ) :
    (KisRandomAccessor2.dtor a w).store = w.store ∧
    (KisRandomAccessor2.dtor a w).calls
      = w.calls ++ a.m_tilesCache.flatMap
          (fun e => [Call.unlock e.tile.id, Call.unlock e.oldtile.id]) := by
  unfold KisRandomAccessor2.dtor
  generalize a.m_tilesCache = cache
  induction cache generalizing w with
  | nil => simp
  | cons e es ih =>
    simp only [List.foldl_cons, List.flatMap_cons]
    obtain ⟨h1, h2⟩ := ih (KisRandomAccessor2.unlockTile
      (KisRandomAccessor2.unlockTile w e.tile) e.oldtile)
    refine ⟨h1, ?_⟩
    rw [h2, unlockTile_calls, unlockTile_calls]
    simp

/-- C13: from every accessor state and world, the destructor leaves the store
as it was and appends to the call record exactly the calls `unlock` on the
current tile and `unlock` on the old tile of each cache entry, front to back:
twice as many calls as there are entries, all of them unlocks, so no lock and
no store call. -/
theorem C13_destructor_unlocks {σ : Type} (a : KisRandomAccessor2) (w : World σ) :
    (KisRandomAccessor2.dtor a w).store = w.store ∧
    (KisRandomAccessor2.dtor a w).calls
      = w.calls ++ a.m_tilesCache.flatMap
          (fun e => [Call.unlock e.tile.id, Call.unlock e.oldtile.id]) ∧
    (a.m_tilesCache.flatMap
        (fun e => [Call.unlock e.tile.id, Call.unlock e.oldtile.id])).length
      = 2 * a.m_tilesCache.length := by
  refine ⟨(dtor_calls a w).1, (dtor_calls a w).2, ?_⟩
  generalize a.m_tilesCache = cache
  induction cache with
  | nil => rfl
  | cons e es ih =>
    simp only [List.flatMap_cons, List.length_append, List.length_cons, List.length_nil, ih]
    omega

/-! ## Geometry queries and pixel pointers -/

theorem sub32_of_inInt32 (a b : Int) (h : inInt32 (a - b)) : sub32 a b = a - b :=
  toInt32_of_range _ h.1 h.2

/-- C14: for every store, accessor and `x`, `y` whose translation by the
offset stays a `qint32`, `numContiguousColumns(x)` is the store's
`numContiguousColumns(x - offsetX, 0, 0)`, `numContiguousRows(y)` is the
store's `numContiguousRows(y - offsetY, 0, 0)` and `rowStride(x, y)` is the
store's `rowStride(x - offsetX, y - offsetY)`.  The three methods are `const`:
they are functions of the accessor that return the value only, so position and
cache after the call are the ones before it. -/
theorem C14_geometry_delegation {σ : Type} (K : KisTiledDataManager σ)
    (a : KisRandomAccessor2) (x y : Int)
    (hx : inInt32 (x - a.m_offsetX)) (hy : inInt32 (y - a.m_offsetY)) :
    KisRandomAccessor2.numContiguousColumns K a x
      = K.numContiguousColumns (x - a.m_offsetX) 0 0 ∧
    KisRandomAccessor2.numContiguousRows K a y
      = K.numContiguousRows (y - a.m_offsetY) 0 0 ∧
    KisRandomAccessor2.rowStride K a x y = K.rowStride (x - a.m_offsetX) (y - a.m_offsetY) := by
  unfold KisRandomAccessor2.numContiguousColumns KisRandomAccessor2.numContiguousRows
    KisRandomAccessor2.rowStride
  rw [sub32_of_inInt32 _ _ hx, sub32_of_inInt32 _ _ hy]
  exact ⟨rfl, rfl, rfl⟩

/-- C14 on the sample accessor (`offsetX = 3`) over the 64 by 64 store, at
`x = -2`, `y = 70`: translated `(-5, 70)`, 5 columns and 58 rows left in the
tile. -/
theorem C14_geometry_delegation_witness :
    inInt32 (-2 - sampleAccessor.m_offsetX) ∧ inInt32 (70 - sampleAccessor.m_offsetY) ∧
    (KisRandomAccessor2.numContiguousColumns (gridStore squareTiles 4) sampleAccessor (-2)
      = (gridStore squareTiles 4).numContiguousColumns (-2 - sampleAccessor.m_offsetX) 0 0 ∧
    KisRandomAccessor2.numContiguousRows (gridStore squareTiles 4) sampleAccessor 70
      = (gridStore squareTiles 4).numContiguousRows (70 - sampleAccessor.m_offsetY) 0 0 ∧
    KisRandomAccessor2.rowStride (gridStore squareTiles 4) sampleAccessor (-2) 70
      = (gridStore squareTiles 4).rowStride (-2 - sampleAccessor.m_offsetX)
          (70 - sampleAccessor.m_offsetY)) :=
  ⟨⟨by decide, by decide⟩, ⟨by decide, by decide⟩,
   C14_geometry_delegation (gridStore squareTiles 4) sampleAccessor (-2) 70
     ⟨by decide, by decide⟩ ⟨by decide, by decide⟩⟩

/-- C15: in every accessor state with a front entry, `rawData()` and
`rawDataConst()` return the same address, the front entry's current buffer
plus the byte offset; `oldRawData()` returns the front entry's old buffer plus
the same byte offset; and `rawDataImm(x, y)` returns what `rawData()` returns
in the state `moveTo(x, y)` leaves. -/
theorem C15_pointers_share_offset (a : KisRandomAccessor2) (front : KisTileInfo)
    (rest : List KisTileInfo) (hc : a.m_tilesCache = front :: rest) :
    a.rawData = some (front.data + a.offset) ∧
    a.rawDataConst = a.rawData ∧
    a.oldRawData = some (front.oldData + a.offset) ∧
    ∀ {σ : Type} (K : KisTiledDataManager σ) (T : KisTileData) (w : World σ) (x y : Int),
      ∃ s p, KisRandomAccessor2.moveTo K T a w x y = some s ∧ s.1.rawData = some p ∧
        KisRandomAccessor2.rawDataImm K T a w x y = some (p, s.1, s.2) := by
  refine ⟨?_, rfl, ?_, ?_⟩
  · simp [KisRandomAccessor2.rawData, hc]
  · simp [KisRandomAccessor2.oldRawData, hc]
  · intro σ K T w x y
    obtain ⟨s, hs, _, _, _, _, _, hcase⟩ := moveTo_step K T a w x y front rest hc
    have hne : ∃ f r, s.1.m_tilesCache = f :: r := by
      rcases hcase with ⟨_, h, _⟩ | ⟨_, e, kept, _, h, _⟩
      · exact ⟨_, _, h⟩
      · exact ⟨_, _, h⟩
    obtain ⟨f, r, hf⟩ := hne
    refine ⟨s, f.data + s.1.offset, hs, by simp [KisRandomAccessor2.rawData, hf], ?_⟩
    simp [KisRandomAccessor2.rawDataImm, hs, hf]

/-- C15 on the sample accessor and a move over the 64 by 64 store. -/
theorem C15_pointers_share_offset_witness :
    sampleAccessor.m_tilesCache
      = ⟨⟨0, 0, -63, -63⟩, ⟨0, 0⟩, ⟨1, 1000000⟩, 0, 1000000⟩ :: [] ∧
    (sampleAccessor.rawData
        = some ((⟨⟨0, 0, -63, -63⟩, ⟨0, 0⟩, ⟨1, 1000000⟩, 0, 1000000⟩ : KisTileInfo).data
            + sampleAccessor.offset) ∧
    sampleAccessor.rawDataConst = sampleAccessor.rawData ∧
    sampleAccessor.oldRawData
        = some ((⟨⟨0, 0, -63, -63⟩, ⟨0, 0⟩, ⟨1, 1000000⟩, 0, 1000000⟩ : KisTileInfo).oldData
            + sampleAccessor.offset) ∧
    ∀ {σ : Type} (K : KisTiledDataManager σ) (T : KisTileData) (w : World σ) (x y : Int),
      ∃ s p, KisRandomAccessor2.moveTo K T sampleAccessor w x y = some s ∧
        s.1.rawData = some p ∧
        KisRandomAccessor2.rawDataImm K T sampleAccessor w x y = some (p, s.1, s.2)) :=
  ⟨rfl, C15_pointers_share_offset sampleAccessor _ [] rfl⟩

/-- After every run the pointers of the front entry are the buffers of the
tiles it holds: `rawData()` is `tile->data()` of the current tile plus the byte
offset and `oldRawData()` is `data()` of the old tile plus the same offset. -/
theorem run_pointers {σ : Type} (K : KisTiledDataManager σ) (T : KisTileData)
    (st : σ) (x y offsetX offsetY : Int) (writable : Bool) (ps : List (Int × Int)) :
    ∃ s front rest,
      KisRandomAccessor2.run K T ⟨st, []⟩ x y offsetX offsetY writable ps = some s ∧
      s.1.m_tilesCache = front :: rest ∧ front.isFetched K writable ∧
      s.1.rawData = some (front.tile.data + s.1.offset) ∧
      s.1.rawDataConst = some (front.tile.data + s.1.offset) ∧
      s.1.oldRawData = some (front.oldtile.data + s.1.offset) := by
  obtain ⟨s, hs, _, hne, _, hent⟩ := run_runOK K T st x y offsetX offsetY writable ps
  obtain ⟨front, rest, hc⟩ := List.exists_cons_of_ne_nil hne
  have hf := hent front (by rw [hc]; simp)
  obtain ⟨_, _, _, _, _, hd, hod⟩ := hf
  refine ⟨s, front, rest, hs, hc, hent front (by rw [hc]; simp), ?_, ?_, ?_⟩
  · simp [KisRandomAccessor2.rawData, hc, hd]
  · simp [KisRandomAccessor2.rawDataConst, hc, hd]
  · simp [KisRandomAccessor2.oldRawData, hc, hod]

/-! ## Writes through `rawData()` and the old bytes -/

/-- A write of `bytes` at `p` leaves every byte outside `[p, p + length)` as it
was. -/
theorem writeBytes_outside (mem : Int → Nat) (p : Int) (bytes : List Nat) (q : Int)
    (h : q < p ∨ p + bytes.length ≤ q) : writeBytes mem p bytes q = mem q := by
  unfold writeBytes
  rw [if_neg]
  omega

/-- Two pointers at the same byte offset into buffers that do not overlap: a
write of at most `size` bytes through the first leaves the bytes read through
the second as they were. -/
theorem read_after_write_apart (mem : Int → Nat) (base oldBase off size : Int)
    (bytes : List Nat) (hlen : (bytes.length : Int) ≤ size)
    (hap : buffersApart base oldBase size) :
    readBytes (writeBytes mem (base + off) bytes) (oldBase + off) bytes.length
      = readBytes mem (oldBase + off) bytes.length := by
  unfold readBytes
  apply List.map_congr_left
  intro k hk
  have hk2 : k < bytes.length := List.mem_range.1 hk
  apply writeBytes_outside
  unfold buffersApart at hap
  omega

/-- C16: after every run, whatever the position reached, if the buffer of the
old tile the front entry holds (the snapshot the store's `getOldTile` returned
for the cell) and the buffer of its current tile are `size` bytes each and do
not overlap, then writing up to `size` bytes (a pixel, say) through
`rawData()` leaves the bytes read through `oldRawData()` at the same position
unchanged. -/
theorem C16_old_bytes_survive_write {σ : Type} (K : KisTiledDataManager σ) (T : KisTileData)
    (st : σ) (x y offsetX offsetY : Int) (writable : Bool) (ps : List (Int × Int)) :
    ∃ s front rest p q,
      KisRandomAccessor2.run K T ⟨st, []⟩ x y offsetX offsetY writable ps = some s ∧
      s.1.m_tilesCache = front :: rest ∧ front.isFetched K writable ∧
      s.1.rawData = some p ∧ s.1.oldRawData = some q ∧
      ∀ (size : Int) (mem : Int → Nat) (bytes : List Nat),
        buffersApart front.tile.data front.oldtile.data size →
        (bytes.length : Int) ≤ size →
        readBytes (writeBytes mem p bytes) q bytes.length = readBytes mem q bytes.length := by
  obtain ⟨s, front, rest, hs, hc, hf, hp, _, hq⟩ :=
    run_pointers K T st x y offsetX offsetY writable ps
  refine ⟨s, front, rest, _, _, hs, hc, hf, hp, hq, ?_⟩
  intro size mem bytes hap hlen
  exact read_after_write_apart mem _ _ _ size bytes hlen hap

/-- The statement of C16 on the 64 by 64 store with 4-byte pixels, whose old
tile of a cell has a buffer 1000000 bytes after the current one: a pixel
written at (70, 3) through `rawData()` is read back there, and the pixel read
through `oldRawData()` is the one that was there before. -/
theorem old_bytes_survive_write_on_gridStore :
    (KisRandomAccessor2.run (gridStore squareTiles 4) squareTiles World.init 0 0 0 0 true
        [(70, 3)]).map (fun s => (s.1.rawData, s.1.oldRawData))
      = some (some (12000000 + 792), some (13000000 + 792)) ∧
    buffersApart 12000000 13000000 16384 ∧
    ∀ mem : Int → Nat,
      readBytes (writeBytes mem (12000000 + 792) [1, 2, 3, 4]) (12000000 + 792) 4
        = [1, 2, 3, 4] ∧
      readBytes (writeBytes mem (12000000 + 792) [1, 2, 3, 4]) (13000000 + 792) 4
        = readBytes mem (13000000 + 792) 4 := by
  refine ⟨by decide, Or.inl (by decide), fun mem => ⟨?_, ?_⟩⟩
  · simp [readBytes, writeBytes, List.range_succ]
  · exact read_after_write_apart mem 12000000 13000000 792 16384 [1, 2, 3, 4] (by decide)
      (Or.inl (by decide))

/-! ## The rectangle `fetchTileData` records -/

/-- The rectangle `fetchTileData` records for a cell is the rectangle of that
cell on the grid with width and height exchanged: columns are scaled by
`HEIGHT` and rows by `WIDTH`. -/
theorem fetchTileData_area_transposed {σ : Type} (K : KisTiledDataManager σ)
    (T : KisTileData) (wr : Bool) (w : World σ) (col row : Int) (kti : KisTileInfo)
    (hW : 1 < T.WIDTH) (hH : 1 < T.HEIGHT) (hr : cellInRange T.transposed col row) :
    (KisRandomAccessor2.fetchTileData K T wr w col row kti).1.area
      = cellArea T.transposed col row := by
  obtain ⟨h1, h2, h3, h4⟩ := hr
  simp only [KisTileData.transposed] at h1 h2 h3 h4
  simp only [KisRandomAccessor2.fetchTileData, cellArea, KisTileData.transposed, mul32, add32,
    sub32, neg32]
  generalize col * T.HEIGHT = cw at h1 h2 ⊢
  generalize row * T.WIDTH = rw at h3 h4 ⊢
  have e0 : toInt32 cw = cw := toInt32_of_range cw h1 (by omega)
  have e1 : toInt32 rw = rw := toInt32_of_range rw h3 (by omega)
  have e2 : toInt32 (-toInt32 (toInt32 (cw + T.HEIGHT) - 1)) = -(cw + T.HEIGHT - 1) := by
    by_cases hc : cw + T.HEIGHT = 2147483648
    · rw [hc]; simp only [toInt32]; omega
    · rw [toInt32_of_range (cw + T.HEIGHT) (by omega) (by omega),
        toInt32_of_range (cw + T.HEIGHT - 1) (by omega) (by omega),
        toInt32_of_range _ (by omega) (by omega)]
  have e3 : toInt32 (-toInt32 (toInt32 (rw + T.WIDTH) - 1)) = -(rw + T.WIDTH - 1) := by
    by_cases hc : rw + T.WIDTH = 2147483648
    · rw [hc]; simp only [toInt32]; omega
    · rw [toInt32_of_range (rw + T.WIDTH) (by omega) (by omega),
        toInt32_of_range (rw + T.WIDTH - 1) (by omega) (by omega),
        toInt32_of_range _ (by omega) (by omega)]
  rw [e0, e1, e2, e3]

/-- A point lies in the rectangle of a cell exactly when the cell is the floor
quotient of the point by the tile size. -/
theorem cellArea_contains_iff (T : KisTileData) (hW : 0 < T.WIDTH) (hH : 0 < T.HEIGHT)
    (col row x y : Int) :
    (cellArea T col row).contains x y
      ↔ (Int.fdiv x T.WIDTH = col ∧ Int.fdiv y T.HEIGHT = row) := by
  have bx := fdiv_bounds x T.WIDTH hW
  have by1 := fdiv_bounds y T.HEIGHT hH
  simp only [Int32V.contains, cellArea]
  constructor
  · rintro ⟨a, b, c, d⟩
    exact ⟨fdiv_unique _ _ _ hW a (by omega), fdiv_unique _ _ _ hH c (by omega)⟩
  · rintro ⟨rfl, rfl⟩
    omega

/-- Rectangles of cells that are neighbours in a row or in a column meet
without a gap and without overlap. -/
theorem cellArea_adjacent (T : KisTileData) (col row : Int) :
    -(cellArea T col row).e2 + 1 = (cellArea T (col + 1) row).e0 ∧
    -(cellArea T col row).e3 + 1 = (cellArea T col (row + 1)).e1 := by
  simp only [cellArea]
  constructor <;> ring

/-- The rectangles the accessor records tile the plane on the grid with width
and height exchanged: a point lies in the rectangle recorded for a cell exactly
when the cell is `(floor (x / HEIGHT), floor (y / WIDTH))`; so every point lies
in the recorded rectangle of exactly one cell, and recorded rectangles of
distinct cells are disjoint. -/
theorem recorded_rectangle_contains_iff {σ : Type} (K : KisTiledDataManager σ)
    (T : KisTileData) (wr : Bool) (w : World σ) (col row : Int) (kti : KisTileInfo)
    (hW : 1 < T.WIDTH) (hH : 1 < T.HEIGHT) (hr : cellInRange T.transposed col row)
    (x y : Int) :
    (KisRandomAccessor2.fetchTileData K T wr w col row kti).1.area.contains x y
      ↔ (Int.fdiv x T.HEIGHT = col ∧ Int.fdiv y T.WIDTH = row) := by
  rw [fetchTileData_area_transposed K T wr w col row kti hW hH hr]
  exact cellArea_contains_iff T.transposed (by simp [KisTileData.transposed]; omega)
    (by simp [KisTileData.transposed]; omega) col row x y

/-- C17: for square tiles (`WIDTH = HEIGHT`, a side above 1, as the 64 by 64
tiles of the build) and every grid cell `(col, row)` whose pixels have `qint32`
coordinates, the cache entry filled by `fetchTileData` records the rectangle
`(col * WIDTH, row * HEIGHT, -(col * WIDTH + WIDTH - 1),
-(row * HEIGHT + HEIGHT - 1))`: columns are scaled by the tile width and rows
by the tile height, the lower bounds as they are and the upper bounds
negated. -/
theorem C17_recorded_rectangle {σ : Type} (K : KisTiledDataManager σ) (T : KisTileData)
    (wr : Bool) (w : World σ) (col row : Int) (kti : KisTileInfo)
    (hsq : T.HEIGHT = T.WIDTH) (hW : 1 < T.WIDTH) (hr : cellInRange T col row) :
    (KisRandomAccessor2.fetchTileData K T wr w col row kti).1.area
      = ⟨col * T.WIDTH, row * T.HEIGHT,
         -(col * T.WIDTH + T.WIDTH - 1), -(row * T.HEIGHT + T.HEIGHT - 1)⟩ :=
  fetchTileData_area_square K T wr w col row kti hsq hW hr

/-- C17 on 64 by 64 tiles: cell (1, 0) records (64, 0, -127, -63). -/
theorem C17_recorded_rectangle_witness :
    (KisRandomAccessor2.fetchTileData (gridStore squareTiles 4) squareTiles true World.init
        1 0 KisTileInfo.uninit).1.area
      = ⟨1 * squareTiles.WIDTH, 0 * squareTiles.HEIGHT,
         -(1 * squareTiles.WIDTH + squareTiles.WIDTH - 1),
         -(0 * squareTiles.HEIGHT + squareTiles.HEIGHT - 1)⟩ :=
  C17_recorded_rectangle (gridStore squareTiles 4) squareTiles true World.init 1 0
    KisTileInfo.uninit rfl (by decide) (by unfold cellInRange; decide)

/-- C19: for square tiles (`WIDTH = HEIGHT`, a side above 1 and at most `2^31`,
as the 64 by 64 tiles of the build) the rectangles `fetchTileData` records for
the cells whose pixels have `qint32` coordinates tile the plane without seams.
A point lies in the rectangle recorded for a cell exactly when the cell is
`(floor (x / WIDTH), floor (y / HEIGHT))`, so the rectangles recorded for two
distinct cells share no point and every point whose cell is among those cells
lies in the rectangle of exactly that cell.  For cells that are neighbours in
a row the x-max of the first plus 1 is the x-min of the second, and likewise
in a column for y.  Column -1 records `[-WIDTH, -1]` and column 0 records
`[0, WIDTH - 1]`. -/
theorem C19_recorded_rectangles_tile_the_plane {σ : Type} (K : KisTiledDataManager σ)
    (T : KisTileData) (wr : Bool) (w : World σ) (kti : KisTileInfo)
    (hsq : T.HEIGHT = T.WIDTH) (hW : 1 < T.WIDTH) (hW2 : T.WIDTH ≤ 2147483648) :
    (∀ col row, cellInRange T col row → ∀ x y,
      ((KisRandomAccessor2.fetchTileData K T wr w col row kti).1.area.contains x y
        ↔ (Int.fdiv x T.WIDTH = col ∧ Int.fdiv y T.HEIGHT = row))) ∧
    (∀ col row col2 row2, cellInRange T col row → cellInRange T col2 row2 →
      (col, row) ≠ (col2, row2) → ∀ x y,
      ¬ ((KisRandomAccessor2.fetchTileData K T wr w col row kti).1.area.contains x y ∧
         (KisRandomAccessor2.fetchTileData K T wr w col2 row2 kti).1.area.contains x y)) ∧
    (∀ col row, cellInRange T col row → cellInRange T (col + 1) row →
      -(KisRandomAccessor2.fetchTileData K T wr w col row kti).1.area.e2 + 1
        = (KisRandomAccessor2.fetchTileData K T wr w (col + 1) row kti).1.area.e0) ∧
    (∀ col row, cellInRange T col row → cellInRange T col (row + 1) →
      -(KisRandomAccessor2.fetchTileData K T wr w col row kti).1.area.e3 + 1
        = (KisRandomAccessor2.fetchTileData K T wr w col (row + 1) kti).1.area.e1) ∧
    (∀ row, cellInRange T 0 row →
      (KisRandomAccessor2.fetchTileData K T wr w (-1) row kti).1.area.e0 = -T.WIDTH ∧
      -(KisRandomAccessor2.fetchTileData K T wr w (-1) row kti).1.area.e2 = -1 ∧
      (KisRandomAccessor2.fetchTileData K T wr w 0 row kti).1.area.e0 = 0 ∧
      -(KisRandomAccessor2.fetchTileData K T wr w 0 row kti).1.area.e2 = T.WIDTH - 1) := by
  have hW0 : 0 < T.WIDTH := by omega
  have hH0 : 0 < T.HEIGHT := by rw [hsq]; exact hW0
  have harea : ∀ col row, cellInRange T col row →
      (KisRandomAccessor2.fetchTileData K T wr w col row kti).1.area = cellArea T col row :=
    fun col row hr => fetchTileData_area_square K T wr w col row kti hsq hW hr
  refine ⟨?_, ?_, ?_, ?_, ?_⟩
  · intro col row hr x y
    rw [harea col row hr]
    exact cellArea_contains_iff T hW0 hH0 col row x y
  · intro col row col2 row2 hr hr2 hne x y h
    rw [harea col row hr, harea col2 row2 hr2, cellArea_contains_iff T hW0 hH0,
      cellArea_contains_iff T hW0 hH0] at h
    apply hne
    rw [← h.1.1, ← h.1.2, ← h.2.1, ← h.2.2]
  · intro col row hr hr2
    rw [harea col row hr, harea (col + 1) row hr2]
    exact (cellArea_adjacent T col row).1
  · intro col row hr hr2
    rw [harea col row hr, harea col (row + 1) hr2]
    exact (cellArea_adjacent T col row).2
  · intro row hr
    have hm : cellInRange T (-1) row := by
      obtain ⟨_, _, h3, h4⟩ := hr
      exact ⟨by omega, by omega, h3, h4⟩
    rw [harea (-1) row hm, harea 0 row hr]
    simp only [cellArea]
    refine ⟨by ring, by ring, by ring, by ring⟩

/-- C19 on 64 by 64 tiles. -/
theorem C19_recorded_rectangles_tile_the_plane_witness :
    (KisRandomAccessor2.fetchTileData (gridStore squareTiles 4) squareTiles true World.init
        (-1) 0 KisTileInfo.uninit).1.area.e0 = -squareTiles.WIDTH ∧
    -(KisRandomAccessor2.fetchTileData (gridStore squareTiles 4) squareTiles true World.init
        (-1) 0 KisTileInfo.uninit).1.area.e2 = -1 ∧
    (KisRandomAccessor2.fetchTileData (gridStore squareTiles 4) squareTiles true World.init
        0 0 KisTileInfo.uninit).1.area.e0 = 0 ∧
    -(KisRandomAccessor2.fetchTileData (gridStore squareTiles 4) squareTiles true World.init
        0 0 KisTileInfo.uninit).1.area.e2 = squareTiles.WIDTH - 1 :=
  (C19_recorded_rectangles_tile_the_plane (gridStore squareTiles 4) squareTiles true World.init
    KisTileInfo.uninit rfl (by decide) (by decide)).2.2.2.2 0 (by unfold cellInRange; decide)

/-! ## The indices handed to `getTile` -/

theorem fetchIndex_eq (f : Int → Int) (v : Int) (hv : inInt32 v) (hf : inInt32 (f v)) :
    fetchIndex f v = f v := by
  unfold fetchIndex
  rw [toInt32_toUInt32 v, toInt32_of_range v hv.1 hv.2, toInt32_toUInt32,
    toInt32_of_range _ (toInt32_range _).1 (toInt32_range _).2, toInt32_of_range _ hf.1 hf.2]

theorem inInt32_sub32 (a b : Int) : inInt32 (sub32 a b) := toInt32_range _

theorem fetchIndex_xToCol {σ : Type} (K : KisTiledDataManager σ) (w : World σ) (v : Int) :
    toInt32 (KisRandomAccessor2.xToCol K w v).1 = fetchIndex K.xToCol v ∧
    toInt32 (KisRandomAccessor2.yToRow K w v).1 = fetchIndex K.yToRow v := ⟨rfl, rfl⟩

/-- C18: for a store whose `xToCol` and `yToRow` return a `qint32` for every
`qint32` coordinate.  (1) The index the accessor hands to `fetchTileData`, the
result of its `xToCol` or `yToRow` wrapper (a `quint32`) received as `qint32`,
is the store's `xToCol(v)` or `yToRow(v)` for every `qint32` `v`.  (2) The
`getTile` and `getOldTile` calls of the constructor are for the cell
`(xToCol(x - offsetX), yToRow(y - offsetY))` of the store.  (3) So are those of
every `moveTo` that misses the front entry.  (4) When the store floor-divides
by a width `Wt` and a height `Ht`, the column of every `v` in `[-Wt, -1]` and
the row of every `v` in `[-Ht, -1]` is `-1`. -/
theorem C18_indices_survive_unsigned {σ : Type} (K : KisTiledDataManager σ) (T : KisTileData)
    (hX : ∀ v, inInt32 v → inInt32 (K.xToCol v))
    (hY : ∀ v, inInt32 v → inInt32 (K.yToRow v)) :
    (∀ (w : World σ) (v : Int), inInt32 v →
      toInt32 (KisRandomAccessor2.xToCol K w v).1 = K.xToCol v ∧
      toInt32 (KisRandomAccessor2.yToRow K w v).1 = K.yToRow v) ∧
    (∀ (w : World σ) (x y offsetX offsetY : Int) (writable : Bool),
      ∃ e, (KisRandomAccessor2.ctorFetched K T w x y offsetX offsetY writable).1.m_tilesCache
          = [e] ∧
        (KisRandomAccessor2.ctorFetched K T w x y offsetX offsetY writable).2.calls
          = w.calls ++ [Call.xToCol (sub32 x offsetX), Call.yToRow (sub32 y offsetY)]
              ++ fetchCalls writable (K.xToCol (sub32 x offsetX)) (K.yToRow (sub32 y offsetY))
                  e.tile.id e.oldtile.id) ∧
    (∀ (a : KisRandomAccessor2) (w : World σ) (x y : Int) (cur : KisTileInfo)
        (rest : List KisTileInfo), a.m_tilesCache = cur :: rest →
        a.hits cur.area x y = false →
      ∃ s e kept pre, KisRandomAccessor2.moveTo K T a w x y = some s ∧
        s.1.m_tilesCache = e :: kept ∧
        s.2.calls = w.calls ++ pre ++
          fetchCalls a.m_writable (K.xToCol (sub32 x a.m_offsetX))
            (K.yToRow (sub32 y a.m_offsetY)) e.tile.id e.oldtile.id) ∧
    (∀ (w : World σ) (Wt : Int), 0 < Wt → Wt ≤ 2147483648 →
      (∀ v, K.xToCol v = Int.fdiv v Wt) →
      ∀ v, -Wt ≤ v → v ≤ -1 → toInt32 (KisRandomAccessor2.xToCol K w v).1 = -1) ∧
    (∀ (w : World σ) (Ht : Int), 0 < Ht → Ht ≤ 2147483648 →
      (∀ v, K.yToRow v = Int.fdiv v Ht) →
      ∀ v, -Ht ≤ v → v ≤ -1 → toInt32 (KisRandomAccessor2.yToRow K w v).1 = -1) := by
  have key : ∀ v, inInt32 v →
      fetchIndex K.xToCol v = K.xToCol v ∧ fetchIndex K.yToRow v = K.yToRow v :=
    fun v hv => ⟨fetchIndex_eq _ v hv (hX v hv), fetchIndex_eq _ v hv (hY v hv)⟩
  have hid : ∀ v, inInt32 v → toInt32 (toUInt32 v) = v := by
    intro v hv
    rw [toInt32_toUInt32, toInt32_of_range v hv.1 hv.2]
  refine ⟨fun w v hv => key v hv, ?_, ?_, ?_, ?_⟩
  · intro w x y offsetX offsetY writable
    obtain ⟨e, he, hcalls⟩ := ctorFetched_calls K T w x y offsetX offsetY writable
    refine ⟨e, he, ?_⟩
    have kx := (key _ (inInt32_sub32 x offsetX)).1
    have ky := (key _ (inInt32_sub32 y offsetY)).2
    unfold fetchIndex at kx ky
    rw [hcalls, kx, ky, hid _ (inInt32_sub32 x offsetX), hid _ (inInt32_sub32 y offsetY)]
  · intro a w x y cur rest hc hh
    obtain ⟨s, hs, _, _, _, _, _, hcase⟩ := moveTo_step K T a w x y cur rest hc
    rcases hcase with ⟨hit, _⟩ | ⟨_, e, kept, pre, hc2, _, _, _, hcalls⟩
    · rw [hh] at hit; cases hit
    · refine ⟨s, e, kept, pre, hs, hc2, ?_⟩
      rw [hcalls, (key _ (inInt32_sub32 x a.m_offsetX)).1,
        (key _ (inInt32_sub32 y a.m_offsetY)).2]
  · intro w Wt hW hW2 hfl v h1 h2
    have hv : inInt32 v := ⟨by omega, by omega⟩
    have e : toInt32 (KisRandomAccessor2.xToCol K w v).1 = K.xToCol v := (key v hv).1
    rw [e, hfl]
    exact fdiv_unique v Wt (-1) hW (by omega) (by omega)
  · intro w Ht hH hH2 hfl v h1 h2
    have hv : inInt32 v := ⟨by omega, by omega⟩
    have e : toInt32 (KisRandomAccessor2.yToRow K w v).1 = K.yToRow v := (key v hv).2
    rw [e, hfl]
    exact fdiv_unique v Ht (-1) hH (by omega) (by omega)

theorem gridStore_indices_inInt32 (P : Int) :
    (∀ v, inInt32 v → inInt32 ((gridStore squareTiles P).xToCol v)) ∧
    (∀ v, inInt32 v → inInt32 ((gridStore squareTiles P).yToRow v)) :=
  ⟨fun v hv => fdiv_int32 v 64 (by decide) hv.1 hv.2,
   fun v hv => fdiv_int32 v 64 (by decide) hv.1 hv.2⟩

/-- C18 on the 64 by 64 store. -/
theorem C18_indices_survive_unsigned_witness :
    (∀ v, inInt32 v → inInt32 ((gridStore squareTiles 4).xToCol v)) ∧
    (∀ v, inInt32 v → inInt32 ((gridStore squareTiles 4).yToRow v)) ∧
    toInt32 (KisRandomAccessor2.xToCol (gridStore squareTiles 4) World.init (-64)).1 = -1 ∧
    toInt32 (KisRandomAccessor2.yToRow (gridStore squareTiles 4) World.init (-1)).1 = -1 :=
  ⟨(gridStore_indices_inInt32 4).1, (gridStore_indices_inInt32 4).2,
   (C18_indices_survive_unsigned (gridStore squareTiles 4) squareTiles
      (gridStore_indices_inInt32 4).1 (gridStore_indices_inInt32 4).2).2.2.2.1
      World.init 64 (by decide) (by decide) (fun _ => rfl) (-64) (by decide) (by decide),
   (C18_indices_survive_unsigned (gridStore squareTiles 4) squareTiles
      (gridStore_indices_inInt32 4).1 (gridStore_indices_inInt32 4).2).2.2.2.2
      World.init 64 (by decide) (by decide) (fun _ => rfl) (-1) (by decide) (by decide)⟩

/-! ## Pointers of a read-only accessor -/

/-- C20 (a mutable pointer only from writable accessors, a diagnostic
otherwise), refuted on the 64 by 64 store with 4-byte pixels: the accessor
constructed at (0, 0) with `writable = false` is read-only, its tiles are
locked for read only, and yet `rawData()` returns the address 0 of its pixel
and `rawDataImm(70, 3)` the address 12000792, as `rawDataConst()` does, with
no failure. -/
theorem C20_read_only_accessor_hands_out_pointer :
    (KisRandomAccessor2.ctor (gridStore squareTiles 4) squareTiles World.init 0 0 0 0
        false).map
        (fun s => (s.1.m_writable, s.1.rawData, s.1.rawDataConst,
                   s.2.calls.filter Call.isFetchCall))
      = some (false, some 0, some 0,
          [Call.getTile 0 0 false 0, Call.lockForRead 0, Call.getOldTile 0 0 1,
           Call.lockForRead 1]) ∧
    ((KisRandomAccessor2.ctor (gridStore squareTiles 4) squareTiles World.init 0 0 0 0
        false).bind
        (fun s => KisRandomAccessor2.rawDataImm (gridStore squareTiles 4) squareTiles
                    s.1 s.2 70 3)).map (fun r => (r.1, r.2.1.m_writable, r.2.1.rawDataConst))
      = some (12000792, false, some 12000792) := by
  decide

/-- C20, amended: `rawData()` and `rawDataImm(x, y)` do not look at the mode.
From every accessor state with a front entry, with the mode set either way,
`rawData()` returns the front entry's current buffer plus the byte offset, the
address `rawDataConst()` returns, and `rawDataImm(x, y)` returns an address,
the one `rawDataConst()` returns in the state it leaves; neither fails. -/
theorem C20_pointer_whatever_the_mode (a : KisRandomAccessor2) (mode : Bool)
    (front : KisTileInfo) (rest : List KisTileInfo) (hc : a.m_tilesCache = front :: rest) :
    ({ a with m_writable := mode }).rawData = some (front.data + a.offset) ∧
    ({ a with m_writable := mode }).rawDataConst = some (front.data + a.offset) ∧
    ∀ {σ : Type} (K : KisTiledDataManager σ) (T : KisTileData) (w : World σ) (x y : Int),
      ∃ p s w2, KisRandomAccessor2.rawDataImm K T { a with m_writable := mode } w x y
          = some (p, s, w2) ∧
        s.m_writable = mode ∧ s.rawDataConst = some p := by
  refine ⟨?_, ?_, ?_⟩
  · simp [KisRandomAccessor2.rawData, hc]
  · simp [KisRandomAccessor2.rawDataConst, hc]
  · intro σ K T w x y
    obtain ⟨s, hs, hw, _, _, _, _, hcase⟩ :=
      moveTo_step K T { a with m_writable := mode } w x y front rest hc
    have hne : ∃ f r, s.1.m_tilesCache = f :: r := by
      rcases hcase with ⟨_, h, _⟩ | ⟨_, e, kept, _, h, _⟩
      · exact ⟨_, _, h⟩
      · exact ⟨_, _, h⟩
    obtain ⟨f, r, hf⟩ := hne
    refine ⟨f.data + s.1.offset, s.1, s.2, ?_, hw, ?_⟩
    · simp [KisRandomAccessor2.rawDataImm, hs, hf]
    · simp [KisRandomAccessor2.rawDataConst, hf]

/-- C20, amended, on the sample accessor set to read-only. -/
theorem C20_pointer_whatever_the_mode_witness :
    sampleAccessor.m_tilesCache
      = ⟨⟨0, 0, -63, -63⟩, ⟨0, 0⟩, ⟨1, 1000000⟩, 0, 1000000⟩ :: [] ∧
    ({ sampleAccessor with m_writable := false }).rawData = some (0 + 0) ∧
    ({ sampleAccessor with m_writable := false }).rawDataConst = some (0 + 0) :=
  ⟨rfl,
   (C20_pointer_whatever_the_mode sampleAccessor false _ [] rfl).1,
   (C20_pointer_whatever_the_mode sampleAccessor false _ [] rfl).2.1⟩

/-! ## The size counter and the front entry -/

/-- C29: after construction and after every `moveTo` of a run the cache list
has `m_tilesCacheSize + 1` entries and `m_tilesCacheSize` lies between 0 and
`CACHESIZE`, which is 4; the list is not empty, so `rawData()`,
`rawDataConst()` and `oldRawData()` find the front entry they read, and so
does every further `moveTo`, which returns. -/
theorem C29_size_counter_invariant {σ : Type} (K : KisTiledDataManager σ) (T : KisTileData)
    (w : World σ) (x y offsetX offsetY : Int) (writable : Bool) (ps : List (Int × Int)) :
    ∃ s, KisRandomAccessor2.run K T w x y offsetX offsetY writable ps = some s ∧
      (s.1.m_tilesCache.length : Int) = s.1.m_tilesCacheSize + 1 ∧
      0 ≤ s.1.m_tilesCacheSize ∧
      s.1.m_tilesCacheSize ≤ KisRandomAccessor2.CACHESIZE ∧
      KisRandomAccessor2.CACHESIZE = 4 ∧
      (∃ front rest, s.1.m_tilesCache = front :: rest ∧
        s.1.rawData = some (front.data + s.1.offset) ∧
        s.1.rawDataConst = some (front.data + s.1.offset) ∧
        s.1.oldRawData = some (front.oldData + s.1.offset)) ∧
      ∀ x2 y2, ∃ s2, KisRandomAccessor2.moveTo K T s.1 s.2 x2 y2 = some s2 := by
  obtain ⟨s, hs, hl, h0, hn⟩ := run_induct K T
    (fun s => (s.1.m_tilesCache.length : Int) = s.1.m_tilesCacheSize + 1 ∧
      0 ≤ s.1.m_tilesCacheSize ∧ s.1.m_tilesCacheSize ≤ KisRandomAccessor2.CACHESIZE)
    (fun s x y h => moveTo_size K T s.1 s.2 x y h.1 h.2.1 h.2.2)
    w x y offsetX offsetY writable
    ⟨by simp [KisRandomAccessor2.ctorFetched], by simp [KisRandomAccessor2.ctorFetched],
     by simp [KisRandomAccessor2.ctorFetched, KisRandomAccessor2.CACHESIZE]⟩ ps
  refine ⟨s, hs, hl, h0, hn, rfl, ?_, ?_⟩
  · cases hc : s.1.m_tilesCache with
    | nil =>
      rw [hc] at hl
      simp only [List.length_nil, Nat.cast_zero] at hl
      omega
    | cons front rest =>
      exact ⟨front, rest, rfl, by simp [KisRandomAccessor2.rawData, hc],
        by simp [KisRandomAccessor2.rawDataConst, hc],
        by simp [KisRandomAccessor2.oldRawData, hc]⟩
  · intro x2 y2
    obtain ⟨s2, h2, _⟩ := moveTo_size K T s.1 s.2 x2 y2 hl h0 hn
    exact ⟨s2, h2⟩

/-! ## The fast path -/

theorem span_test_iff (v lo negHi : Int) (hv : inInt32 v) (hs : properSpan lo negHi) :
    (0 ≤ toInt32 (v - lo) ∧ 0 ≤ toInt32 (neg32 v - negHi)) ↔ (lo ≤ v ∧ v ≤ -negHi) := by
  obtain ⟨h0, h1, h2, h3, h4⟩ := hs
  unfold inInt32 at hv h0 h1 h2
  unfold neg32 toInt32
  constructor
  · rintro ⟨a, b⟩
    constructor <;> omega
  · rintro ⟨a, b⟩
    constructor <;> omega

theorem hits_iff_contains (a : KisRandomAccessor2) (area : Int32V) (x y : Int)
    (hr : area.properRect) :
    a.hits area x y = true
      ↔ area.contains (sub32 x a.m_offsetX) (sub32 y a.m_offsetY) := by
  have hx := span_test_iff (sub32 x a.m_offsetX) area.e0 area.e2 (toInt32_range _) hr.1
  have hy := span_test_iff (sub32 y a.m_offsetY) area.e1 area.e3 (toInt32_range _) hr.2
  simp only [KisRandomAccessor2.hits, posLanes, Int32V.allGe0, Int32V.sub, Bool.and_eq_true,
    decide_eq_true_eq, Int32V.contains]
  unfold sub32 at hx hy ⊢
  constructor
  · rintro ⟨⟨⟨d0, d1⟩, d2⟩, d3⟩
    exact ⟨(hx.1 ⟨d0, d2⟩).1, (hx.1 ⟨d0, d2⟩).2, (hy.1 ⟨d1, d3⟩).1, (hy.1 ⟨d1, d3⟩).2⟩
  · rintro ⟨c0, c1, c2, c3⟩
    exact ⟨⟨⟨(hx.2 ⟨c0, c1⟩).1, (hy.2 ⟨c2, c3⟩).1⟩, (hx.2 ⟨c0, c1⟩).2⟩, (hy.2 ⟨c2, c3⟩).2⟩

/-- C25: a `moveTo(x, y)` whose translated target passes the test against the
front entry's rectangle (which, for a rectangle that the 32-bit lanes hold
without wrapping, is to lie inside it, bounds included) returns and leaves the
world as it was: no call on the store (`getTile`, `getOldTile`, `xToCol`,
`yToRow`) and no lock or unlock is added to the record.  The cache list, its
entries and the size counter are unchanged; the accessor differs from the one
before in `m_lastX`, `m_lastY` and `offset` only. -/
theorem C25_fast_path_frame {σ : Type} (K : KisTiledDataManager σ) (T : KisTileData)
    (a : KisRandomAccessor2) (w : World σ) (x y : Int) (cur : KisTileInfo)
    (rest : List KisTileInfo) (hc : a.m_tilesCache = cur :: rest)
    (hin : a.hits cur.area x y = true ∨
      (cur.area.properRect ∧
        cur.area.contains (sub32 x a.m_offsetX) (sub32 y a.m_offsetY))) :
    ∃ s, KisRandomAccessor2.moveTo K T a w x y = some s ∧
      s.2 = w ∧ s.2.calls = w.calls ∧
      s.1.m_tilesCache = a.m_tilesCache ∧
      s.1.m_tilesCacheSize = a.m_tilesCacheSize ∧
      s.1 = { a with m_lastX := x, m_lastY := y, offset := s.1.offset } := by
  have hh : a.hits cur.area x y = true := by
    rcases hin with h | ⟨hr, hi⟩
    · exact h
    · exact (hits_iff_contains a cur.area x y hr).2 hi
  exact ⟨_, moveTo_hit K T a w x y cur rest hc hh, rfl, rfl, rfl, rfl, rfl⟩

/-- C25 on the sample accessor: `moveTo(5, 7)` translates to (2, 7), inside the
front entry's rectangle (0, 0) .. (63, 63). -/
theorem C25_fast_path_frame_witness :
    ∃ s, KisRandomAccessor2.moveTo (gridStore squareTiles 4) squareTiles sampleAccessor
        World.init 5 7 = some s ∧
      s.2 = World.init ∧ s.2.calls = World.init.calls ∧
      s.1.m_tilesCache = sampleAccessor.m_tilesCache ∧
      s.1.m_tilesCacheSize = sampleAccessor.m_tilesCacheSize ∧
      s.1 = { sampleAccessor with m_lastX := 5, m_lastY := 7, offset := s.1.offset } :=
  C25_fast_path_frame (gridStore squareTiles 4) squareTiles sampleAccessor World.init 5 7
    ⟨⟨0, 0, -63, -63⟩, ⟨0, 0⟩, ⟨1, 1000000⟩, 0, 1000000⟩ [] rfl
    (Or.inr ⟨by unfold Int32V.properRect properSpan inInt32; decide,
             by unfold Int32V.contains; decide⟩)

/-! ## The fast-path test and the two offset computations -/

theorem fastPathOffset_eq_spec (T : KisTileData) (P : Int) (area : Int32V) (x y : Int) :
    fastPathOffset ⟨P, mul32 P T.WIDTH, 0, 0⟩ area x y
      = toUInt32 (byteOffsetSpec area.e0 area.e1 x y T.WIDTH P) :=
  offset_fast x y area.e0 area.e1 P T.WIDTH

theorem fetchPathOffset_eq_spec (T : KisTileData) (P : Int) (area : Int32V) (x y : Int) :
    fetchPathOffset T P area x y = toUInt32 (byteOffsetSpec area.e0 area.e1 x y T.WIDTH P) :=
  offset_fetch x y area.e0 area.e1 P T.WIDTH

theorem fourBoundTest_iff (area : Int32V) (x y : Int) :
    fourBoundTest area.e0 area.e1 (-area.e2) (-area.e3) x y = true ↔ area.contains x y := by
  simp only [fourBoundTest, Int32V.contains, Bool.and_eq_true, decide_eq_true_eq, ge_iff_le]
  constructor
  · rintro ⟨⟨⟨h0, h1⟩, h2⟩, h3⟩
    exact ⟨h0, h2, h1, h3⟩
  · rintro ⟨h0, h2, h1, h3⟩
    exact ⟨⟨⟨h0, h1⟩, h2⟩, h3⟩

/-- C26: for a front entry whose recorded area is `(x1, y1, -x2, -y2)`, a
rectangle that the 32-bit lanes hold without wrapping, and the translated
point `(x, y)` of a `moveTo`, the test `all_of(pos - area >= 0)` of the source
answers what the four inclusive comparisons `x1 ≤ x ≤ x2`, `y1 ≤ y ≤ y2`
answer.  When it passes, `moveTo` returns with the offset of the fast path,
`lane0 * pixelSize + lane1 * (pixelSize * WIDTH)`; that value is the one the
fetch path computes for the same point and area, and both are
`((x - x1) + (y - y1) * WIDTH) * pixelSize` as a `quint32`, which is that
number itself whenever it fits 32 bits. -/
theorem C26_fast_path_test_is_four_bound_test {σ : Type} (K : KisTiledDataManager σ)
    (T : KisTileData) (a : KisRandomAccessor2) (w : World σ) (x y : Int) (cur : KisTileInfo)
    (rest : List KisTileInfo) (x1 y1 x2 y2 : Int)
    (hc : a.m_tilesCache = cur :: rest)
    (harea : cur.area = ⟨x1, y1, -x2, -y2⟩)
    (hr : cur.area.properRect)
    (hscale : a.m_offsetScale = ⟨a.m_pixelSize, mul32 a.m_pixelSize T.WIDTH, 0, 0⟩) :
    ((posLanes (sub32 x a.m_offsetX) (sub32 y a.m_offsetY)).sub cur.area).allGe0
      = fourBoundTest x1 y1 x2 y2 (sub32 x a.m_offsetX) (sub32 y a.m_offsetY) ∧
    (fourBoundTest x1 y1 x2 y2 (sub32 x a.m_offsetX) (sub32 y a.m_offsetY) = true →
      ∃ s, KisRandomAccessor2.moveTo K T a w x y = some s ∧
        s.1.offset = fastPathOffset a.m_offsetScale cur.area
                       (sub32 x a.m_offsetX) (sub32 y a.m_offsetY) ∧
        s.1.offset = fetchPathOffset T a.m_pixelSize cur.area
                       (sub32 x a.m_offsetX) (sub32 y a.m_offsetY) ∧
        s.1.offset = toUInt32 (byteOffsetSpec x1 y1 (sub32 x a.m_offsetX)
                       (sub32 y a.m_offsetY) T.WIDTH a.m_pixelSize) ∧
        (0 ≤ byteOffsetSpec x1 y1 (sub32 x a.m_offsetX) (sub32 y a.m_offsetY)
               T.WIDTH a.m_pixelSize →
         byteOffsetSpec x1 y1 (sub32 x a.m_offsetX) (sub32 y a.m_offsetY)
               T.WIDTH a.m_pixelSize < 4294967296 →
         s.1.offset = byteOffsetSpec x1 y1 (sub32 x a.m_offsetX) (sub32 y a.m_offsetY)
               T.WIDTH a.m_pixelSize)) := by
  have e0 : x1 = cur.area.e0 := by rw [harea]
  have e1 : y1 = cur.area.e1 := by rw [harea]
  have e2 : x2 = -cur.area.e2 := by rw [harea]; simp
  have e3 : y2 = -cur.area.e3 := by rw [harea]; simp
  have hiff : a.hits cur.area x y = true
      ↔ fourBoundTest x1 y1 x2 y2 (sub32 x a.m_offsetX) (sub32 y a.m_offsetY) = true := by
    rw [e0, e1, e2, e3, fourBoundTest_iff]
    exact hits_iff_contains a cur.area x y hr
  constructor
  · exact Bool.eq_iff_iff.2 hiff
  · intro ht
    have hoff : fastPathOffset a.m_offsetScale cur.area (sub32 x a.m_offsetX)
        (sub32 y a.m_offsetY)
        = toUInt32 (byteOffsetSpec x1 y1 (sub32 x a.m_offsetX) (sub32 y a.m_offsetY)
            T.WIDTH a.m_pixelSize) := by
      rw [hscale, e0, e1]
      exact fastPathOffset_eq_spec T a.m_pixelSize cur.area _ _
    have hfetch : fetchPathOffset T a.m_pixelSize cur.area (sub32 x a.m_offsetX)
        (sub32 y a.m_offsetY)
        = toUInt32 (byteOffsetSpec x1 y1 (sub32 x a.m_offsetX) (sub32 y a.m_offsetY)
            T.WIDTH a.m_pixelSize) := by
      rw [e0, e1]
      exact fetchPathOffset_eq_spec T a.m_pixelSize cur.area _ _
    refine ⟨_, moveTo_hit K T a w x y cur rest hc (hiff.2 ht), rfl, ?_, hoff, ?_⟩
    · exact hoff.trans hfetch.symm
    · intro h0 h1
      exact hoff.trans (toUInt32_of_range _ h0 h1)

/-- C26 on the sample accessor: the area (0, 0, -63, -63) and `moveTo(5, 7)`,
which translates to (2, 7). -/
theorem C26_fast_path_test_is_four_bound_test_witness :
    ((posLanes (sub32 5 sampleAccessor.m_offsetX) (sub32 7 sampleAccessor.m_offsetY)).sub
        (⟨0, 0, -63, -63⟩ : Int32V)).allGe0
      = fourBoundTest 0 0 63 63 (sub32 5 sampleAccessor.m_offsetX)
          (sub32 7 sampleAccessor.m_offsetY) ∧
    (fourBoundTest 0 0 63 63 (sub32 5 sampleAccessor.m_offsetX)
        (sub32 7 sampleAccessor.m_offsetY) = true →
      ∃ s, KisRandomAccessor2.moveTo (gridStore squareTiles 4) squareTiles sampleAccessor
          World.init 5 7 = some s ∧
        s.1.offset = fastPathOffset sampleAccessor.m_offsetScale ⟨0, 0, -63, -63⟩
                       (sub32 5 sampleAccessor.m_offsetX) (sub32 7 sampleAccessor.m_offsetY) ∧
        s.1.offset = fetchPathOffset squareTiles sampleAccessor.m_pixelSize ⟨0, 0, -63, -63⟩
                       (sub32 5 sampleAccessor.m_offsetX) (sub32 7 sampleAccessor.m_offsetY) ∧
        s.1.offset = toUInt32 (byteOffsetSpec 0 0 (sub32 5 sampleAccessor.m_offsetX)
                       (sub32 7 sampleAccessor.m_offsetY) squareTiles.WIDTH
                       sampleAccessor.m_pixelSize) ∧
        (0 ≤ byteOffsetSpec 0 0 (sub32 5 sampleAccessor.m_offsetX)
               (sub32 7 sampleAccessor.m_offsetY) squareTiles.WIDTH sampleAccessor.m_pixelSize →
         byteOffsetSpec 0 0 (sub32 5 sampleAccessor.m_offsetX)
               (sub32 7 sampleAccessor.m_offsetY) squareTiles.WIDTH sampleAccessor.m_pixelSize
             < 4294967296 →
         s.1.offset = byteOffsetSpec 0 0 (sub32 5 sampleAccessor.m_offsetX)
               (sub32 7 sampleAccessor.m_offsetY) squareTiles.WIDTH
               sampleAccessor.m_pixelSize)) :=
  C26_fast_path_test_is_four_bound_test (gridStore squareTiles 4) squareTiles sampleAccessor
    World.init 5 7 ⟨⟨0, 0, -63, -63⟩, ⟨0, 0⟩, ⟨1, 1000000⟩, 0, 1000000⟩ [] 0 0 63 63 rfl rfl
    (by unfold Int32V.properRect properSpan inInt32; decide) (by decide)

/-- On a miss `moveTo` assigns `offset` the value `fetchPathOffset` for the
translated point and the area of the entry it has just fetched to the front. -/
theorem moveTo_miss_offset {σ : Type} (K : KisTiledDataManager σ) (T : KisTileData)
    (a : KisRandomAccessor2) (w : World σ) (x y : Int) (cur : KisTileInfo)
    (rest : List KisTileInfo) (hc : a.m_tilesCache = cur :: rest)
    (hh : a.hits cur.area x y = false) :
    ∃ s front kept, KisRandomAccessor2.moveTo K T a w x y = some s ∧
      s.1.m_tilesCache = front :: kept ∧
      s.1.offset = fetchPathOffset T a.m_pixelSize front.area
                     (sub32 x a.m_offsetX) (sub32 y a.m_offsetY) := by
  obtain ⟨kept, n, pre, w1, _, _, _, hm⟩ := moveTo_miss K T a w x y cur rest hc hh
  exact ⟨_, _, kept, hm, rfl, rfl⟩

/-! ## Most recently fetched first -/

theorem fetchedIds_append (cs ds : List Call) :
    fetchedIds (cs ++ ds) = fetchedIds cs ++ fetchedIds ds := by
  induction cs with
  | nil => rfl
  | cons c cs ih => cases c <;> simp [fetchedIds, ih]

theorem fetchedOldIds_append (cs ds : List Call) :
    fetchedOldIds (cs ++ ds) = fetchedOldIds cs ++ fetchedOldIds ds := by
  induction cs with
  | nil => rfl
  | cons c cs ih => cases c <;> simp [fetchedOldIds, ih]

theorem fetchedIds_fetchCalls (wr : Bool) (col row : Int) (t o : Nat) :
    fetchedIds (fetchCalls wr col row t o) = [t] ∧
    fetchedOldIds (fetchCalls wr col row t o) = [o] := by
  cases wr <;> exact ⟨rfl, rfl⟩

/-- Pushing in front of a list that is the first five of `l` and has fewer than
five members, or in front of all but the last of one that has five, gives the
first five of the list with the new member in front. -/
theorem take_five_push (v : Nat) (ids kept l : List Nat) (hids : ids = l.take 5)
    (hk : (kept = ids ∧ ids.length ≤ 4) ∨ (kept = ids.dropLast ∧ ids.length = 5)) :
    v :: kept = (v :: l).take 5 := by
  have e : (v :: l).take 5 = v :: l.take 4 := rfl
  rw [e]
  congr 1
  rcases hk with ⟨rfl, hlen⟩ | ⟨rfl, hlen⟩
  · rw [hids] at hlen ⊢
    rw [List.length_take] at hlen
    have hl : l.length ≤ 4 := by omega
    rw [List.take_of_length_le (by omega), List.take_of_length_le hl]
  · rw [List.dropLast_eq_take, hlen, hids, List.take_take]
    rfl

/-- Every `moveTo` keeps the size relation and the order of the cache. -/
theorem moveTo_mru {σ : Type} (K : KisTiledDataManager σ) (T : KisTileData)
    (s : KisRandomAccessor2 × World σ) (x y : Int)
    (h : ((s.1.m_tilesCache.length : Int) = s.1.m_tilesCacheSize + 1 ∧
          0 ≤ s.1.m_tilesCacheSize ∧ s.1.m_tilesCacheSize ≤ KisRandomAccessor2.CACHESIZE) ∧
         MruOrder s) :
    ∃ s2, KisRandomAccessor2.moveTo K T s.1 s.2 x y = some s2 ∧
      ((s2.1.m_tilesCache.length : Int) = s2.1.m_tilesCacheSize + 1 ∧
        0 ≤ s2.1.m_tilesCacheSize ∧ s2.1.m_tilesCacheSize ≤ KisRandomAccessor2.CACHESIZE) ∧
      MruOrder s2 := by
  obtain ⟨⟨hl, h0, hn⟩, hids, holds⟩ := h
  obtain ⟨s2, e2, hsize⟩ := moveTo_size K T s.1 s.2 x y hl h0 hn
  refine ⟨s2, e2, hsize, ?_⟩
  cases hc : s.1.m_tilesCache with
  | nil =>
    rw [hc] at hl
    simp only [List.length_nil, Nat.cast_zero] at hl
    omega
  | cons cur rest =>
    obtain ⟨s3, e3, _, _, _, _, _, hcase⟩ := moveTo_step K T s.1 s.2 x y cur rest hc
    have e : s3 = s2 := Option.some.inj (e3.symm.trans e2)
    subst e
    rcases hcase with ⟨_, hcache, _, hw⟩ | ⟨_, e, kept, pre, hcache, hk, _, _, hcalls⟩
    · unfold MruOrder
      rw [hcache, hw, ← hc]
      exact ⟨hids, holds⟩
    · have hlen : ((cur :: rest).length : Int) = s.1.m_tilesCacheSize + 1 := by
        rw [← hc]
        exact hl
      have hpre : fetchedIds pre = [] ∧ fetchedOldIds pre = [] ∧
          ((kept = cur :: rest ∧ (cur :: rest).length ≤ 4) ∨
           (kept = (cur :: rest).dropLast ∧ (cur :: rest).length = 5)) := by
        unfold KisRandomAccessor2.CACHESIZE at hk hn
        rcases hk with ⟨h1, h2, _, h4⟩ | ⟨h1, h2, _, h4⟩
        · exact ⟨by rw [h4]; rfl, by rw [h4]; rfl, Or.inl ⟨h2, by omega⟩⟩
        · exact ⟨by rw [h4]; rfl, by rw [h4]; rfl, Or.inr ⟨h2, by omega⟩⟩
      obtain ⟨p1, p2, hkept⟩ := hpre
      have f1 := (fetchedIds_fetchCalls s.1.m_writable
        (fetchIndex K.xToCol (sub32 x s.1.m_offsetX))
        (fetchIndex K.yToRow (sub32 y s.1.m_offsetY)) e.tile.id e.oldtile.id).1
      have f2 := (fetchedIds_fetchCalls s.1.m_writable
        (fetchIndex K.xToCol (sub32 x s.1.m_offsetX))
        (fetchIndex K.yToRow (sub32 y s.1.m_offsetY)) e.tile.id e.oldtile.id).2
      rw [hc] at hids holds
      unfold MruOrder
      rw [hcache, hcalls]
      simp only [fetchedIds_append, fetchedOldIds_append, p1, p2, f1, f2, List.append_nil,
        List.reverse_append, List.reverse_cons, List.reverse_nil, List.nil_append,
        List.singleton_append, List.map_cons]
      constructor
      · apply take_five_push _ _ _ _ hids
        rcases hkept with ⟨k1, k2⟩ | ⟨k1, k2⟩
        · exact Or.inl ⟨by rw [k1], by simpa using k2⟩
        · exact Or.inr ⟨by rw [k1, List.map_dropLast], by simpa using k2⟩
      · apply take_five_push _ _ _ _ holds
        rcases hkept with ⟨k1, k2⟩ | ⟨k1, k2⟩
        · exact Or.inl ⟨by rw [k1], by simpa using k2⟩
        · exact Or.inr ⟨by rw [k1, List.map_dropLast], by simpa using k2⟩

theorem ctorFetched_mru {σ : Type} (K : KisTiledDataManager σ) (T : KisTileData)
    (st : σ) (x y offsetX offsetY : Int) (writable : Bool) :
    MruOrder (KisRandomAccessor2.ctorFetched K T ⟨st, []⟩ x y offsetX offsetY writable) := by
  obtain ⟨e, hcache, hcalls⟩ := ctorFetched_calls K T ⟨st, []⟩ x y offsetX offsetY writable
  have f := fetchedIds_fetchCalls writable
    (toInt32 (toUInt32 (toInt32 (K.xToCol (toInt32 (toUInt32 (sub32 x offsetX)))))))
    (toInt32 (toUInt32 (toInt32 (K.yToRow (toInt32 (toUInt32 (sub32 y offsetY)))))))
    e.tile.id e.oldtile.id
  unfold MruOrder
  rw [hcache, hcalls]
  simp only [fetchedIds_append, fetchedOldIds_append, f.1, f.2, List.nil_append]
  exact ⟨rfl, rfl⟩

/-- The order of the cache and what a miss does to it, for every run.  After
construction and any sequence of `moveTo` calls the cache is ordered most
recently fetched first (its tiles are the last five that `getTile` returned,
newest first), and so it is after one more `moveTo`.  That `moveTo` either
passes the front test and leaves cache and call record alone, or misses and
puts the entry it fetches in front of the other entries, which keep their
order.  When the size counter is below `CACHESIZE` all entries are kept and no
unlock is issued.  When it equals `CACHESIZE`, which is when the list holds
five entries, the back entry `back` is the one removed, and the calls of the
move are one unlock of `back`'s current tile, one unlock of its old tile, then
`xToCol`, `yToRow` and the six calls of the fetch of the new tile: no other
unlock occurs. -/
theorem mru_order_and_eviction {σ : Type} (K : KisTiledDataManager σ) (T : KisTileData)
    (st : σ) (x y offsetX offsetY : Int) (writable : Bool) (ps : List (Int × Int)) :
    ∃ s front rest,
      KisRandomAccessor2.run K T ⟨st, []⟩ x y offsetX offsetY writable ps = some s ∧
      s.1.m_tilesCache = front :: rest ∧ MruOrder s ∧
      ∀ x2 y2, ∃ s2, KisRandomAccessor2.moveTo K T s.1 s.2 x2 y2 = some s2 ∧ MruOrder s2 ∧
        ((s.1.hits front.area x2 y2 = true ∧ s2.1.m_tilesCache = s.1.m_tilesCache ∧
            s2.2.calls = s.2.calls) ∨
         (s.1.hits front.area x2 y2 = false ∧ ∃ e,
            e.tile = (K.getTile s.2.store (fetchIndex K.xToCol (sub32 x2 s.1.m_offsetX))
                        (fetchIndex K.yToRow (sub32 y2 s.1.m_offsetY)) s.1.m_writable).1 ∧
            ((s.1.m_tilesCacheSize ≠ KisRandomAccessor2.CACHESIZE ∧
                s2.1.m_tilesCache = e :: s.1.m_tilesCache ∧
                s2.2.calls = s.2.calls ++
                  [Call.xToCol (toInt32 (toUInt32 (sub32 x2 s.1.m_offsetX))),
                   Call.yToRow (toInt32 (toUInt32 (sub32 y2 s.1.m_offsetY)))] ++
                  fetchCalls s.1.m_writable (fetchIndex K.xToCol (sub32 x2 s.1.m_offsetX))
                    (fetchIndex K.yToRow (sub32 y2 s.1.m_offsetY)) e.tile.id e.oldtile.id) ∨
             (s.1.m_tilesCacheSize = KisRandomAccessor2.CACHESIZE ∧
                ∃ kept back, s.1.m_tilesCache = kept ++ [back] ∧
                  s2.1.m_tilesCache = e :: kept ∧
                  s2.2.calls = s.2.calls ++
                    [Call.unlock back.tile.id, Call.unlock back.oldtile.id,
                     Call.xToCol (toInt32 (toUInt32 (sub32 x2 s.1.m_offsetX))),
                     Call.yToRow (toInt32 (toUInt32 (sub32 y2 s.1.m_offsetY)))] ++
                    fetchCalls s.1.m_writable (fetchIndex K.xToCol (sub32 x2 s.1.m_offsetX))
                      (fetchIndex K.yToRow (sub32 y2 s.1.m_offsetY))
                      e.tile.id e.oldtile.id)))) := by
  obtain ⟨s, hs, hsize, hmru⟩ := run_induct K T
    (fun s => ((s.1.m_tilesCache.length : Int) = s.1.m_tilesCacheSize + 1 ∧
        0 ≤ s.1.m_tilesCacheSize ∧ s.1.m_tilesCacheSize ≤ KisRandomAccessor2.CACHESIZE) ∧
      MruOrder s)
    (moveTo_mru K T) ⟨st, []⟩ x y offsetX offsetY writable
    ⟨⟨by simp [KisRandomAccessor2.ctorFetched], by simp [KisRandomAccessor2.ctorFetched],
      by simp [KisRandomAccessor2.ctorFetched, KisRandomAccessor2.CACHESIZE]⟩,
     ctorFetched_mru K T st x y offsetX offsetY writable⟩ ps
  cases hc : s.1.m_tilesCache with
  | nil =>
    have hl := hsize.1
    rw [hc] at hl
    simp only [List.length_nil, Nat.cast_zero] at hl
    omega
  | cons front rest =>
    refine ⟨s, front, rest, hs, hc, hmru, ?_⟩
    intro x2 y2
    obtain ⟨s2, e2, _, hmru2⟩ := moveTo_mru K T s x2 y2 ⟨hsize, hmru⟩
    refine ⟨s2, e2, hmru2, ?_⟩
    obtain ⟨s3, e3, _, _, _, _, _, hcase⟩ := moveTo_step K T s.1 s.2 x2 y2 front rest hc
    have e : s3 = s2 := Option.some.inj (e3.symm.trans e2)
    subst e
    rcases hcase with ⟨hh, hcache, _, hw⟩ | ⟨hh, e, kept, pre, hcache, hk, htile, _, hcalls⟩
    · exact Or.inl ⟨hh, hcache.trans hc.symm, by rw [hw]⟩
    · refine Or.inr ⟨hh, e, htile, ?_⟩
      rcases hk with ⟨h1, h2, _, h4⟩ | ⟨h1, h2, _, h4⟩
      · refine Or.inl ⟨h1, ?_, ?_⟩
        · rw [hcache, h2, hc]
        · rw [hcalls, h4]
      · refine Or.inr ⟨h1, kept, (front :: rest).getLast (List.cons_ne_nil front rest), ?_, hcache,
          ?_⟩
        · rw [hc, h2]
          exact (List.dropLast_append_getLast (List.cons_ne_nil front rest)).symm
        · rw [hcalls, h4]

/-- C27 (eviction at capacity), evaluated on the 64 by 64 store.  After
construction at (0, 0) and moves to three further tiles the cache holds
`CACHESIZE` = 4 entries, with the size counter at 3.  The next miss,
`moveTo(256, 0)`, removes no entry and issues no unlock: its calls are
`xToCol`, `yToRow` and the six calls of the fetch, and the cache holds 5
entries with the tile of cell (0, 0) still at the back.  Only the miss after
that, `moveTo(320, 0)`, unlocks the two tiles of the back entry and removes
it. -/
theorem C27_no_eviction_at_four_entries :
    (KisRandomAccessor2.run (gridStore squareTiles 4) squareTiles World.init 0 0 0 0 true
        [(64, 0), (128, 0), (192, 0)]).map
        (fun s => (s.1.m_tilesCache.length, s.1.m_tilesCacheSize, s.2.calls.length))
      = some (4, 3, 32) ∧
    KisRandomAccessor2.CACHESIZE = 4 ∧
    (KisRandomAccessor2.run (gridStore squareTiles 4) squareTiles World.init 0 0 0 0 true
        [(64, 0), (128, 0), (192, 0), (256, 0)]).map
        (fun s => (s.1.m_tilesCache.map (fun e => e.tile.id), s.2.calls.drop 32))
      = some ([cellTileId 4 0, cellTileId 3 0, cellTileId 2 0, cellTileId 1 0, cellTileId 0 0],
          [Call.xToCol 256, Call.yToRow 0,
           Call.getTile 4 0 true (cellTileId 4 0), Call.lockForWrite (cellTileId 4 0),
           Call.data (cellTileId 4 0),
           Call.getOldTile 4 0 (cellTileId 4 0 + 1), Call.lockForRead (cellTileId 4 0 + 1),
           Call.data (cellTileId 4 0 + 1)]) ∧
    (KisRandomAccessor2.run (gridStore squareTiles 4) squareTiles World.init 0 0 0 0 true
        [(64, 0), (128, 0), (192, 0), (256, 0), (320, 0)]).map
        (fun s => (s.1.m_tilesCache.map (fun e => e.tile.id), (s.2.calls.drop 40).take 2))
      = some ([cellTileId 5 0, cellTileId 4 0, cellTileId 3 0, cellTileId 2 0, cellTileId 1 0],
          [Call.unlock (cellTileId 0 0), Call.unlock (cellTileId 0 0 + 1)]) := by
  decide

/-! ## The number of `getTile` calls -/

theorem getTileCount_append (cs ds : List Call) :
    getTileCount (cs ++ ds) = getTileCount cs + getTileCount ds := by
  simp [getTileCount, List.countP_append]

theorem getTileCount_fetchCalls (wr : Bool) (col row : Int) (t o : Nat) :
    getTileCount (fetchCalls wr col row t o) = 1 := by
  cases wr <;> rfl

/-- One `moveTo` adds one `getTile` call to the record when it misses the front
entry and none when it does not, and leaves a front entry. -/
theorem moveTo_getTileCount {σ : Type} (K : KisTiledDataManager σ) (T : KisTileData)
    (s : KisRandomAccessor2 × World σ) (x y : Int) (hne : s.1.m_tilesCache ≠ []) :
    ∃ s2, KisRandomAccessor2.moveTo K T s.1 s.2 x y = some s2 ∧ s2.1.m_tilesCache ≠ [] ∧
      getTileCount s2.2.calls
        = getTileCount s.2.calls + (if s.1.misses x y then 1 else 0) := by
  obtain ⟨cur, rest, hc⟩ := List.exists_cons_of_ne_nil hne
  obtain ⟨s2, e2, _, _, _, _, _, hcase⟩ := moveTo_step K T s.1 s.2 x y cur rest hc
  have hm : s.1.misses x y = !(s.1.hits cur.area x y) := by
    simp only [KisRandomAccessor2.misses, hc]
  refine ⟨s2, e2, ?_, ?_⟩
  · rcases hcase with ⟨_, h, _⟩ | ⟨_, e, kept, _, h, _⟩
    · rw [h]; exact List.cons_ne_nil _ _
    · rw [h]; exact List.cons_ne_nil _ _
  · rcases hcase with ⟨hh, _, _, hw⟩ | ⟨hh, e, kept, pre, _, hk, _, _, hcalls⟩
    · rw [hm, hh, hw]
      rfl
    · have hpre : getTileCount pre = 0 := by
        rcases hk with ⟨_, _, _, h4⟩ | ⟨_, _, _, h4⟩
        · rw [h4]; rfl
        · rw [h4]; rfl
      rw [hm, hh, hcalls, getTileCount_append, getTileCount_append, hpre,
        getTileCount_fetchCalls]
      rfl

/-- Over a sequence of `moveTo` calls the record gains one `getTile` call per
call that misses the front entry. -/
theorem moveAll_getTileCount {σ : Type} (K : KisTiledDataManager σ) (T : KisTileData)
    (ps : List (Int × Int)) (s : KisRandomAccessor2 × World σ) (hne : s.1.m_tilesCache ≠ []) :
    ∃ s2, KisRandomAccessor2.moveAll K T s ps = some s2 ∧
      getTileCount s2.2.calls
        = getTileCount s.2.calls + KisRandomAccessor2.missCount K T s ps := by
  induction ps generalizing s with
  | nil => exact ⟨s, rfl, rfl⟩
  | cons p ps ih =>
    obtain ⟨s1, e1, hne1, h1⟩ := moveTo_getTileCount K T s p.1 p.2 hne
    obtain ⟨s2, e2, h2⟩ := ih s1 hne1
    refine ⟨s2, by simp only [KisRandomAccessor2.moveAll, e1, e2], ?_⟩
    simp only [KisRandomAccessor2.missCount, e1]
    omega

/-- The `getTile` calls of a run: one by the constructor's own fetch, one more
when the `moveTo` call that ends the constructor misses the entry just
fetched, and one per `moveTo` call of the sequence that misses the front
entry. -/
theorem run_getTile_total {σ : Type} (K : KisTiledDataManager σ) (T : KisTileData)
    (st : σ) (x y offsetX offsetY : Int) (writable : Bool) (ps : List (Int × Int)) :
    ∃ s0 s, KisRandomAccessor2.ctor K T ⟨st, []⟩ x y offsetX offsetY writable = some s0 ∧
      KisRandomAccessor2.run K T ⟨st, []⟩ x y offsetX offsetY writable ps = some s ∧
      getTileCount s0.2.calls
        = 1 + (if (KisRandomAccessor2.ctorFetched K T ⟨st, []⟩ x y offsetX offsetY
                    writable).1.misses (sub32 x offsetX) (sub32 y offsetY) then 1 else 0) ∧
      getTileCount s.2.calls
        = getTileCount s0.2.calls + KisRandomAccessor2.missCount K T s0 ps := by
  obtain ⟨e, hcache, hcalls⟩ := ctorFetched_calls K T ⟨st, []⟩ x y offsetX offsetY writable
  obtain ⟨s0, e0, hne0, h0⟩ := moveTo_getTileCount K T
    (KisRandomAccessor2.ctorFetched K T ⟨st, []⟩ x y offsetX offsetY writable)
    (sub32 x offsetX) (sub32 y offsetY) (by rw [hcache]; exact List.cons_ne_nil _ _)
  obtain ⟨s, e1, h1⟩ := moveAll_getTileCount K T ps s0 hne0
  refine ⟨s0, s, ?_, ?_, ?_, h1⟩
  · rw [ctor_eq_moveTo]
    exact e0
  · unfold KisRandomAccessor2.run
    rw [ctor_eq_moveTo, e0]
    exact e1
  · rw [h0, hcalls, getTileCount_append, getTileCount_append, getTileCount_fetchCalls]
    rfl

/-- The entry a `moveTo` that misses puts at the front: the tiles the store
returns for the cell of the translated target from its state before the move. -/
theorem moveTo_miss_front {σ : Type} (K : KisTiledDataManager σ) (T : KisTileData)
    (a : KisRandomAccessor2) (w : World σ) (x y : Int) (cur : KisTileInfo)
    (rest : List KisTileInfo) (hc : a.m_tilesCache = cur :: rest)
    (hh : a.hits cur.area x y = false) :
    ∃ s e kept, KisRandomAccessor2.moveTo K T a w x y = some s ∧
      s.1.m_tilesCache = e :: kept ∧
      e.tile = (K.getTile w.store (fetchIndex K.xToCol (sub32 x a.m_offsetX))
                 (fetchIndex K.yToRow (sub32 y a.m_offsetY)) a.m_writable).1 ∧
      e.oldtile = (K.getOldTile
                 (K.getTile w.store (fetchIndex K.xToCol (sub32 x a.m_offsetX))
                   (fetchIndex K.yToRow (sub32 y a.m_offsetY)) a.m_writable).2
                 (fetchIndex K.xToCol (sub32 x a.m_offsetX))
                 (fetchIndex K.yToRow (sub32 y a.m_offsetY))).1 := by
  obtain ⟨kept, n, pre, w1, hst, _, _, hm⟩ := moveTo_miss K T a w x y cur rest hc hh
  refine ⟨_, _, kept, hm, rfl, ?_, ?_⟩
  · rw [fetchTileData_tile, hst]
    rfl
  · rw [fetchTileData_oldtile, hst]
    rfl

/-- C28: only the front entry is tested, and every `moveTo` that fails that
test fetches.  After construction and any sequence of `moveTo` calls the cache
has a front entry, and a further `moveTo` misses exactly when its translated
target fails the test against the front entry's rectangle, whatever the other
entries hold.  A `moveTo` that misses makes, after calls that are not of a
fetch, exactly one `getTile` and one `getOldTile` call, both for the cell of
its translated target, each followed by the lock of the tile returned and the
read of its buffer address, and puts an entry with these two tiles at the
front; a `moveTo` that does not miss adds no call.  So the `getTile` calls of a
run number one for the constructor's own fetch plus one for every `moveTo` call
that misses the front entry, the `moveTo` call that closes the constructor
(with the translated construction point) counted with the moves of the
sequence. -/
theorem C28_every_miss_fetches_once {σ : Type} (K : KisTiledDataManager σ) (T : KisTileData)
    (st : σ) (x y offsetX offsetY : Int) (writable : Bool) (ps : List (Int × Int)) :
    ∃ s front rest,
      KisRandomAccessor2.run K T ⟨st, []⟩ x y offsetX offsetY writable ps = some s ∧
      s.1.m_tilesCache = front :: rest ∧
      getTileCount s.2.calls
        = 1 + KisRandomAccessor2.missCount K T
                (KisRandomAccessor2.ctorFetched K T ⟨st, []⟩ x y offsetX offsetY writable)
                ((sub32 x offsetX, sub32 y offsetY) :: ps) ∧
      ∀ x2 y2, s.1.misses x2 y2 = !(s.1.hits front.area x2 y2) ∧
        ∃ s2, KisRandomAccessor2.moveTo K T s.1 s.2 x2 y2 = some s2 ∧
          (s.1.hits front.area x2 y2 = true → s2.2.calls = s.2.calls) ∧
          (s.1.hits front.area x2 y2 = false → ∃ pre tile oldtile e kept,
            (∀ c ∈ pre, c.isOfFetch = false) ∧
            tile = (K.getTile s.2.store (fetchIndex K.xToCol (sub32 x2 s.1.m_offsetX))
                     (fetchIndex K.yToRow (sub32 y2 s.1.m_offsetY)) writable).1 ∧
            oldtile = (K.getOldTile
                     (K.getTile s.2.store (fetchIndex K.xToCol (sub32 x2 s.1.m_offsetX))
                       (fetchIndex K.yToRow (sub32 y2 s.1.m_offsetY)) writable).2
                     (fetchIndex K.xToCol (sub32 x2 s.1.m_offsetX))
                     (fetchIndex K.yToRow (sub32 y2 s.1.m_offsetY))).1 ∧
            s2.2.calls = s.2.calls ++ pre ++
              [Call.getTile (fetchIndex K.xToCol (sub32 x2 s.1.m_offsetX))
                 (fetchIndex K.yToRow (sub32 y2 s.1.m_offsetY)) writable tile.id,
               lockCall writable tile.id,
               Call.data tile.id,
               Call.getOldTile (fetchIndex K.xToCol (sub32 x2 s.1.m_offsetX))
                 (fetchIndex K.yToRow (sub32 y2 s.1.m_offsetY)) oldtile.id,
               Call.lockForRead oldtile.id,
               Call.data oldtile.id] ∧
            getTileCount s2.2.calls = getTileCount s.2.calls + 1 ∧
            s2.1.m_tilesCache = e :: kept ∧ e.tile = tile ∧ e.oldtile = oldtile) := by
  obtain ⟨s, hs, ⟨hw, hne, _, _⟩, _, hmove⟩ :=
    run_fetch_record K T st x y offsetX offsetY writable ps
  obtain ⟨s0, s1, e0, e1, h0, h1⟩ := run_getTile_total K T st x y offsetX offsetY writable ps
  have es : s1 = s := Option.some.inj (e1.symm.trans hs)
  subst es
  obtain ⟨front, rest, hc⟩ := List.exists_cons_of_ne_nil hne
  refine ⟨s1, front, rest, hs, hc, ?_, ?_⟩
  · rw [ctor_eq_moveTo] at e0
    simp only [KisRandomAccessor2.missCount, e0]
    omega
  · intro x2 y2
    have hm : s1.1.misses x2 y2 = !(s1.1.hits front.area x2 y2) := by
      simp only [KisRandomAccessor2.misses, hc]
    refine ⟨hm, ?_⟩
    obtain ⟨s2, e2, _, hhit, hmiss⟩ := hmove x2 y2
    refine ⟨s2, e2, ?_, ?_⟩
    · intro hh
      exact hhit (by rw [hm, hh]; rfl)
    · intro hh
      obtain ⟨pre, hpre, hcalls⟩ := hmiss (by rw [hm, hh]; rfl)
      obtain ⟨s3, e, kept, e3, hcache, ht, ho⟩ :=
        moveTo_miss_front K T s1.1 s1.2 x2 y2 front rest hc hh
      have e32 : s3 = s2 := Option.some.inj (e3.symm.trans e2)
      subst e32
      obtain ⟨s4, e4, _, hcount⟩ := moveTo_getTileCount K T s1 x2 y2 hne
      have e43 : s4 = s3 := Option.some.inj (e4.symm.trans e2)
      subst e43
      rw [hw] at ht ho
      refine ⟨pre, _, _, e, kept, hpre, rfl, rfl, hcalls, ?_, hcache, ht, ho⟩
      rw [hcount, hm, hh]
      rfl

/-- The refetch of a cell that an entry behind the front holds, on the 64 by
64 store with `offsetX = 64`.  The constructor at (128, 0) fetches cell (1, 0)
and its closing `moveTo` fetches cell (0, 0).  `moveTo(128, 0)` translates to
(64, 0), misses the front entry (cell (0, 0)) and fetches cell (1, 0) again. -/
theorem refetch_of_held_cell_on_gridStore :
    (KisRandomAccessor2.ctor (gridStore squareTiles 4) squareTiles World.init 128 0 64 0
        true).map (fun s => (getTileCount s.2.calls, s.1.m_tilesCache.map (fun e => e.tile.id),
          KisRandomAccessor2.missCount (gridStore squareTiles 4) squareTiles s [(128, 0)]))
      = some (2, [cellTileId 0 0, cellTileId 1 0], 1) ∧
    (KisRandomAccessor2.run (gridStore squareTiles 4) squareTiles World.init 128 0 64 0 true
        [(128, 0)]).map (fun s => (getTileCount s.2.calls,
          s.1.m_tilesCache.map (fun e => e.tile.id), s.2.calls.drop 16))
      = some (3, [cellTileId 1 0, cellTileId 0 0, cellTileId 1 0],
          [Call.xToCol 64, Call.yToRow 0,
           Call.getTile 1 0 true (cellTileId 1 0), Call.lockForWrite (cellTileId 1 0),
           Call.data (cellTileId 1 0),
           Call.getOldTile 1 0 (cellTileId 1 0 + 1), Call.lockForRead (cellTileId 1 0 + 1),
           Call.data (cellTileId 1 0 + 1)]) := by
  decide

/-! ## The channel docker model: `rowActivated` and `setData` -/

theorem setBit_spec (b : QBitArray) (i : Nat) (v : Bool) (hi : i < b.length) :
    QBitArray.setBit b (i : Int) v = some (b.set i v) := by
  unfold QBitArray.setBit
  rw [if_pos ⟨by omega, by omega⟩]
  simp

/-- The first `n` rounds of the loop of `rowActivated`: they return, keep the
length of the bit array, leave every bit from `n` on and every bit of an alpha
channel as it was, and make the bit of every channel below `n` that is not
alpha say whether the channel is `channelIndex`. -/
theorem rowActivatedLoop_rounds (channels : List KoChannelInfo) (channelIndex : Int)
    (flags : QBitArray) (hlen : channels.length ≤ flags.length) (n : Nat)
    (hn : n ≤ channels.length) :
    ∃ r, (List.range n).foldlM
        (fun (fl : QBitArray) (i : Nat) =>
          match channels[i]? with
          | none => none
          | some ch =>
            if ch.channelType ≠ ChannelType.ALPHA then
              fl.setBit (i : Int) (decide ((i : Int) = channelIndex))
            else some fl)
        flags = some r ∧
      r.length = flags.length ∧
      ∀ (i : Nat),
        (n ≤ i → r[i]? = flags[i]?) ∧
        (∀ ch, i < n → channels[i]? = some ch → ch.channelType = ChannelType.ALPHA →
          r[i]? = flags[i]?) ∧
        (∀ ch, i < n → channels[i]? = some ch → ch.channelType ≠ ChannelType.ALPHA →
          r[i]? = some (decide ((i : Int) = channelIndex))) := by
  induction n with
  | zero =>
    refine ⟨flags, rfl, rfl, fun i => ⟨fun _ => rfl, ?_, ?_⟩⟩
    · intro ch h
      omega
    · intro ch h
      omega
  | succ n ih =>
    obtain ⟨r, hr, hl, hspec⟩ := ih (by omega)
    have hnlt : n < channels.length := by omega
    obtain ⟨ch, hch⟩ : ∃ ch, channels[n]? = some ch :=
      ⟨channels[n], List.getElem?_eq_getElem hnlt⟩
    rw [List.range_succ, List.foldlM_append, hr]
    simp only [List.foldlM_cons, List.foldlM_nil, hch, Option.some_bind, Option.bind_eq_bind]
    by_cases ha : ch.channelType = ChannelType.ALPHA
    · refine ⟨r, ?_, hl, ?_⟩
      · simp [ha]
      · intro i
        refine ⟨fun h => (hspec i).1 (by omega), ?_, ?_⟩
        · intro c hi hc hca
          by_cases hin : i < n
          · exact (hspec i).2.1 c hin hc hca
          · exact (hspec i).1 (by omega)
        · intro c hi hc hca
          by_cases hin : i < n
          · exact (hspec i).2.2 c hin hc hca
          · have e : i = n := by omega
            subst e
            rw [hch] at hc
            cases hc
            exact absurd ha hca
    · refine ⟨r.set n (decide ((n : Int) = channelIndex)), ?_, ?_, ?_⟩
      · simp only [ha, ne_eq, not_false_eq_true, if_true]
        rw [setBit_spec r n _ (by omega)]
        rfl
      · rw [List.length_set, hl]
      · intro i
        refine ⟨?_, ?_, ?_⟩
        · intro h
          rw [List.getElem?_set_ne (by omega)]
          exact (hspec i).1 (by omega)
        · intro c hi hc hca
          have hne : n ≠ i := by
            intro e
            subst e
            rw [hch] at hc
            cases hc
            exact ha hca
          rw [List.getElem?_set_ne hne]
          by_cases hin : i < n
          · exact (hspec i).2.1 c hin hc hca
          · exact absurd (by omega : n = i) hne
        · intro c hi hc hca
          by_cases hin : i < n
          · rw [List.getElem?_set_ne (by omega)]
            exact (hspec i).2.2 c hin hc hca
          · have e : i = n := by omega
            subst e
            rw [List.getElem?_set_self (by omega)]

theorem rowActivatedLoop_spec (channels : List KoChannelInfo) (channelIndex : Int)
    (flags : QBitArray) (hlen : channels.length ≤ flags.length) :
    ∃ r, ChannelModel.rowActivatedLoop channels channelIndex flags = some r ∧
      r.length = flags.length ∧
      ∀ (i : Nat) (ch : KoChannelInfo), channels[i]? = some ch →
        (ch.channelType = ChannelType.ALPHA → r[i]? = flags[i]?) ∧
        (ch.channelType ≠ ChannelType.ALPHA →
          r[i]? = some (decide ((i : Int) = channelIndex))) := by
  obtain ⟨r, hr, hl, hspec⟩ :=
    rowActivatedLoop_rounds channels channelIndex flags hlen channels.length (Nat.le_refl _)
  refine ⟨r, hr, hl, fun i ch hch => ?_⟩
  have hi : i < channels.length := (List.getElem?_eq_some.1 hch).1
  exact ⟨(hspec i).2.1 ch hi hch, (hspec i).2.2 ch hi hch⟩

/-- C22: for a model with a canvas and an image, whose colour space hands out
one flag per channel, `rowActivated` returns.  When the colour space has no
channel nothing is written.  Otherwise exactly one call
`rootLayer->setChannelFlags(flags)` is made, the root layer of the model is the
one that call leaves, and in `flags` the bit of every channel that is not
alpha is set if the channel is the one mapped from the activated row and
cleared if it is any other. -/
theorem C22_rowActivated_selects_mapped_channel {L : Type}
    (displayPositionToChannelIndex : Int → List KoChannelInfo → Int)
    (R : KisGroupLayer L) (m : ChannelModel L) (index : QModelIndex) (rootLayer : L)
    (hroot : m.rootLayer = some rootLayer)
    (hflags : ((R.colorSpace rootLayer).channelFlags true true).length
                = (R.colorSpace rootLayer).channels.length) :
    ((R.colorSpace rootLayer).channels = [] ∧
      ChannelModel.rowActivated displayPositionToChannelIndex R m index = some (m, [])) ∨
    (∃ flags,
      ChannelModel.rowActivated displayPositionToChannelIndex R m index
        = some (m.withRootLayer (R.setChannelFlags rootLayer flags),
                [ChannelEvent.setChannelFlags flags, ChannelEvent.channelFlagsChanged,
                 ChannelEvent.dataChanged 0 0 (R.colorSpace rootLayer).channels.length 0]) ∧
      flags.length = (R.colorSpace rootLayer).channels.length ∧
      ∀ (i : Nat) (ch : KoChannelInfo), (R.colorSpace rootLayer).channels[i]? = some ch →
        ch.channelType ≠ ChannelType.ALPHA →
        flags[i]? = some (decide ((i : Int) = displayPositionToChannelIndex index.row
                            (R.colorSpace rootLayer).channels))) := by
  by_cases he : ((R.colorSpace rootLayer).channelFlags true true).isEmpty = true
  · left
    have h0 : (R.colorSpace rootLayer).channels.length = 0 := by
      rw [← hflags]
      simpa [QBitArray.isEmpty] using he
    refine ⟨List.length_eq_zero.1 h0, ?_⟩
    unfold ChannelModel.rowActivated
    simp only [hroot, he, if_true]
  · right
    obtain ⟨r, hr, hl, hspec⟩ := rowActivatedLoop_spec (R.colorSpace rootLayer).channels
      (displayPositionToChannelIndex index.row (R.colorSpace rootLayer).channels)
      ((R.colorSpace rootLayer).channelFlags true true) (by omega)
    refine ⟨r, ?_, by rw [hl, hflags], fun i ch hch hna => (hspec i ch hch).2 hna⟩
    unfold ChannelModel.rowActivated
    simp only [hroot, he, hr]
    rfl

/-- C22 on the sample model: row 0 (red) of the colour space `rgbaSpace`. -/
theorem C22_rowActivated_selects_mapped_channel_witness :
    (rgbaSpace.channels = [] ∧
      ChannelModel.rowActivated positionToIndex plainLayer (sampleChannelModel [])
        ⟨0, 0, true⟩ = some (sampleChannelModel [], [])) ∨
    (∃ flags,
      ChannelModel.rowActivated positionToIndex plainLayer (sampleChannelModel [])
          ⟨0, 0, true⟩
        = some ((sampleChannelModel []).withRootLayer
                  (plainLayer.setChannelFlags ⟨rgbaSpace, []⟩ flags),
                [ChannelEvent.setChannelFlags flags, ChannelEvent.channelFlagsChanged,
                 ChannelEvent.dataChanged 0 0 rgbaSpace.channels.length 0]) ∧
      flags.length = rgbaSpace.channels.length ∧
      ∀ (i : Nat) (ch : KoChannelInfo), rgbaSpace.channels[i]? = some ch →
        ch.channelType ≠ ChannelType.ALPHA →
        flags[i]? = some (decide ((i : Int) = positionToIndex 0 rgbaSpace.channels))) :=
  C22_rowActivated_selects_mapped_channel positionToIndex plainLayer (sampleChannelModel [])
    ⟨0, 0, true⟩ ⟨rgbaSpace, []⟩ rfl rfl


/-- What `setData` does, case by case.  Without a canvas and an image, or with
a role other than `Qt::CheckStateRole`, it returns `false` and leaves the model
alone.  With `Qt::CheckStateRole` and a channel index `i` inside the bit array
`cs->channelFlags(true, true)`, it returns `true` and hands the root layer
that array with bit `i` replaced by `value == Qt::Checked`: the other bits are
those of the colour space's array, not those the root layer held. -/
theorem setData_spec {L : Type}
    (displayPositionToChannelIndex : Int → List KoChannelInfo → Int)
    (R : KisGroupLayer L) (m : ChannelModel L) (index : QModelIndex) (value role : Int) :
    (m.rootLayer = none →
      ChannelModel.setData displayPositionToChannelIndex R m index value role
        = some (false, m, [])) ∧
    (role ≠ Qt.CheckStateRole →
      ChannelModel.setData displayPositionToChannelIndex R m index value role
        = some (false, m, [])) ∧
    (∀ (rootLayer : L) (i : Nat), m.rootLayer = some rootLayer → role = Qt.CheckStateRole →
      displayPositionToChannelIndex index.row (R.colorSpace rootLayer).channels = (i : Int) →
      i < ((R.colorSpace rootLayer).channelFlags true true).length →
      ChannelModel.setData displayPositionToChannelIndex R m index value role
        = some (true,
            m.withRootLayer (R.setChannelFlags rootLayer
              (((R.colorSpace rootLayer).channelFlags true true).set i
                (decide (value = Qt.Checked)))),
            [ChannelEvent.setChannelFlags
               (((R.colorSpace rootLayer).channelFlags true true).set i
                 (decide (value = Qt.Checked))),
             ChannelEvent.channelFlagsChanged,
             ChannelEvent.dataChanged 0 0 (R.colorSpace rootLayer).channels.length 0])) := by
  refine ⟨?_, ?_, ?_⟩
  · intro h
    unfold ChannelModel.setData
    simp only [h]
  · intro h
    unfold ChannelModel.setData
    cases hr : m.rootLayer with
    | none => rfl
    | some l => simp only [h, if_false]
  · intro rootLayer i hroot hrole hi hlt
    have hne : ((R.colorSpace rootLayer).channelFlags true true).isEmpty = false := by
      unfold QBitArray.isEmpty
      simp only [beq_eq_false_iff_ne, ne_eq]
      omega
    unfold ChannelModel.setData
    simp only [hroot, hrole, if_true, hne, hi, setBit_spec _ i _ hlt]
    rfl

/-- C23, evaluated on the colour space `rgbaSpace` (blue, green, red, alpha).
From a fresh model `setData` with `Qt::Unchecked` on row 3 (alpha) leaves the
root layer the flags 1, 1, 1, 0, and `data` reports the alpha row unchecked.
`rowActivated` on row 0 (red) then hands the root layer the flags 0, 0, 1, 1:
the alpha flag, cleared before the call, is set after it, and `data` reports
the alpha row checked. -/
theorem C23_rowActivated_sets_cleared_alpha :
    (ChannelModel.setData positionToIndex plainLayer (sampleChannelModel []) ⟨3, 0, true⟩
        Qt.Unchecked Qt.CheckStateRole).map
        (fun r => (r.1, r.2.1.rootFlags,
          ChannelModel.data positionToIndex plainLayer r.2.1 ⟨3, 0, true⟩ Qt.CheckStateRole))
      = some (true, some [true, true, true, false], some (QVariant.int Qt.Unchecked)) ∧
    ((ChannelModel.setData positionToIndex plainLayer (sampleChannelModel []) ⟨3, 0, true⟩
        Qt.Unchecked Qt.CheckStateRole).bind
        (fun r => ChannelModel.rowActivated positionToIndex plainLayer r.2.1
          ⟨0, 0, true⟩)).map
        (fun r => (r.1.rootFlags, r.2,
          ChannelModel.data positionToIndex plainLayer r.1 ⟨3, 0, true⟩ Qt.CheckStateRole))
      = some (some [false, false, true, true],
          [ChannelEvent.setChannelFlags [false, false, true, true],
           ChannelEvent.channelFlagsChanged, ChannelEvent.dataChanged 0 0 4 0],
          some (QVariant.int Qt.Checked)) := by
  decide

/-- C30, evaluated on the colour space `rgbaSpace` (blue, green, red, alpha).
From a fresh model `setData` with `Qt::Unchecked` on row 0 (red) leaves the
root layer the flags 1, 1, 0, 1, and `data` reports the red row unchecked.
`setData` with `Qt::Unchecked` on row 1 (green) then hands the root layer the
flags 1, 0, 1, 1: the addressed flag is cleared, and the flag of red, cleared
before the call, is set after it, so `data` reports the red row checked. -/
theorem C30_setData_resets_other_flags :
    (ChannelModel.setData positionToIndex plainLayer (sampleChannelModel []) ⟨0, 0, true⟩
        Qt.Unchecked Qt.CheckStateRole).map
        (fun r => (r.1, r.2.1.rootFlags,
          ChannelModel.data positionToIndex plainLayer r.2.1 ⟨0, 0, true⟩ Qt.CheckStateRole))
      = some (true, some [true, true, false, true], some (QVariant.int Qt.Unchecked)) ∧
    ((ChannelModel.setData positionToIndex plainLayer (sampleChannelModel []) ⟨0, 0, true⟩
        Qt.Unchecked Qt.CheckStateRole).bind
        (fun r => ChannelModel.setData positionToIndex plainLayer r.2.1 ⟨1, 0, true⟩
          Qt.Unchecked Qt.CheckStateRole)).map
        (fun r => (r.1, r.2.1.rootFlags, r.2.2))
      = some (true, some [true, false, true, true],
          [ChannelEvent.setChannelFlags [true, false, true, true],
           ChannelEvent.channelFlagsChanged, ChannelEvent.dataChanged 0 0 4 0]) ∧
    ((ChannelModel.setData positionToIndex plainLayer (sampleChannelModel []) ⟨0, 0, true⟩
        Qt.Unchecked Qt.CheckStateRole).bind
        (fun r => ChannelModel.setData positionToIndex plainLayer r.2.1 ⟨1, 0, true⟩
          Qt.Unchecked Qt.CheckStateRole)).map
        (fun r =>
          (ChannelModel.data positionToIndex plainLayer r.2.1 ⟨0, 0, true⟩ Qt.CheckStateRole,
           ChannelModel.data positionToIndex plainLayer r.2.1 ⟨1, 0, true⟩ Qt.CheckStateRole))
      = some (some (QVariant.int Qt.Checked), some (QVariant.int Qt.Unchecked)) := by
  decide

/-! ## The pixel distance of the clone test -/

/-- C24, evaluated on images of one channel.  For the pixel value 0 against
the pixel value 1 `distance` returns 65025: the difference -1 is stored in a
`quint8` as 255 and squared.  The sum of squared differences is 1, and
`distance` with the two pixels exchanged returns 1. -/
theorem C24_distance_of_darker_pixel_wraps :
    (grayImage 0).distance 0 0 (grayImage 1) 0 0 = 65025 ∧
    (grayImage 0).ssd 0 0 (grayImage 1) 0 0 = 1 ∧
    (grayImage 1).distance 0 0 (grayImage 0) 0 0 = 1 ∧
    (grayImage 1).ssd 0 0 (grayImage 0) 0 0 = 1 := by
  decide


/-! ## Recorded rectangles and the premise of the fast-path statements -/

/-- The rectangle `fetchTileData` records for a cell whose pixels have `qint32`
coordinates is one that the 32-bit lanes hold without wrapping, for tile sides
above 1 that are `qint32` values: the rectangles the premise of the fast-path
statements is about include all those the accessor records on such a grid. -/
theorem fetchTileData_area_proper {σ : Type} (K : KisTiledDataManager σ)
    (T : KisTileData) (wr : Bool) (w : World σ) (col row : Int) (kti : KisTileInfo)
    (hW : 1 < T.WIDTH) (hH : 1 < T.HEIGHT) (hW2 : T.WIDTH < 2147483648)
    (hH2 : T.HEIGHT < 2147483648) (hr : cellInRange T.transposed col row) :
    (KisRandomAccessor2.fetchTileData K T wr w col row kti).1.area.properRect := by
  rw [fetchTileData_area_transposed K T wr w col row kti hW hH hr]
  obtain ⟨h1, h2, h3, h4⟩ := hr
  simp only [KisTileData.transposed] at h1 h2 h3 h4
  simp only [Int32V.properRect, properSpan, inInt32, cellArea, KisTileData.transposed]
  generalize col * T.HEIGHT = cw at h1 h2 ⊢
  generalize row * T.WIDTH = rw at h3 h4 ⊢
  refine ⟨⟨⟨?_, ?_⟩, ⟨?_, ?_⟩, ⟨?_, ?_⟩, ?_, ?_⟩, ⟨⟨?_, ?_⟩, ⟨?_, ?_⟩, ⟨?_, ?_⟩, ?_, ?_⟩⟩ <;> omega

/-! ## The pixel distance where no difference wraps -/

theorem floatUlp_small (n : Nat) (h : n < 16777216) : floatUlp n n 1 = 1 := by
  cases n with
  | zero => rfl
  | succ k => simp [floatUlp, h]

theorem floatOfNat_small (n : Nat) (h : n < 16777216) : floatOfNat n = n := by
  unfold floatOfNat
  rw [floatUlp_small n h]
  simp [Nat.mod_one]

/-- What `distance` does compute where no difference wraps: when every channel
value of this image's pixel is at least the other's and the images have at
most 258 channels (so that the sum stays below `2^24` and the `float` holds it
exactly), the result is the sum of squared differences.  In particular it is 0
for equal pixels. -/
theorem distance_eq_ssd_of_ge (a b : MaskedImage) (x y xo yo : Int)
    (hn : a.channelCount ≤ 258)
    (hge : ∀ c, c < a.channelCount → b.getImagePixelU8 xo yo c ≤ a.getImagePixelU8 x y c) :
    ((a.distance x y b xo yo : Nat) : Int) = a.ssd x y b xo yo := by
  have key : ∀ n, n ≤ a.channelCount →
      (((List.range n).foldl
          (fun (dsq : Nat) (chan : Nat) =>
            floatOfNat (dsq + ((((a.getImagePixelU8 x y chan : Int)
              - (b.getImagePixelU8 xo yo chan : Int)) % 256).toNat
              * (((a.getImagePixelU8 x y chan : Int)
              - (b.getImagePixelU8 xo yo chan : Int)) % 256).toNat))) 0 : Nat) : Int)
        = ((List.range n).map
            (fun (c : Nat) => ((a.getImagePixelU8 x y c : Int)
              - (b.getImagePixelU8 xo yo c : Int)) ^ 2)).sum ∧
      (List.range n).foldl
          (fun (dsq : Nat) (chan : Nat) =>
            floatOfNat (dsq + ((((a.getImagePixelU8 x y chan : Int)
              - (b.getImagePixelU8 xo yo chan : Int)) % 256).toNat
              * (((a.getImagePixelU8 x y chan : Int)
              - (b.getImagePixelU8 xo yo chan : Int)) % 256).toNat))) 0 ≤ 65025 * n := by
    intro n
    induction n with
    | zero => intro _; exact ⟨rfl, Nat.le_refl _⟩
    | succ n ih =>
      intro hle
      obtain ⟨h1, h2⟩ := ih (by omega)
      have ha : a.getImagePixelU8 x y n < 256 := Nat.mod_lt _ (by decide)
      have hb := hge n (by omega)
      rw [List.range_succ, List.foldl_append, List.map_append, List.sum_append]
      simp only [List.foldl_cons, List.foldl_nil, List.map_cons, List.map_nil, List.sum_cons,
        List.sum_nil, add_zero]
      generalize (List.range n).foldl
          (fun (dsq : Nat) (chan : Nat) =>
            floatOfNat (dsq + ((((a.getImagePixelU8 x y chan : Int)
              - (b.getImagePixelU8 xo yo chan : Int)) % 256).toNat
              * (((a.getImagePixelU8 x y chan : Int)
              - (b.getImagePixelU8 xo yo chan : Int)) % 256).toNat))) 0 = acc at h1 h2 ⊢
      obtain ⟨d, hd⟩ : ∃ d : Nat, a.getImagePixelU8 x y n = b.getImagePixelU8 xo yo n + d :=
        ⟨a.getImagePixelU8 x y n - b.getImagePixelU8 xo yo n, by omega⟩
      have hd256 : d < 256 := by omega
      have hv : (((a.getImagePixelU8 x y n : Int) - (b.getImagePixelU8 xo yo n : Int)) % 256).toNat
          = d := by
        rw [hd]
        have e : (((b.getImagePixelU8 xo yo n + d : Nat) : Int)
            - (b.getImagePixelU8 xo yo n : Int)) = (d : Int) := by
          push_cast
          ring
        rw [e]
        omega
      have hdiff : (a.getImagePixelU8 x y n : Int) - (b.getImagePixelU8 xo yo n : Int) = (d : Int) := by
        rw [hd]
        push_cast
        ring
      rw [hv, hdiff]
      have hsq : d * d ≤ 65025 := by nlinarith
      have hsmall : acc + d * d < 16777216 := by omega
      rw [floatOfNat_small _ hsmall]
      constructor
      · push_cast
        rw [h1]
        ring
      · omega
  unfold MaskedImage.distance MaskedImage.ssd
  exact (key a.channelCount (Nat.le_refl _)).1

theorem distance_same_pixel (a : MaskedImage) (x y : Int) (hn : a.channelCount ≤ 258) :
    a.distance x y a x y = 0 := by
  have h := distance_eq_ssd_of_ge a a x y x y hn (fun _ _ => Nat.le_refl _)
  have hz : a.ssd x y a x y = 0 := by
    unfold MaskedImage.ssd
    simp
  rw [hz] at h
  exact_mod_cast h
